import Mathlib

/-!
Explicit-free-list allocator (`ff.c`): shallow embedding

The C file is embedded for an LP64 little-endian target, the platform its own
pointer casts assume (`(long)(bp = mem_sbrk(size))`, pointer-sized list links
stored `DSIZE` bytes apart):

* `unsigned int` is 32 bits, `size_t` and pointers are 64 bits; every
  `size_t`/pointer computation is taken modulo `2^64`, every `PUT` stores the
  value modulo `2^32`;
* memory is a map from byte addresses to bytes; `GET`/`PUT` move four bytes,
  the list links `PREV_FREE`/`NEXT_FREE` move eight;
* an access outside the current heap `[lo, brk)` is a fault, `none`, and the
  faulting call produces no result; an access inside the heap is performed
  whatever its address, as the target performs it, aligned or not;
* the two globals `heap_listp`, `free_listp` and the provider's break are
  fields of an explicit state.
-/

namespace Malloc

/-! ## Constants and macros -/

/-- Word size in bytes (`WSIZE`). -/
def WSIZE : Nat := 4
/-- Double word size in bytes (`DSIZE`). -/
def DSIZE : Nat := 8
/-- Initial heap size in bytes (`CHUNKSIZE`, `1<<12`). -/
def CHUNKSIZE : Nat := 4096
/-- Overhead of header and footer in bytes (`OVERHEAD`). -/
def OVERHEAD : Nat := 8
/-- Alignment in bytes (`ALIGNMENT`). -/
def ALIGNMENT : Nat := 8

/-- Number of values of an `unsigned int`. -/
def U32 : Nat := 4294967296
/-- Number of values of a `size_t` or of a pointer. -/
def U64 : Nat := 18446744073709551616

/-- The mask `~0x7` as an `unsigned int`. -/
def MASK32 : Nat := 4294967288
/-- The mask `~0x7` converted to `size_t`. -/
def MASK64 : Nat := 18446744073709551608

/-- Addition of `size_t` values or of a pointer and an offset. -/
def add64 (a b : Nat) : Nat := (a + b) % U64
/-- Subtraction of `size_t` values or of an offset from a pointer. -/
def sub64 (a b : Nat) : Nat := (a + U64 - b % U64) % U64
/-- Multiplication of `size_t` values. -/
def mul64 (a b : Nat) : Nat := (a * b) % U64

/-- The macro `MAX(x, y)`. -/
def MAX (x y : Nat) : Nat := if x > y then x else y

/-- The macro `PACK(size, alloc)`. -/
def PACK (size alloc : Nat) : Nat := size ||| alloc

/-- The macro `ALIGN(p)` on a `size_t`. -/
def ALIGN (p : Nat) : Nat := (add64 p (ALIGNMENT - 1)) &&& MASK64

/-- The constant `SIZE_T_SIZE`, `ALIGN(sizeof(size_t))`. -/
def SIZE_T_SIZE : Nat := ALIGN 8

/-- Size field of a header or footer word (`& ~0x7` of `GET_SIZE`). -/
def sizeOf32 (w : Nat) : Nat := w &&& MASK32
/-- Allocated bit of a header or footer word (`& 0x1` of `GET_ALLOC`). -/
def allocOf32 (w : Nat) : Nat := w &&& 1

/-- The macro `HDRP(bp)`. -/
def HDRP (bp : Nat) : Nat := sub64 bp WSIZE

/-! ## Memory and allocator state -/

/-- Byte-addressed memory. -/
abbrev Mem := Nat → Nat

/-- Little-endian read of `n` bytes at `p`. -/
def rdLE (m : Mem) (p : Nat) : Nat → Nat
  | 0 => 0
  | n + 1 => m p % 256 + 256 * rdLE m (p + 1) n

/-- Little-endian write of the low `n` bytes of `v` at `p`. -/
def wrLE (m : Mem) (p n v : Nat) : Mem :=
  fun a => if p ≤ a ∧ a < p + n then v / 256 ^ (a - p) % 256 else m a

/-- Allocator state: the heap bytes, the provider's region and the two globals. -/
structure State where
  /-- Contents of memory. -/
  mem : Mem
  /-- First byte of the heap (`mem_heap_lo`). -/
  lo : Nat
  /-- First byte after the heap (the provider's break). -/
  brk : Nat
  /-- First address the provider cannot hand out. -/
  max : Nat
  /-- The value the provider returns when it fails. -/
  failv : Nat
  /-- The global `heap_listp`. -/
  heap_listp : Nat
  /-- The global `free_listp`. -/
  free_listp : Nat

/-- An access of `w` bytes at `p` lies inside the heap. -/
def okAt (st : State) (p w : Nat) : Prop := st.lo ≤ p ∧ p + w ≤ st.brk

instance (st : State) (p w : Nat) : Decidable (okAt st p w) := by
  unfold okAt; infer_instance

/-- The macro `GET(p)`. -/
def GET (st : State) (p : Nat) : Option Nat :=
  if okAt st p 4 then some (rdLE st.mem p 4) else none

/-- The macro `PUT(p, val)`; the stored value is an `unsigned int`. -/
def PUT (st : State) (p val : Nat) : Option State :=
  if okAt st p 4 then some { st with mem := wrLE st.mem p 4 (val % U32) } else none

/-- Read of a pointer-sized object at `p` (`*(char **)p`). -/
def GETP (st : State) (p : Nat) : Option Nat :=
  if okAt st p 8 then some (rdLE st.mem p 8) else none

/-- Write of a pointer-sized object at `p` (`*(char **)p = val`). -/
def PUTP (st : State) (p val : Nat) : Option State :=
  if okAt st p 8 then some { st with mem := wrLE st.mem p 8 (val % U64) } else none

/-- The macro `GET_SIZE(p)`. -/
def GET_SIZE (st : State) (p : Nat) : Option Nat := (GET st p).map sizeOf32

/-- The macro `GET_ALLOC(p)`. -/
def GET_ALLOC (st : State) (p : Nat) : Option Nat := (GET st p).map allocOf32

/-- The macro `FTRP(bp)`. -/
def FTRP (st : State) (bp : Nat) : Option Nat :=
  (GET_SIZE st (HDRP bp)).map (fun s => sub64 (add64 bp s) DSIZE)

/-- The macro `NEXT_BLKP(bp)`. -/
def NEXT_BLKP (st : State) (bp : Nat) : Option Nat :=
  (GET_SIZE st (sub64 bp WSIZE)).map (fun s => add64 bp s)

/-- The macro `PREV_BLKP(bp)`. -/
def PREV_BLKP (st : State) (bp : Nat) : Option Nat :=
  (GET_SIZE st (sub64 bp DSIZE)).map (fun s => sub64 bp s)

/-- The macro `NEXT_FREE(bp)` used as a value. -/
def NEXT_FREE (st : State) (bp : Nat) : Option Nat := GETP st (add64 bp DSIZE)

/-- The macro `PREV_FREE(bp)` used as a value. -/
def PREV_FREE (st : State) (bp : Nat) : Option Nat := GETP st bp

/-- Assignment `NEXT_FREE(bp) = val`. -/
def setNEXT_FREE (st : State) (bp val : Nat) : Option State := PUTP st (add64 bp DSIZE) val

/-- Assignment `PREV_FREE(bp) = val`. -/
def setPREV_FREE (st : State) (bp val : Nat) : Option State := PUTP st bp val

/-- Modelled from the spec: the heap growth provider `mem_sbrk` of `memlib`,
which is not among the sources. It extends the contiguous heap by `incr` bytes
and returns the start of the added region, or returns its failure value and
changes nothing when the region would pass the provider's limit. -/
def mem_sbrk (st : State) (incr : Nat) : Nat × State :=
  if st.brk + incr ≤ st.max then (st.brk, { st with brk := st.brk + incr })
  else (st.failv, st)

/-! ## The allocator -/

/-- The function `insertF`. -/
def insertF (st : State) (ptr : Nat) : Option State := do
  let s1 ← setNEXT_FREE st ptr st.free_listp
  let s2 ← setPREV_FREE s1 s1.free_listp ptr
  let s3 ← setPREV_FREE s2 ptr 0
  pure { s3 with free_listp := ptr }

/-- The function `removeF`. -/
def removeF (st : State) (ptr : Nat) : Option State := do
  let p ← PREV_FREE st ptr
  let s1 ← (if p ≠ 0 then do
              let n ← NEXT_FREE st ptr
              setNEXT_FREE st p n
            else do
              let n ← NEXT_FREE st ptr
              pure { st with free_listp := n })
  let n1 ← NEXT_FREE s1 ptr
  let p1 ← PREV_FREE s1 ptr
  setPREV_FREE s1 n1 p1

/-- The statement pair `PUT(HDRP(bp), PACK(size, 0)); PUT(FTRP(bp), PACK(size, 0));`
that `coalesce` repeats in each merging case. -/
def putFreeTags (st : State) (bp size : Nat) : Option State := do
  let s1 ← PUT st (HDRP bp) (PACK size 0)
  let f ← FTRP s1 bp
  PUT s1 f (PACK size 0)

/-- The merging cases of `coalesce`, up to the final `insertF`: the block
pointer and the state reached by the `if`/`else if` chain. -/
def coalesceCases (st : State) (bp pAlloc nAlloc size : Nat) : Option (Nat × State) :=
  if pAlloc = 0 ∧ nAlloc ≠ 0 then do
    let prev ← PREV_BLKP st bp
    let ps ← GET_SIZE st (HDRP prev)
    let s1 ← removeF st prev
    let s2 ← putFreeTags s1 prev (add64 size ps)
    pure (prev, s2)
  else if pAlloc ≠ 0 ∧ nAlloc = 0 then do
    let next ← NEXT_BLKP st bp
    let ns ← GET_SIZE st (HDRP next)
    let next ← NEXT_BLKP st bp
    let s1 ← removeF st next
    let s2 ← putFreeTags s1 bp (add64 size ns)
    pure (bp, s2)
  else if pAlloc = 0 ∧ nAlloc = 0 then do
    let prev ← PREV_BLKP st bp
    let ps ← GET_SIZE st (HDRP prev)
    let next ← NEXT_BLKP st bp
    let ns ← GET_SIZE st (HDRP next)
    let prev ← PREV_BLKP st bp
    let s1 ← removeF st prev
    let next ← NEXT_BLKP s1 bp
    let s2 ← removeF s1 next
    let prev ← PREV_BLKP s2 bp
    let s3 ← putFreeTags s2 prev (add64 size (add64 ps ns))
    pure (prev, s3)
  else pure (bp, st)

/-- The function `coalesce`; the result is the returned block pointer and the
state. -/
def coalesce (st : State) (bp : Nat) : Option (Nat × State) := do
  let prev ← PREV_BLKP st bp
  let pf ← FTRP st prev
  let pa ← GET_ALLOC st pf
  let pAlloc : Nat := if pa ≠ 0 ∨ prev = bp then 1 else 0
  let next ← NEXT_BLKP st bp
  let nAlloc ← GET_ALLOC st (HDRP next)
  let size ← GET_SIZE st (HDRP bp)
  let (bp1, s1) ← coalesceCases st bp pAlloc nAlloc size
  let s2 ← insertF s1 bp1
  pure (bp1, s2)

/-- The function `extend_heap`; a result pointer `0` is `NULL`. -/
def extend_heap (st : State) (words : Nat) : Option (Nat × State) :=
  let size := if words % 2 ≠ 0 then mul64 (add64 words 1) WSIZE else mul64 words WSIZE
  let size := if size < DSIZE * 4 then DSIZE * 4 else size
  let (bp, s0) := mem_sbrk st size
  if bp = U64 - 1 then some (0, s0)
  else do
    let s1 ← PUT s0 (HDRP bp) (PACK size 0)
    let f ← FTRP s1 bp
    let s2 ← PUT s1 f (PACK size 0)
    let nb ← NEXT_BLKP s2 bp
    let s3 ← PUT s2 (HDRP nb) (PACK 0 1)
    coalesce s3 bp

/-- The function `mm_init`; the result is the returned `int` and the state. -/
def mm_init (st : State) : Option (Int × State) :=
  let (p, s0) := mem_sbrk st (4 * DSIZE)
  let s0 := { s0 with heap_listp := p }
  if p = 0 then some (-1, s0)
  else do
    let s1 ← PUT s0 s0.heap_listp 0
    let s2 ← PUT s1 (add64 s1.heap_listp WSIZE) (PACK OVERHEAD 1)
    let s3 ← PUT s2 (add64 s2.heap_listp DSIZE) (PACK OVERHEAD 1)
    let s4 ← PUT s3 (add64 (add64 s3.heap_listp WSIZE) DSIZE) (PACK 0 1)
    let s5 := { s4 with heap_listp := add64 s4.heap_listp DSIZE }
    let s6 := { s5 with free_listp := s5.heap_listp }
    let (r, s7) ← extend_heap s6 (CHUNKSIZE / WSIZE)
    if r = 0 then pure (-1, s7) else pure (0, s7)

/-- The function `place`. -/
def place (st : State) (bp asize : Nat) : Option State := do
  let csize ← GET_SIZE st (HDRP bp)
  if sub64 csize asize ≥ DSIZE + OVERHEAD then do
    let s1 ← PUT st (HDRP bp) (PACK asize 1)
    let f ← FTRP s1 bp
    let s2 ← PUT s1 f (PACK asize 1)
    let s3 ← removeF s2 bp
    let bp2 ← NEXT_BLKP s3 bp
    let s4 ← PUT s3 (HDRP bp2) (PACK (sub64 csize asize) 0)
    let f2 ← FTRP s4 bp2
    PUT s4 f2 (PACK (sub64 csize asize) 0)
  else do
    let s1 ← PUT st (HDRP bp) (PACK csize 1)
    let f ← FTRP s1 bp
    let s2 ← PUT s1 f (PACK csize 1)
    removeF s2 bp

/-- The loop of `find_fit`, run for at most `fuel` iterations; `some 0` is the
`NULL` result, `none` a fault or an exhausted bound. -/
def find_fit_loop (st : State) (asize : Nat) : Nat → Nat → Option Nat
  | 0, _ => none
  | fuel + 1, bp => do
    let a ← GET_ALLOC st (HDRP bp)
    if a = 0 then do
      let s ← GET_SIZE st (HDRP bp)
      if s ≥ asize then pure bp
      else do
        let n ← NEXT_FREE st bp
        find_fit_loop st asize fuel n
    else pure 0

/-- The function `find_fit`. The loop writes nothing and every block pointer it
visits has its header word inside the heap, so a walk of more steps than the
heap has words has entered a cycle, which the C loop never leaves. -/
def find_fit (st : State) (asize : Nat) : Option Nat :=
  find_fit_loop st asize ((st.brk - st.lo) / 4 + 2) st.free_listp

/-- The function `mm_malloc`; a result pointer `0` is `NULL`. -/
def mm_malloc (st : State) (size : Nat) : Option (Nat × State) :=
  let asize := MAX (add64 (ALIGN size) DSIZE) (DSIZE * 4)
  if size ≤ 0 then some (0, st)
  else do
    let bp ← find_fit st asize
    if bp ≠ 0 then do
      let s1 ← place st bp asize
      pure (bp, s1)
    else do
      let extend := MAX asize CHUNKSIZE
      let (bp, s1) ← extend_heap st (extend / WSIZE)
      if bp = 0 then pure (0, s1)
      else do
        let s2 ← place s1 bp asize
        pure (bp, s2)

/-- The function `mm_free`. -/
def mm_free (st : State) (ptr : Nat) : Option State :=
  if ptr = 0 then some st
  else do
    let size ← GET_SIZE st (HDRP ptr)
    let f ← FTRP st ptr
    let s1 ← PUT st f (PACK size 0)
    let s2 ← PUT s1 (HDRP ptr) (PACK size 0)
    let (_, s3) ← coalesce s2 ptr
    pure s3

/-! ## Runs and observations -/

/-- A call of the public interface made by a client. -/
inductive Call where
  /-- The call `mm_malloc(size)`. -/
  | malloc (size : Nat)
  /-- The call `mm_free(ptr)`. -/
  | free (ptr : Nat)

/-- Runs a sequence of calls; the result lists the pointers returned by the
`mm_malloc` calls, in order, and the final state. A fault in any call ends the
run without a result. -/
def runCalls : State → List Call → Option (List Nat × State)
  | st, [] => some ([], st)
  | st, Call.malloc n :: cs => do
      let (p, s1) ← mm_malloc st n
      let (ps, s2) ← runCalls s1 cs
      pure (p :: ps, s2)
  | st, Call.free p :: cs => do
      let s1 ← mm_free st p
      runCalls s1 cs

/-- Memory whose every byte is zero. -/
def zeroMem : Mem := fun _ => 0

/-- The state before `mm_init`: an empty heap at `base` over memory `m`, a
provider that hands out addresses below `limit` and returns `failv` when it
fails, and both globals still `0`. -/
def fresh (m : Mem) (base limit failv : Nat) : State :=
  { mem := m, lo := base, brk := base, max := limit, failv := failv,
    heap_listp := 0, free_listp := 0 }

/-- The value `(void *)-1`. -/
def MINUS1 : Nat := U64 - 1

/-- Modelled from the spec: `mem_heap_lo` of `memlib`, the first heap byte. -/
def mem_heap_lo (st : State) : Nat := st.lo

/-- Modelled from the spec: `mem_heap_hi` of `memlib`, the last heap byte. -/
def mem_heap_hi (st : State) : Nat := st.brk - 1

/-- Walks the physically adjacent blocks from `bp` with `NEXT_BLKP` until a
header of size zero (the epilogue); each block is listed as block pointer,
header size and header allocated bit. -/
def blocksFrom (st : State) : Nat → Nat → Option (List (Nat × Nat × Nat))
  | 0, _ => none
  | fuel + 1, bp => do
      let w ← GET st (HDRP bp)
      if sizeOf32 w = 0 then pure []
      else do
        let rest ← blocksFrom st fuel (add64 bp (sizeOf32 w))
        pure ((bp, sizeOf32 w, allocOf32 w) :: rest)

/-- The blocks between the prologue and the epilogue. The first of them starts
where the provider's second region starts, `3 * DSIZE` bytes above the
prologue's block pointer `heap_listp`. -/
def heapBlocks (st : State) : Option (List (Nat × Nat × Nat)) :=
  blocksFrom st ((st.brk - st.lo) / 8 + 1) (add64 st.heap_listp (3 * DSIZE))

/-- The block pointers reached from `bp` by next-free links, up to the first
block whose header is marked allocated (where `find_fit` stops). -/
def freeFrom (st : State) : Nat → Nat → Option (List Nat)
  | 0, _ => none
  | fuel + 1, bp => do
      let a ← GET_ALLOC st (HDRP bp)
      if a = 0 then do
        let n ← NEXT_FREE st bp
        let rest ← freeFrom st fuel n
        pure (bp :: rest)
      else pure []

/-- The blocks reachable from `free_listp`. -/
def freeList (st : State) : Option (List Nat) :=
  freeFrom st ((st.brk - st.lo) / 4 + 2) st.free_listp

/-- Header and footer word of the block at `bp`. -/
def tags (st : State) (bp : Nat) : Option (Nat × Nat) := do
  let h ← GET st (HDRP bp)
  let f ← FTRP st bp
  let w ← GET st f
  pure (h, w)

/-- A zero-filled heap at address 4096 whose provider has room for about a
megabyte and reports failure as `(void *)-1`. -/
def heap0 : State := fresh zeroMem 4096 1000000 MINUS1

/-! ## Well-formed free lists -/

/-- The word stored at address `a`. -/
def wordAt (m : Mem) (a : Nat) : Nat := rdLE m a 4

/-- The next-free link stored in the block at `b`. -/
def nextOf (m : Mem) (b : Nat) : Nat := rdLE m (b + 8) 8

/-- The prev-free link stored in the block at `b`. -/
def prevOf (m : Mem) (b : Nat) : Nat := rdLE m b 8

/-- The size field of the header of the block at `b`. -/
def hdrSize (m : Mem) (b : Nat) : Nat := sizeOf32 (wordAt m (b - 4))

/-- The allocated bit of the header of the block at `b`. -/
def hdrAlloc (m : Mem) (b : Nat) : Nat := allocOf32 (wordAt m (b - 4))

/-- The last element of `L`, or `d` when `L` is empty. -/
def lastOr (d : Nat) : List Nat → Nat
  | [] => d
  | x :: L => lastOr x L

/-- `Chain m s prev p L`: starting at `p`, the next-free links visit exactly the
blocks of `L` in order and then the sentinel `s`, and the prev-free link of every
block names the block before it, `prev` for the first. -/
def Chain (m : Mem) (s : Nat) : Nat → Nat → List Nat → Prop
  | _, p, [] => p = s
  | prev, p, b :: L => p = b ∧ prevOf m b = prev ∧ Chain m s b (nextOf m b) L

instance (m : Mem) (s : Nat) : ∀ (prev p : Nat) (L : List Nat), Decidable (Chain m s prev p L)
  | _, p, [] => by unfold Chain; infer_instance
  | prev, p, b :: L => by
    unfold Chain
    have := instDecidableChain m s b (nextOf m b) L
    infer_instance

/-- The two states have the same heap region, provider and `heap_listp`. -/
def SameRegion (s t : State) : Prop :=
  t.lo = s.lo ∧ t.brk = s.brk ∧ t.max = s.max ∧ t.failv = s.failv ∧
    t.heap_listp = s.heap_listp

/-- The free list of `st` is the doubly linked list `L`: the chain from
`free_listp` visits `L` and ends at the sentinel `heap_listp`; every block of
`L` is aligned, lies above the sentinel's link and has its two links inside the
heap; the link fields of different blocks do not overlap. -/
def LinkWF (st : State) (L : List Nat) : Prop :=
  st.brk < U64 ∧ st.heap_listp % 8 = 0 ∧ 0 < st.heap_listp ∧ st.lo ≤ st.heap_listp ∧
    st.heap_listp + 8 ≤ st.brk ∧
    Chain st.mem st.heap_listp 0 st.free_listp L ∧
    (∀ b ∈ L, b % 8 = 0 ∧ st.heap_listp + 8 ≤ b ∧ b + 16 ≤ st.brk) ∧
    L.Pairwise (fun a b => a + 16 ≤ b ∨ b + 16 ≤ a)

instance (st : State) (L : List Nat) : Decidable (LinkWF st L) := by
  unfold LinkWF; infer_instance

/-- The free list of `st` is `L` and its members are free blocks: on top of
`LinkWF`, the sentinel's header is marked allocated, every block of `L` has a
header with allocated bit 0 and a size of at least 24 bytes, lies between the
sentinel and the last header of the heap, and no two blocks of `L` overlap. -/
def FLWF (st : State) (L : List Nat) : Prop :=
  LinkWF st L ∧ st.lo + 4 ≤ st.heap_listp ∧ hdrAlloc st.mem st.heap_listp = 1 ∧
    (∀ b ∈ L, st.heap_listp + 16 ≤ b ∧ 24 ≤ hdrSize st.mem b ∧
      b + hdrSize st.mem b ≤ st.brk ∧ hdrAlloc st.mem b = 0) ∧
    L.Pairwise (fun a b => a + hdrSize st.mem a ≤ b ∨ b + hdrSize st.mem b ≤ a)

instance (st : State) (L : List Nat) : Decidable (FLWF st L) := by
  unfold FLWF; infer_instance

/-! ## The neighbourhood of a block handed to `coalesce` -/

/-- The neighbourhood of the block at `bp` in a heap whose free list is the
well-formed list `L`: `bp` is a block of `sz` bytes above the sentinel whose
header and footer both read `PACK(sz, al)` and which overlaps no listed block;
the word below its header, the footer of the physically previous block, reads
`PACK(psz, pa)`, and when `psz` is not zero that block's header, `psz` bytes
further down, reads the same (a footer of size zero stands for no previous
block); the word after its footer, the header of the physically next block,
reads `PACK(nsz, na)`; and a neighbour that is free is a member of `L`. -/
def Neighbourhood (st : State) (L : List Nat) (bp sz al psz pa nsz na : Nat) : Prop :=
  FLWF st L ∧
    bp % 8 = 0 ∧ st.heap_listp + 16 ≤ bp ∧ 24 ≤ sz ∧ sz % 8 = 0 ∧ bp + sz ≤ st.brk ∧
    wordAt st.mem (bp - 4) = PACK sz al ∧ wordAt st.mem (bp + sz - 8) = PACK sz al ∧
    (∀ x ∈ L, x + hdrSize st.mem x ≤ bp ∨ bp + sz ≤ x) ∧
    wordAt st.mem (bp - 8) = PACK psz pa ∧ psz % 8 = 0 ∧ pa ≤ 1 ∧
    (psz ≠ 0 → st.lo + 4 + psz ≤ bp ∧ wordAt st.mem (bp - psz - 4) = PACK psz pa) ∧
    (psz ≠ 0 → pa = 0 → bp - psz ∈ L) ∧
    wordAt st.mem (bp + sz - 4) = PACK nsz na ∧ nsz % 8 = 0 ∧ na ≤ 1 ∧
    (na = 0 → bp + sz ∈ L)

instance (st : State) (L : List Nat) (bp sz al psz pa nsz na : Nat) :
    Decidable (Neighbourhood st L bp sz al psz pa nsz na) := by
  unfold Neighbourhood; infer_instance

/-- The state in which `coalesce(bp)` is called by `mm_free` and `extend_heap`:
the block at `bp` has free tags in the neighbourhood described by
`Neighbourhood`, and the three sizes together fit a header word. -/
def CoalesceReady (st : State) (L : List Nat) (bp sz psz pa nsz na : Nat) : Prop :=
  Neighbourhood st L bp sz 0 psz pa nsz na ∧ sz + psz + nsz < U32

instance (st : State) (L : List Nat) (bp sz psz pa nsz na : Nat) :
    Decidable (CoalesceReady st L bp sz psz pa nsz na) := by
  unfold CoalesceReady; infer_instance

/-- The state in which `mm_free(bp)` is called on a live block: as
`CoalesceReady`, with the tags of the block at `bp` still marked allocated. -/
def FreeReady (st : State) (L : List Nat) (bp sz psz pa nsz na : Nat) : Prop :=
  Neighbourhood st L bp sz 1 psz pa nsz na ∧ sz + psz + nsz < U32

instance (st : State) (L : List Nat) (bp sz psz pa nsz na : Nat) :
    Decidable (FreeReady st L bp sz psz pa nsz na) := by
  unfold FreeReady; infer_instance

/-- The block pointer of the merged block: the previous block when it exists and
is free, else `bp`. -/
def mergedBase (bp psz pa : Nat) : Nat := if psz ≠ 0 ∧ pa = 0 then bp - psz else bp

/-- The size of the merged block: `sz` plus the sizes of the free neighbours. -/
def mergedSize (sz psz pa nsz na : Nat) : Nat :=
  sz + (if psz ≠ 0 ∧ pa = 0 then psz else 0) + (if na = 0 then nsz else 0)

/-- The free list without the neighbours that were merged. -/
def mergedRest (L : List Nat) (bp sz psz pa na : Nat) : List Nat :=
  let L1 := if psz ≠ 0 ∧ pa = 0 then L.erase (bp - psz) else L
  if na = 0 then L1.erase (bp + sz) else L1

/-! ## Well-formed heaps -/

/-- The heap of `st` is well formed with free list `L`: `FLWF st L` holds; the
break is aligned and lies above the sentinel; the provider reports failure as
`(void *)-1`, the value `extend_heap` tests for, and never lets the heap reach
4 GiB, so that every block size fits a header word; and the word below the
epilogue header is the footer `PACK(size, alloc)` of the last block, whose
header reads the same and which is a member of `L` when it is free (a footer
of size zero stands for no last block). -/
def HeapWF (st : State) (L : List Nat) : Prop :=
  FLWF st L ∧ st.brk % 8 = 0 ∧ st.heap_listp + 16 ≤ st.brk ∧ st.failv = MINUS1 ∧
    st.max < U64 ∧ st.max - st.lo < U32 ∧
    wordAt st.mem (st.brk - 8) =
      PACK (sizeOf32 (wordAt st.mem (st.brk - 8))) (allocOf32 (wordAt st.mem (st.brk - 8))) ∧
    (sizeOf32 (wordAt st.mem (st.brk - 8)) ≠ 0 →
      st.lo + 4 + sizeOf32 (wordAt st.mem (st.brk - 8)) ≤ st.brk ∧
      wordAt st.mem (st.brk - sizeOf32 (wordAt st.mem (st.brk - 8)) - 4)
        = wordAt st.mem (st.brk - 8)) ∧
    (sizeOf32 (wordAt st.mem (st.brk - 8)) ≠ 0 → allocOf32 (wordAt st.mem (st.brk - 8)) = 0 →
      st.brk - sizeOf32 (wordAt st.mem (st.brk - 8)) ∈ L)

instance (st : State) (L : List Nat) : Decidable (HeapWF st L) := by
  unfold HeapWF; infer_instance

/-- The state in which `extend_heap` calls `coalesce` after a successful request
for `size` bytes: the break has moved up by `size`, the old epilogue header and
the word eight bytes below the new break hold the free tag `size`, and the last
word of the heap holds the new epilogue header `PACK(0, 1)`. -/
def extended (st : State) (size : Nat) : State :=
  { st with
    brk := st.brk + size
    mem := wrLE (wrLE (wrLE st.mem (st.brk - 4) 4 size) (st.brk + size - 8) 4 size)
      (st.brk + size - 4) 4 1 }

/-- The state in which `mm_free(bp)` calls `coalesce` for a block of `sz` bytes:
the footer and then the header of the block hold the free tag `sz`. -/
def freed (st : State) (bp sz : Nat) : State :=
  { st with mem := wrLE (wrLE st.mem (bp + sz - 8) 4 sz) (bp - 4) 4 sz }

/-! ## Heaps reached by runs of the allocator -/

/-- The heap after `mm_init` on `heap0`: one free block of 4096 bytes at 4128. -/
def heap1 : State := ((mm_init heap0).map Prod.snd).getD heap0

/-- The heap after `mm_malloc(16)` on `heap1`. -/
def heap2 : State := ((mm_malloc heap1 16).map Prod.snd).getD heap1

/-- The heap after three calls `mm_malloc(4088)` on `heap1`: three live blocks
of 4096 bytes at 4128, 8224 and 12320 and an empty free list. -/
def heap3 : State :=
  ((runCalls heap1 [Call.malloc 4088, Call.malloc 4088, Call.malloc 4088]).map
    Prod.snd).getD heap1

/-- The heap after `mm_free(4128)` and `mm_free(12320)` on `heap3`: the block at
8224 is live between two free blocks, and the free list is 12320, 4128. -/
def heap4 : State :=
  ((runCalls heap3 [Call.free 4128, Call.free 12320]).map Prod.snd).getD heap3

/-- A zero-filled heap at address 4096 whose provider has room for 8 GiB. -/
def bigHeap0 : State := fresh zeroMem 4096 8589934592 MINUS1

/-- The heap after `mm_init`, `mm_malloc(4088)`, two calls
`mm_malloc(2147483640)` and `mm_free(8224)` on `bigHeap0`: a live block of 4096
bytes at 4128, a free block of 2 GiB at 8224, which is the free list, and a
live block of 2 GiB at 2147491872. -/
def bigHeap : State :=
  ((mm_init bigHeap0).bind fun r =>
    (runCalls r.2 [Call.malloc 4088, Call.malloc 2147483640, Call.malloc 2147483640,
      Call.free 8224]).map Prod.snd).getD bigHeap0

/-! ## Resize and zeroed allocation -/

/-- The C library function `memcpy(dst, src, n)`. Copying zero bytes does
nothing; otherwise both ranges must lie inside the heap and must not overlap
(anything else is undefined behaviour in C; here it is a fault). -/
def memcpy (st : State) (dst src n : Nat) : Option State :=
  if n = 0 then some st
  else if st.lo ≤ src ∧ src + n ≤ st.brk ∧ st.lo ≤ dst ∧ dst + n ≤ st.brk ∧
      (src + n ≤ dst ∨ dst + n ≤ src) then
    some { st with mem := fun a => if dst ≤ a ∧ a < dst + n then st.mem (src + (a - dst))
                                   else st.mem a }
  else none

/-- The C library function `memset(p, c, n)`. Setting zero bytes does nothing;
otherwise the range must lie inside the heap. -/
def memset (st : State) (p c n : Nat) : Option State :=
  if n = 0 then some st
  else if st.lo ≤ p ∧ p + n ≤ st.brk then
    some { st with mem := fun a => if p ≤ a ∧ a < p + n then c % 256 else st.mem a }
  else none

/-- The number of bytes that `mm_realloc` copies: `oldsize = *SIZE_PTR(oldptr)`,
a `size_t` read `SIZE_T_SIZE` bytes below `oldptr`, lowered to `size` by
`if(size < oldsize) oldsize = size;`. -/
def reallocCopySize (st : State) (oldptr size : Nat) : Option Nat :=
  (GETP st (sub64 oldptr SIZE_T_SIZE)).map fun oldsize =>
    if size < oldsize then size else oldsize

/-- The function `mm_realloc`; a result pointer `0` is `NULL`. -/
def mm_realloc (st : State) (oldptr size : Nat) : Option (Nat × State) :=
  if size = 0 then (mm_free st oldptr).map fun s => (0, s)
  else if oldptr = 0 then mm_malloc st size
  else do
    let (newptr, s1) ← mm_malloc st size
    if newptr = 0 then pure (0, s1)
    else do
      let oldsize ← reallocCopySize s1 oldptr size
      let s2 ← memcpy s1 newptr oldptr oldsize
      let s3 ← mm_free s2 oldptr
      pure (newptr, s3)

/-- The function `mm_calloc`; a result pointer `0` is `NULL`. -/
def mm_calloc (st : State) (nmemb size : Nat) : Option (Nat × State) := do
  let bytes := mul64 nmemb size
  let (newptr, s1) ← mm_malloc st bytes
  let s2 ← memset s1 newptr 0 bytes
  pure (newptr, s2)

/-- A store by the caller of the pointer-sized value `v` at address `p`
(`*(size_t *)p = v`). -/
def store (st : State) (p v : Nat) : Option State := PUTP st p v

/-! ## Heaps with stale contents -/

/-- Memory that is zero except for the byte at 4120, which is 8: the word 8
bytes below the payload of the first block of a heap at 4096 reads 8. -/
def staleMem : Mem := fun a => if a = 4120 then 8 else 0

/-- Memory that is zero except for the address 4196 stored at 4168, the word 32
at 4192 and the address 4104 stored at 4204. -/
def plantedMem : Mem := fun a =>
  if a = 4168 then 100 else if a = 4169 then 16 else if a = 4192 then 32
  else if a = 4204 then 8 else if a = 4205 then 16 else 0

/-- A heap base just below `2^44`. -/
def hiBase : Nat := 17592186042368

/-- Memory that is zero except for the byte at `hiBase + 24`, which is 8, and
the eight bytes at `hiBase + 32`, which hold the address `hiBase + 1024`. -/
def staleHiMem : Mem := fun a =>
  if a = hiBase + 24 then 8
  else if hiBase + 32 ≤ a ∧ a < hiBase + 40 then
    ((hiBase + 1024) / 256 ^ (a - (hiBase + 32))) % 256
  else 0

/-- A zero-filled heap at address 4096 whose provider has room for the
sentinels and one chunk only. -/
def smallHeap0 : State := fresh zeroMem 4096 8224 MINUS1

/-! ## Reference definitions -/

/-- First fit over a sequence of free blocks, as the specification words it: the
first block of `L`, in list order, whose size is at least `asize`, and `0`
(`NULL`) when `L` has no such block. -/
def firstFit (m : Mem) (asize : Nat) (L : List Nat) : Nat :=
  (L.find? fun b => decide (asize ≤ hdrSize m b)).getD 0

/-- The number of bytes that `extend_heap(words)` requests from the provider
(its first two statements). -/
def extendSize (words : Nat) : Nat :=
  let size := if words % 2 ≠ 0 then mul64 (add64 words 1) WSIZE else mul64 words WSIZE
  if size < DSIZE * 4 then DSIZE * 4 else size

/-- The size field of the word below the epilogue header, the footer of the last
block of the heap. -/
def lastSize (st : State) : Nat := sizeOf32 (wordAt st.mem (st.brk - 8))

/-- The allocated bit of the word below the epilogue header. -/
def lastAlloc (st : State) : Nat := allocOf32 (wordAt st.mem (st.brk - 8))

/-- The state in which `mm_init` calls `extend_heap` when its own request for
`4 * DSIZE` bytes at `S` was granted: the padding word, the prologue header and
footer and the epilogue header are written, and `heap_listp` and `free_listp`
are `S + DSIZE`. -/
def initialised (m : Mem) (S limit failv : Nat) : State :=
  { mem := wrLE (wrLE (wrLE (wrLE m S 4 0) (S + 4) 4 (PACK OVERHEAD 1)) (S + 8) 4
      (PACK OVERHEAD 1)) (S + 12) 4 (PACK 0 1),
    lo := S, brk := S + 32, max := limit, failv := failv,
    heap_listp := S + 8, free_listp := S + 8 }

/-! ## Lemmas -/

/-! ## Arithmetic of the macros -/

theorem land_mask_aux (w k : Nat) (hw : w < 2 ^ k) (hk : 3 ≤ k) :
    w &&& (2 ^ k - 8) = w / 8 * 8 := by
  apply Nat.eq_of_testBit_eq
  intro i
  have e1 : w / 8 * 8 = 2 ^ 3 * (w >>> 3) := by
    rw [Nat.shiftRight_eq_div_pow]; norm_num; ring
  have e2 : 2 ^ k - 8 = 2 ^ 3 * (2 ^ (k - 3) - 1) := by
    have : 2 ^ k = 2 ^ 3 * 2 ^ (k - 3) := by rw [← pow_add]; congr 1; omega
    rw [this, Nat.mul_sub, Nat.mul_one]
    norm_num
  rw [Nat.testBit_and, e1, e2, Nat.testBit_mul_pow_two, Nat.testBit_mul_pow_two,
    Nat.testBit_two_pow_sub_one, Nat.testBit_shiftRight]
  by_cases h3 : 3 ≤ i
  · have e3 : 3 + (i - 3) = i := by omega
    simp only [ge_iff_le, h3, decide_True, Bool.true_and, e3]
    by_cases hik : i - 3 < k - 3
    · simp [hik]
    · have : w < 2 ^ i := lt_of_lt_of_le hw (Nat.pow_le_pow_right (by norm_num) (by omega))
      simp [hik, Nat.testBit_lt_two_pow this]
  · simp [h3]

theorem sizeOf32_eq (w : Nat) (hw : w < U32) : sizeOf32 w = w / 8 * 8 := by
  have := land_mask_aux w 32 (by norm_num; exact hw) (by norm_num)
  norm_num at this
  exact this

theorem allocOf32_eq (w : Nat) : allocOf32 w = w % 2 := Nat.and_one_is_mod w

theorem ALIGN_eq (p : Nat) : ALIGN p = (p + 7) % U64 / 8 * 8 := by
  have h : (p + 7) % U64 < 2 ^ 64 := by
    have : (p + 7) % U64 < U64 := Nat.mod_lt _ (by norm_num [U64])
    norm_num [U64] at this ⊢
    exact this
  have := land_mask_aux ((p + 7) % U64) 64 h (by norm_num)
  norm_num at this
  simpa [ALIGN, add64, ALIGNMENT, MASK64] using this

theorem PACK_zero (s : Nat) : PACK s 0 = s := Nat.or_zero s

theorem PACK_one (s : Nat) (h : s % 2 = 0) : PACK s 1 = s + 1 := by
  have := Nat.mul_add_lt_is_or (i := 1) (b := 1) (by norm_num) (s / 2)
  have e : 2 ^ 1 * (s / 2) = s := by omega
  rw [e] at this
  exact this.symm

theorem PACK_le_one (s a : Nat) (h : s % 2 = 0) (ha : a ≤ 1) : PACK s a = s + a := by
  interval_cases a
  · exact PACK_zero s
  · exact PACK_one s h

/-! ## Reading over writing -/

theorem rdLE_lt (m : Mem) (p n : Nat) : rdLE m p n < 256 ^ n := by
  induction n generalizing p with
  | zero => simp [rdLE]
  | succ k ih =>
    have := ih (p + 1)
    have h1 : m p % 256 < 256 := Nat.mod_lt _ (by norm_num)
    simp only [rdLE, pow_succ]
    nlinarith

theorem rdLE_congr (m m' : Mem) (p n : Nat) (h : ∀ i, i < n → m' (p + i) = m (p + i)) :
    rdLE m' p n = rdLE m p n := by
  induction n generalizing p with
  | zero => rfl
  | succ k ih =>
    have h0 := h 0 (by omega)
    simp only [Nat.add_zero] at h0
    have := ih (p + 1) (fun i hi => by
      have := h (i + 1) (by omega)
      rwa [show p + 1 + i = p + (i + 1) by omega])
    simp only [rdLE, h0, this]

theorem wrLE_outside (m : Mem) (p n v a : Nat) (h : a < p ∨ p + n ≤ a) :
    wrLE m p n v a = m a := by
  unfold wrLE
  rw [if_neg]
  omega

theorem rdLE_wrLE_disjoint (m : Mem) (p n v q k : Nat) (h : q + k ≤ p ∨ p + n ≤ q) :
    rdLE (wrLE m p n v) q k = rdLE m q k := by
  apply rdLE_congr
  intro i hi
  apply wrLE_outside
  omega

theorem rdLE_wrLE_suffix (m : Mem) (p n v : Nat) :
    ∀ k j, j + k = n → rdLE (wrLE m p n v) (p + j) k = v / 256 ^ j % 256 ^ k := by
  intro k
  induction k with
  | zero => intro j _; simp [rdLE, Nat.mod_one]
  | succ k ih =>
    intro j hj
    have := ih (j + 1) (by omega)
    rw [show p + (j + 1) = p + j + 1 by omega] at this
    simp only [rdLE, this]
    have hw : wrLE m p n v (p + j) = v / 256 ^ j % 256 := by
      unfold wrLE
      rw [if_pos (by omega)]
      congr 3
      omega
    rw [hw, Nat.mod_mod, pow_succ 256 j, ← Nat.div_div_eq_div_mul, pow_succ 256 k]
    generalize v / 256 ^ j = x
    rw [Nat.mul_comm (256 ^ k) 256, Nat.mod_mul]

theorem rdLE_wrLE_same (m : Mem) (p n v : Nat) (hv : v < 256 ^ n) :
    rdLE (wrLE m p n v) p n = v := by
  have := rdLE_wrLE_suffix m p n v n 0 (by omega)
  simpa [Nat.mod_eq_of_lt hv] using this

/-! ## Primitive accesses -/

theorem add64_eq {a b : Nat} (h : a + b < U64) : add64 a b = a + b := by
  unfold add64; exact Nat.mod_eq_of_lt h

theorem sub64_eq {a b : Nat} (hb : b ≤ a) (ha : a < U64) : sub64 a b = a - b := by
  unfold sub64
  have hb' : b % U64 = b := Nat.mod_eq_of_lt (by omega)
  rw [hb']
  have : a + U64 - b = (a - b) + U64 := by omega
  rw [this, Nat.add_mod_right]
  exact Nat.mod_eq_of_lt (by omega)

theorem GET_eq {st : State} {p : Nat} (h : okAt st p 4) : GET st p = some (wordAt st.mem p) := by
  simp [GET, h, wordAt]

theorem GETP_eq {st : State} {p : Nat} (h : okAt st p 8) : GETP st p = some (rdLE st.mem p 8) := by
  simp [GETP, h]

theorem PUT_eq {st : State} {p : Nat} (v : Nat) (h : okAt st p 4) :
    PUT st p v = some { st with mem := wrLE st.mem p 4 (v % U32) } := by
  simp [PUT, h]

theorem PUTP_eq {st : State} {p : Nat} (v : Nat) (h : okAt st p 8) :
    PUTP st p v = some { st with mem := wrLE st.mem p 8 (v % U64) } := by
  simp [PUTP, h]

theorem PUT_some {st st' : State} {p v : Nat} (h : PUT st p v = some st') :
    okAt st p 4 ∧ st' = { st with mem := wrLE st.mem p 4 (v % U32) } := by
  unfold PUT at h
  split at h
  · rename_i hk
    exact ⟨hk, by injection h with h; exact h.symm⟩
  · cases h

theorem PUTP_some {st st' : State} {p v : Nat} (h : PUTP st p v = some st') :
    okAt st p 8 ∧ st' = { st with mem := wrLE st.mem p 8 (v % U64) } := by
  unfold PUTP at h
  split at h
  · rename_i hk
    exact ⟨hk, by injection h with h; exact h.symm⟩
  · cases h

theorem GET_some {st : State} {p v : Nat} (h : GET st p = some v) :
    okAt st p 4 ∧ v = wordAt st.mem p := by
  unfold GET at h
  split at h
  · rename_i hk
    exact ⟨hk, by injection h with h; exact h.symm⟩
  · cases h

theorem GETP_some {st : State} {p v : Nat} (h : GETP st p = some v) :
    okAt st p 8 ∧ v = rdLE st.mem p 8 := by
  unfold GETP at h
  split at h
  · rename_i hk
    exact ⟨hk, by injection h with h; exact h.symm⟩
  · cases h

theorem wordAt_lt (m : Mem) (a : Nat) : wordAt m a < U32 := by
  have := rdLE_lt m a 4
  norm_num at this
  exact this

theorem ptr_lt (m : Mem) (a : Nat) : rdLE m a 8 < U64 := by
  have := rdLE_lt m a 8
  norm_num at this
  exact this

/-! ## Chains -/

theorem Chain_congr {m m' : Mem} {s : Nat} :
    ∀ (L : List Nat) (prev p : Nat), Chain m s prev p L →
      (∀ x ∈ L, prevOf m' x = prevOf m x ∧ nextOf m' x = nextOf m x) →
      Chain m' s prev p L := by
  intro L
  induction L with
  | nil => intro prev p h _; exact h
  | cons b L ih =>
    intro prev p h hx
    obtain ⟨h1, h2, h3⟩ := h
    have hb := hx b (List.mem_cons_self _ _)
    refine ⟨h1, by rw [hb.1]; exact h2, ?_⟩
    rw [hb.2]
    exact ih b _ h3 (fun x hxL => hx x (List.mem_cons_of_mem _ hxL))

theorem lastOr_mem : ∀ (L : List Nat) (d : Nat), L ≠ [] → lastOr d L ∈ L := by
  intro L
  induction L with
  | nil => intro d h; exact absurd rfl h
  | cons x L ih =>
    intro d _
    cases L with
    | nil => simp [lastOr]
    | cons y L =>
      have := ih x (by simp)
      simp only [lastOr] at this ⊢
      exact List.mem_cons_of_mem _ this

theorem Chain_mid {m : Mem} {s b : Nat} {L2 : List Nat} :
    ∀ (L1 : List Nat) (prev p : Nat), Chain m s prev p (L1 ++ b :: L2) →
      prevOf m b = lastOr prev L1 ∧ Chain m s b (nextOf m b) L2 := by
  intro L1
  induction L1 with
  | nil =>
    intro prev p h
    exact ⟨h.2.1, h.2.2⟩
  | cons x L1 ih =>
    intro prev p h
    exact ih x (nextOf m x) h.2.2

/-- Re-heading a chain: the same blocks, entered from another predecessor. -/
theorem Chain_rehead {m m' : Mem} {s b n p : Nat} {L2 : List Nat}
    (h : Chain m s b n L2)
    (hn : n ≠ s → prevOf m' n = p)
    (hnx : ∀ x ∈ L2, nextOf m' x = nextOf m x)
    (hpv : ∀ x ∈ L2, x ≠ n → prevOf m' x = prevOf m x)
    (hs : s ∉ L2) (hnd : L2.Nodup) :
    Chain m' s p n L2 := by
  cases L2 with
  | nil => exact h
  | cons y L2 =>
    obtain ⟨h1, _, h3⟩ := h
    subst h1
    have hns : n ≠ s := fun e => hs (by rw [e]; exact List.mem_cons_self _ _)
    refine ⟨rfl, hn hns, ?_⟩
    rw [hnx n (List.mem_cons_self _ _)]
    apply Chain_congr _ _ _ h3
    intro x hx
    have hxn : x ≠ n := by
      intro e
      rw [e] at hx
      exact (List.nodup_cons.mp hnd).1 hx
    exact ⟨hpv x (List.mem_cons_of_mem _ hx) hxn, hnx x (List.mem_cons_of_mem _ hx)⟩

theorem Chain_unlink_front {m m' : Mem} {s b n p : Nat} {L2 : List Nat}
    (hn : n ≠ s → prevOf m' n = p)
    (hnx : ∀ x ∈ L2, nextOf m' x = nextOf m x)
    (hpv : ∀ x ∈ L2, x ≠ n → prevOf m' x = prevOf m x)
    (hs : s ∉ L2) (hnd2 : L2.Nodup) (hnb : n = nextOf m b) :
    ∀ (L1 : List Nat) (prev q : Nat), L1 ≠ [] → Chain m s prev q (L1 ++ b :: L2) →
      p = lastOr prev L1 → L1.Nodup →
      (∀ x ∈ L1, prevOf m' x = prevOf m x) →
      (∀ x ∈ L1, x ≠ p → nextOf m' x = nextOf m x) →
      nextOf m' p = n →
      Chain m' s prev q (L1 ++ L2) := by
  intro L1
  induction L1 with
  | nil => intro _ _ h; exact absurd rfl h
  | cons x L1 ih =>
    intro prev q _ hc hp hnd ha hb hc'
    obtain ⟨h1, h2, h3⟩ := hc
    cases L1 with
    | nil =>
      have hpx : p = x := hp
      subst hpx
      have h3' : Chain m s p (nextOf m p) (b :: L2) := h3
      have hbm : Chain m s b (nextOf m b) L2 := h3'.2.2
      refine ⟨h1, by rw [ha p (List.mem_cons_self _ _)]; exact h2, ?_⟩
      rw [hc']
      rw [← hnb] at hbm
      exact Chain_rehead hbm hn hnx hpv hs hnd2
    | cons y L1 =>
      have hp' : p = lastOr x (y :: L1) := hp
      have hpmem : p ∈ y :: L1 := by
        rw [hp']
        exact lastOr_mem _ _ (by simp)
      have hxp : x ≠ p := by
        intro e
        rw [← e] at hpmem
        exact (List.nodup_cons.mp hnd).1 hpmem
      refine ⟨h1, by rw [ha x (List.mem_cons_self _ _)]; exact h2, ?_⟩
      rw [hb x (List.mem_cons_self _ _) hxp]
      exact ih x (nextOf m x) (by simp) h3 hp' (List.nodup_cons.mp hnd).2
        (fun z hz => ha z (List.mem_cons_of_mem _ hz))
        (fun z hz => hb z (List.mem_cons_of_mem _ hz)) hc'

/-! ## `removeF` on a well-formed list -/

theorem LinkWF_far {st : State} {L : List Nat} (h : LinkWF st L) :
    ∀ x ∈ L, ∀ y ∈ L, x ≠ y → x + 16 ≤ y ∨ y + 16 ≤ x := by
  intro x hx y hy hxy
  have hp := h.2.2.2.2.2.2.2
  exact List.Pairwise.forall (fun a b hab => by omega) hp hx hy hxy

theorem LinkWF_nodup {st : State} {L : List Nat} (h : LinkWF st L) : L.Nodup := by
  have hp := h.2.2.2.2.2.2.2
  exact List.Pairwise.imp (fun {a b} hab => by omega) hp

theorem removeF_spec {st : State} {L : List Nat} {b : Nat} (h : LinkWF st L) (hb : b ∈ L) :
    ∃ st', removeF st b = some st' ∧ LinkWF st' (L.erase b) ∧ SameRegion st st' ∧
      st'.free_listp = (if st.free_listp = b then nextOf st.mem b else st.free_listp) ∧
      (∀ a, (∀ x ∈ L, x ≠ b → a < x ∨ x + 16 ≤ a) →
        (a < st.heap_listp ∨ st.heap_listp + 8 ≤ a) → st'.mem a = st.mem a) := by
  have hfar := LinkWF_far h
  have hnd := LinkWF_nodup h
  obtain ⟨hU, hs8, hs0, hslo, hsbrk, hch, hnode, hpw⟩ := h
  obtain ⟨L1, L2, rfl⟩ := List.append_of_mem hb
  -- the two links of `b`
  obtain ⟨hp, hc2⟩ := Chain_mid L1 0 st.free_listp hch
  obtain ⟨m, hm⟩ : ∃ m, m = st.mem := ⟨_, rfl⟩
  obtain ⟨s, hsdef⟩ : ∃ s, s = st.heap_listp := ⟨_, rfl⟩
  rw [← hm, ← hsdef] at hch
  rw [← hm] at hp
  rw [← hm, ← hsdef] at hc2
  rw [← hsdef] at hs8 hs0 hslo hsbrk hnode
  obtain ⟨p, hpdef⟩ : ∃ p, p = prevOf m b := ⟨_, rfl⟩
  obtain ⟨n, hndef⟩ : ∃ n, n = nextOf m b := ⟨_, rfl⟩
  rw [← hpdef] at hp
  rw [← hndef] at hc2
  have hbL1 : b ∉ L1 := by
    intro hmem
    exact (List.nodup_append.mp hnd).2.2 hmem (List.mem_cons_self _ _)
  have hndL2 : L2.Nodup := (List.nodup_cons.mp (List.nodup_append.mp hnd).2.1).2
  have hbL2 : b ∉ L2 := (List.nodup_cons.mp (List.nodup_append.mp hnd).2.1).1
  have hndL1 : L1.Nodup := (List.nodup_append.mp hnd).1
  have hL1L : ∀ x ∈ L1, x ∈ L1 ++ b :: L2 := fun x hx => List.mem_append_left _ hx
  have hL2L : ∀ x ∈ L2, x ∈ L1 ++ b :: L2 :=
    fun x hx => List.mem_append_right _ (List.mem_cons_of_mem _ hx)
  have hbn := hnode b hb
  -- where `p` and `n` live
  have hpcase : (L1 = [] ∧ p = 0) ∨ (L1 ≠ [] ∧ p ∈ L1) := by
    by_cases hL1 : L1 = []
    · left; subst hL1; exact ⟨rfl, hp⟩
    · right; refine ⟨hL1, ?_⟩; rw [hp]; exact lastOr_mem _ _ hL1
  have hncase : (L2 = [] ∧ n = s) ∨ (n ∈ L2) := by
    cases L2 with
    | nil => left; exact ⟨rfl, hc2⟩
    | cons y L2 => right; rw [hc2.1]; exact List.mem_cons_self _ _
  have hsL2 : s ∉ L2 := by
    intro hmem
    have := (hnode s (hL2L s hmem)).2.1
    omega
  have hp0 : p ≠ 0 → p ∈ L1 := by
    intro hne
    rcases hpcase with ⟨_, h0⟩ | ⟨_, hmem⟩
    · exact absurd h0 hne
    · exact hmem
  have hpb : p ≠ 0 → p % 8 = 0 ∧ s + 8 ≤ p ∧ p + 16 ≤ st.brk ∧ (p + 16 ≤ b ∨ b + 16 ≤ p) := by
    intro hne
    have hmem := hp0 hne
    have h1 := hnode p (hL1L p hmem)
    have h2 := hfar p (hL1L p hmem) b hb (fun e => hbL1 (e ▸ hmem))
    exact ⟨h1.1, h1.2.1, h1.2.2, h2⟩
  have hnb : n % 8 = 0 ∧ s ≤ n ∧ n + 8 ≤ st.brk ∧ (n + 8 ≤ b ∨ b + 16 ≤ n) := by
    rcases hncase with ⟨_, hns⟩ | hmem
    · rw [hns]; refine ⟨hs8, le_refl _, hsbrk, ?_⟩; omega
    · have h1 := hnode n (hL2L n hmem)
      have h2 := hfar n (hL2L n hmem) b hb (fun e => hbL2 (e ▸ hmem))
      refine ⟨h1.1, by omega, by omega, by omega⟩
  have hpn : p ≠ 0 → (p + 16 ≤ n ∨ n + 8 ≤ p + 8) := by
    intro hne
    have hpm := hp0 hne
    rcases hncase with ⟨_, hns⟩ | hmem
    · have := (hnode p (hL1L p hpm)).2.1; omega
    · have := hfar p (hL1L p hpm) n (hL2L n hmem) (by
        intro e
        rw [e] at hpm
        exact (List.nodup_append.mp hnd).2.2 hpm (List.mem_cons_of_mem _ hmem))
      omega
  have hplt : p < U64 := by rw [hpdef]; exact ptr_lt m b
  have hnlt : n < U64 := by rw [hndef]; exact ptr_lt m (b + 8)
  -- the memory after the call
  obtain ⟨m1, hm1def⟩ : ∃ m1 : Mem, m1 = if p ≠ 0 then wrLE m (p + 8) 8 n else m := ⟨_, rfl⟩
  obtain ⟨m', hmdef⟩ : ∃ m' : Mem, m' = wrLE m1 n 8 p := ⟨_, rfl⟩
  have hm1 : ∀ A, (p = 0 ∨ A + 8 ≤ p + 8 ∨ p + 16 ≤ A) → rdLE m1 A 8 = rdLE m A 8 := by
    intro A hA
    by_cases hp0' : p = 0
    · rw [hm1def, if_neg (by simp [hp0'])]
    · rw [hm1def, if_pos hp0']
      apply rdLE_wrLE_disjoint
      omega
  have hrd : ∀ A, (A + 8 ≤ n ∨ n + 8 ≤ A) → (p = 0 ∨ A + 8 ≤ p + 8 ∨ p + 16 ≤ A) →
      rdLE m' A 8 = rdLE m A 8 := by
    intro A hA1 hA2
    rw [hmdef, rdLE_wrLE_disjoint _ _ _ _ _ _ hA1]
    exact hm1 A hA2
  have hrdn : prevOf m' n = p := by
    rw [hmdef]
    exact rdLE_wrLE_same _ _ _ _ (by norm_num; exact hplt)
  have hrdp : p ≠ 0 → nextOf m' p = n := by
    intro hne
    rw [hmdef]
    show rdLE (wrLE m1 n 8 p) (p + 8) 8 = n
    rw [rdLE_wrLE_disjoint _ _ _ _ _ _ (by have := hpn hne; omega), hm1def, if_pos hne]
    exact rdLE_wrLE_same _ _ _ _ (by norm_num; exact hnlt)
  -- running the code
  have ok_b : okAt st b 8 := ⟨by omega, by omega⟩
  have ok_b8 : okAt st (b + 8) 8 := ⟨by omega, by omega⟩
  have ab8 : add64 b DSIZE = b + 8 := add64_eq (by simp only [DSIZE]; omega)
  have e1 : PREV_FREE st b = some p := by
    unfold PREV_FREE; rw [GETP_eq ok_b, hpdef, hm]; rfl
  have e2 : NEXT_FREE st b = some n := by
    unfold NEXT_FREE; rw [ab8, GETP_eq ok_b8, hndef, hm]; rfl
  obtain ⟨s1, hs1def⟩ : ∃ s1 : State,
      s1 = if p ≠ 0 then { st with mem := m1 } else { st with free_listp := n } := ⟨_, rfl⟩
  have hs1m : s1.mem = m1 := by
    by_cases hp0' : p = 0
    · rw [hs1def, if_neg (by simp [hp0']), hm1def, if_neg (by simp [hp0']), hm]
    · rw [hs1def, if_pos hp0']
  have hs1r : s1.lo = st.lo ∧ s1.brk = st.brk ∧ s1.max = st.max ∧ s1.failv = st.failv ∧
      s1.heap_listp = st.heap_listp := by
    by_cases hp0' : p = 0
    · rw [hs1def, if_neg (by simp [hp0'])]; exact ⟨rfl, rfl, rfl, rfl, rfl⟩
    · rw [hs1def, if_pos hp0']; exact ⟨rfl, rfl, rfl, rfl, rfl⟩
  have hs1f : s1.free_listp = if p ≠ 0 then st.free_listp else n := by
    by_cases hp0' : p = 0
    · rw [hs1def, if_neg (by simp [hp0']), if_neg (by simp [hp0'])]
    · rw [hs1def, if_pos hp0', if_pos hp0']
  have estep : (if p ≠ 0 then (NEXT_FREE st b).bind (fun n => setNEXT_FREE st p n)
                else (NEXT_FREE st b).bind (fun n => some { st with free_listp := n }))
                = some s1 := by
    by_cases hp0' : p = 0
    · rw [if_neg (by simp [hp0']), e2, hs1def, if_neg (by simp [hp0'])]
      rfl
    · have hq := hpb hp0'
      have ok_p8 : okAt st (p + 8) 8 := ⟨by omega, by omega⟩
      have ap8 : add64 p DSIZE = p + 8 := add64_eq (by simp only [DSIZE]; omega)
      rw [if_pos hp0', e2, hs1def, if_pos hp0']
      show setNEXT_FREE st p n = _
      unfold setNEXT_FREE
      rw [ap8, PUTP_eq _ ok_p8, Nat.mod_eq_of_lt hnlt, hm1def, if_pos hp0', hm]
  have ok1_b : okAt s1 b 8 := ⟨by rw [hs1r.1]; exact ok_b.1, by rw [hs1r.2.1]; exact ok_b.2⟩
  have ok1_b8 : okAt s1 (b + 8) 8 :=
    ⟨by rw [hs1r.1]; exact ok_b8.1, by rw [hs1r.2.1]; exact ok_b8.2⟩
  have e3 : NEXT_FREE s1 b = some n := by
    unfold NEXT_FREE; rw [ab8, GETP_eq ok1_b8, hs1m, hndef]
    have : rdLE m1 (b + 8) 8 = rdLE m (b + 8) 8 := by
      apply hm1
      by_cases hp0' : p = 0
      · left; exact hp0'
      · right; have := hpb hp0'; omega
    rw [this]; rfl
  have e4 : PREV_FREE s1 b = some p := by
    unfold PREV_FREE; rw [GETP_eq ok1_b, hs1m, hpdef]
    have : rdLE m1 b 8 = rdLE m b 8 := by
      apply hm1
      by_cases hp0' : p = 0
      · left; exact hp0'
      · right; have := hpb hp0'; omega
    rw [this]; rfl
  have ok1_n : okAt s1 n 8 := ⟨by rw [hs1r.1]; omega, by rw [hs1r.2.1]; omega⟩
  refine ⟨{ s1 with mem := m' }, ?_, ?_, ?_, ?_, ?_⟩
  · have hrem : removeF st b = (PREV_FREE st b).bind (fun p =>
        (if p ≠ 0 then (NEXT_FREE st b).bind (fun n => setNEXT_FREE st p n)
          else (NEXT_FREE st b).bind (fun n => some { st with free_listp := n })).bind
          (fun s1 => (NEXT_FREE s1 b).bind (fun n1 => (PREV_FREE s1 b).bind (fun p1 =>
            setPREV_FREE s1 n1 p1)))) := rfl
    rw [hrem, e1]
    show ((if p ≠ 0 then (NEXT_FREE st b).bind (fun n => setNEXT_FREE st p n)
          else (NEXT_FREE st b).bind (fun n => some { st with free_listp := n })).bind
          (fun s1 => (NEXT_FREE s1 b).bind (fun n1 => (PREV_FREE s1 b).bind (fun p1 =>
            setPREV_FREE s1 n1 p1)))) = _
    rw [estep]
    show (NEXT_FREE s1 b).bind (fun n1 => (PREV_FREE s1 b).bind (fun p1 =>
            setPREV_FREE s1 n1 p1)) = _
    rw [e3]
    show (PREV_FREE s1 b).bind (fun p1 => setPREV_FREE s1 n p1) = _
    rw [e4]
    show setPREV_FREE s1 n p = _
    unfold setPREV_FREE
    rw [PUTP_eq _ ok1_n, Nat.mod_eq_of_lt hplt, hs1m, hmdef]
  · -- the list after the call
    have herase : (L1 ++ b :: L2).erase b = L1 ++ L2 := by
      rw [List.erase_append_right _ hbL1, List.erase_cons_head]
    rw [herase]
    have hnodeL2 : ∀ x ∈ L2, x ≠ n → (x + 8 ≤ n ∨ n + 8 ≤ x) ∧ (x + 16 ≤ n ∨ n + 8 ≤ x + 8) := by
      intro x hx hxn
      rcases hncase with ⟨hnil, _⟩ | hmem
      · rw [hnil] at hx; cases hx
      · have := hfar x (hL2L x hx) n (hL2L n hmem) hxn
        omega
    have hL2p : ∀ x ∈ L2, p = 0 ∨ (x + 16 ≤ p + 8 ∨ p + 16 ≤ x) := by
      intro x hx
      by_cases hp0' : p = 0
      · left; exact hp0'
      · right
        have hpm := hp0 hp0'
        have := hfar x (hL2L x hx) p (hL1L p hpm) (by
          intro e
          rw [← e] at hpm
          exact (List.nodup_append.mp hnd).2.2 hpm (List.mem_cons_of_mem _ hx))
        omega
    have hnx2 : ∀ x ∈ L2, nextOf m' x = nextOf m x := by
      intro x hx
      apply hrd
      · by_cases hxn : x = n
        · omega
        · have := (hnodeL2 x hx hxn).2; omega
      · have := hL2p x hx; omega
    have hpv2 : ∀ x ∈ L2, x ≠ n → prevOf m' x = prevOf m x := by
      intro x hx hxn
      apply hrd
      · exact (hnodeL2 x hx hxn).1
      · have := hL2p x hx; omega
    have hL1n : ∀ x ∈ L1, x + 16 ≤ n ∨ n + 8 ≤ x := by
      intro x hx
      rcases hncase with ⟨_, hns⟩ | hmem
      · have := (hnode x (hL1L x hx)).2.1; omega
      · have := hfar x (hL1L x hx) n (hL2L n hmem) (by
          intro e
          rw [e] at hx
          exact (List.nodup_append.mp hnd).2.2 hx (List.mem_cons_of_mem _ hmem))
        omega
    have hpv1 : ∀ x ∈ L1, prevOf m' x = prevOf m x := by
      intro x hx
      apply hrd
      · have := hL1n x hx; omega
      · by_cases hp0' : p = 0
        · left; exact hp0'
        · right
          by_cases hxp : x = p
          · omega
          · have := hfar x (hL1L x hx) p (hL1L p (hp0 hp0')) hxp; omega
    have hnx1 : ∀ x ∈ L1, x ≠ p → nextOf m' x = nextOf m x := by
      intro x hx hxp
      apply hrd
      · have := hL1n x hx; omega
      · by_cases hp0' : p = 0
        · left; exact hp0'
        · right
          have := hfar x (hL1L x hx) p (hL1L p (hp0 hp0')) hxp; omega
    have hchain : Chain m' s 0 (if p ≠ 0 then st.free_listp else n) (L1 ++ L2) := by
      rcases hpcase with ⟨hnil, h0⟩ | ⟨hne, hmem⟩
      · subst hnil
        rw [h0]
        simp only [List.nil_append]
        have := Chain_rehead hc2 (fun _ => hrdn) hnx2 hpv2 hsL2 hndL2
        rw [h0] at this
        rw [if_neg (by simp)]
        exact this
      · have hpne : p ≠ 0 := by
          have := (hnode p (hL1L p hmem)).2.1; omega
        rw [if_pos hpne]
        exact Chain_unlink_front (fun _ => hrdn) hnx2 hpv2 hsL2 hndL2 hndef L1 0 st.free_listp
          hne hch hp hndL1 hpv1 hnx1 (hrdp hpne)
    have hsh : s1.heap_listp = s := by rw [hs1r.2.2.2.2, hsdef]
    refine ⟨?_, ?_, ?_, ?_, ?_, ?_, ?_, ?_⟩
    · show s1.brk < U64
      rw [hs1r.2.1]; exact hU
    · show s1.heap_listp % 8 = 0
      rw [hsh]; exact hs8
    · show 0 < s1.heap_listp
      rw [hsh]; exact hs0
    · show s1.lo ≤ s1.heap_listp
      rw [hsh, hs1r.1]; exact hslo
    · show s1.heap_listp + 8 ≤ s1.brk
      rw [hsh, hs1r.2.1]; exact hsbrk
    · show Chain m' s1.heap_listp 0 s1.free_listp (L1 ++ L2)
      rw [hsh, hs1f]
      exact hchain
    · intro x hx
      have hxL : x ∈ L1 ++ b :: L2 := by
        rcases List.mem_append.mp hx with h1 | h2
        · exact hL1L x h1
        · exact hL2L x h2
      have := hnode x hxL
      refine ⟨this.1, ?_, ?_⟩
      · show s1.heap_listp + 8 ≤ x
        rw [hsh]; exact this.2.1
      · show x + 16 ≤ s1.brk
        rw [hs1r.2.1]; exact this.2.2
    · have : List.Sublist (L1 ++ L2) (L1 ++ b :: L2) :=
        List.Sublist.append_left (List.sublist_cons_self _ _) _
      exact List.Pairwise.sublist this hpw
  · exact hs1r
  · show s1.free_listp = _
    rw [hs1f]
    rcases hpcase with ⟨hnil, h0⟩ | ⟨hne, hmem⟩
    · subst hnil
      have : st.free_listp = b := hch.1
      rw [if_neg (by simp [h0]), if_pos this, hndef, hm]
    · have hpne : p ≠ 0 := by
        have := (hnode p (hL1L p hmem)).2.1; omega
      have hfl : st.free_listp ≠ b := by
        cases L1 with
        | nil => exact absurd rfl hne
        | cons y L1 =>
          have : st.free_listp = y := hch.1
          rw [this]
          intro e
          exact hbL1 (e ▸ List.mem_cons_self _ _)
      rw [if_pos hpne, if_neg hfl]
  · intro a ha hsa
    show m' a = st.mem a
    rw [hmdef, ← hm]
    have h1 : wrLE m1 n 8 p a = m1 a := by
      apply wrLE_outside
      rcases hncase with ⟨_, hns⟩ | hmem
      · rw [hns]; omega
      · have := ha n (hL2L n hmem) (fun e => hbL2 (e ▸ hmem)); omega
    rw [h1]
    by_cases hp0' : p = 0
    · rw [hm1def, if_neg (by simp [hp0'])]
    · rw [hm1def, if_pos hp0']
      apply wrLE_outside
      have hpm := hp0 hp0'
      have := ha p (hL1L p hpm) (fun e => hbL1 (e ▸ hpm)); omega

/-! ## `insertF` on a well-formed list -/

theorem LinkWF_head {st : State} {L : List Nat} (h : LinkWF st L) :
    (L = [] ∧ st.free_listp = st.heap_listp) ∨ (st.free_listp ∈ L) := by
  have hch := h.2.2.2.2.2.1
  cases L with
  | nil => left; exact ⟨rfl, hch⟩
  | cons y L => right; rw [hch.1]; exact List.mem_cons_self _ _

theorem insertF_spec {st : State} {L : List Nat} {b : Nat} (h : LinkWF st L)
    (hb8 : b % 8 = 0) (hbs : st.heap_listp + 8 ≤ b) (hbb : b + 16 ≤ st.brk)
    (hbfar : ∀ x ∈ L, b + 16 ≤ x ∨ x + 16 ≤ b) :
    ∃ st', insertF st b = some st' ∧ LinkWF st' (b :: L) ∧ SameRegion st st' ∧
      st'.free_listp = b ∧
      (∀ a, (a < b ∨ b + 16 ≤ a) → (a < st.free_listp ∨ st.free_listp + 8 ≤ a) →
        st'.mem a = st.mem a) := by
  have hfar := LinkWF_far h
  have hnd := LinkWF_nodup h
  have hhead := LinkWF_head h
  obtain ⟨hU, hs8, hs0, hslo, hsbrk, hch, hnode, hpw⟩ := h
  obtain ⟨m, hm⟩ : ∃ m, m = st.mem := ⟨_, rfl⟩
  obtain ⟨s, hsdef⟩ : ∃ s, s = st.heap_listp := ⟨_, rfl⟩
  obtain ⟨fl, hfl⟩ : ∃ fl, fl = st.free_listp := ⟨_, rfl⟩
  rw [← hm, ← hsdef, ← hfl] at hch
  rw [← hsdef] at hs8 hs0 hslo hsbrk hnode hbs
  rw [← hsdef, ← hfl] at hhead
  have hflf : fl % 8 = 0 ∧ s ≤ fl ∧ fl + 8 ≤ st.brk ∧ (fl + 8 ≤ b ∨ b + 16 ≤ fl) := by
    rcases hhead with ⟨_, hfs⟩ | hmem
    · rw [hfs]; exact ⟨hs8, le_refl _, hsbrk, by omega⟩
    · have h1 := hnode fl hmem
      have h2 := hbfar fl hmem
      exact ⟨h1.1, by omega, by omega, by omega⟩
  have hfllt : fl < U64 := by omega
  have hblt : b < U64 := by omega
  have hsL : s ∉ L := by
    intro hmem
    have := (hnode s hmem).2.1
    omega
  obtain ⟨m1, hm1⟩ : ∃ m1 : Mem, m1 = wrLE m (b + 8) 8 fl := ⟨_, rfl⟩
  obtain ⟨m2, hm2⟩ : ∃ m2 : Mem, m2 = wrLE m1 fl 8 b := ⟨_, rfl⟩
  obtain ⟨m3, hm3⟩ : ∃ m3 : Mem, m3 = wrLE m2 b 8 0 := ⟨_, rfl⟩
  have hrd : ∀ A, (A + 8 ≤ b ∨ b + 16 ≤ A) → (A + 8 ≤ fl ∨ fl + 8 ≤ A) →
      rdLE m3 A 8 = rdLE m A 8 := by
    intro A h1 h2
    rw [hm3, rdLE_wrLE_disjoint _ _ _ _ _ _ (by omega), hm2,
      rdLE_wrLE_disjoint _ _ _ _ _ _ (by omega), hm1,
      rdLE_wrLE_disjoint _ _ _ _ _ _ (by omega)]
  have ok_b8 : okAt st (b + 8) 8 := ⟨by omega, by omega⟩
  have ab8 : add64 b DSIZE = b + 8 := add64_eq (by simp only [DSIZE]; omega)
  obtain ⟨s1, hs1⟩ : ∃ s1 : State, s1 = { st with mem := m1 } := ⟨_, rfl⟩
  obtain ⟨s2, hs2⟩ : ∃ s2 : State, s2 = { s1 with mem := m2 } := ⟨_, rfl⟩
  obtain ⟨s3, hs3⟩ : ∃ s3 : State, s3 = { s2 with mem := m3 } := ⟨_, rfl⟩
  have r1 : s1.lo = st.lo ∧ s1.brk = st.brk ∧ s1.free_listp = fl ∧ s1.mem = m1 := by
    rw [hs1, hfl]; exact ⟨rfl, rfl, rfl, rfl⟩
  have r2 : s2.lo = st.lo ∧ s2.brk = st.brk ∧ s2.mem = m2 := by
    rw [hs2]; exact ⟨r1.1, r1.2.1, rfl⟩
  have e1 : setNEXT_FREE st b st.free_listp = some s1 := by
    unfold setNEXT_FREE
    have hlt : st.free_listp % U64 = st.free_listp := Nat.mod_eq_of_lt (hfl ▸ hfllt)
    rw [ab8, PUTP_eq _ ok_b8, hs1, hm1, hm, hfl, hlt]
  have ok_fl : okAt s1 fl 8 := ⟨by rw [r1.1]; omega, by rw [r1.2.1]; exact hflf.2.2.1⟩
  have e2 : setPREV_FREE s1 s1.free_listp b = some s2 := by
    unfold setPREV_FREE
    rw [r1.2.2.1, PUTP_eq _ ok_fl, Nat.mod_eq_of_lt hblt, hs2, hm2, r1.2.2.2]
  have ok_b : okAt s2 b 8 := ⟨by rw [r2.1]; omega, by rw [r2.2.1]; omega⟩
  have e3 : setPREV_FREE s2 b 0 = some s3 := by
    unfold setPREV_FREE
    rw [PUTP_eq _ ok_b, hs3, hm3, r2.2.2]
    rfl
  have hfin : ({ s3 with free_listp := b } : State) = { st with mem := m3, free_listp := b } := by
    rw [hs3, hs2, hs1]
  refine ⟨{ st with mem := m3, free_listp := b }, ?_, ?_, ⟨rfl, rfl, rfl, rfl, rfl⟩, rfl, ?_⟩
  · have hins : insertF st b = (setNEXT_FREE st b st.free_listp).bind (fun s1 =>
        (setPREV_FREE s1 s1.free_listp b).bind (fun s2 =>
          (setPREV_FREE s2 b 0).bind (fun s3 => some { s3 with free_listp := b }))) := rfl
    rw [hins, e1, Option.some_bind, e2, Option.some_bind, e3, Option.some_bind, hfin]
  · have hnb : nextOf m3 b = fl := by
      show rdLE m3 (b + 8) 8 = fl
      rw [hm3, rdLE_wrLE_disjoint _ _ _ _ _ _ (by omega), hm2,
        rdLE_wrLE_disjoint _ _ _ _ _ _ (by omega), hm1]
      exact rdLE_wrLE_same _ _ _ _ (by norm_num; exact hfllt)
    have hpb : prevOf m3 b = 0 := by
      show rdLE m3 b 8 = 0
      rw [hm3]
      exact rdLE_wrLE_same _ _ _ _ (by norm_num)
    have hpfl : prevOf m3 fl = b := by
      show rdLE m3 fl 8 = b
      rw [hm3, rdLE_wrLE_disjoint _ _ _ _ _ _ (by omega), hm2]
      exact rdLE_wrLE_same _ _ _ _ (by norm_num; exact hblt)
    have hxfl : ∀ x ∈ L, x ≠ fl → x + 16 ≤ fl ∨ fl + 8 ≤ x := by
      intro x hx hxf
      rcases hhead with ⟨hnil, _⟩ | hmem
      · rw [hnil] at hx; cases hx
      · have := hfar x hx fl hmem hxf; omega
    have hnx : ∀ x ∈ L, nextOf m3 x = nextOf m x := by
      intro x hx
      apply hrd
      · have := hbfar x hx; omega
      · by_cases hxf : x = fl
        · omega
        · have := hxfl x hx hxf; omega
    have hpv : ∀ x ∈ L, x ≠ fl → prevOf m3 x = prevOf m x := by
      intro x hx hxf
      apply hrd
      · have := hbfar x hx; omega
      · have := hxfl x hx hxf; omega
    have hchain : Chain m3 s b fl L := Chain_rehead hch (fun _ => hpfl) hnx hpv hsL hnd
    refine ⟨hU, ?_, ?_, ?_, ?_, ?_, ?_, ?_⟩
    · show st.heap_listp % 8 = 0
      rw [← hsdef]; exact hs8
    · show 0 < st.heap_listp
      rw [← hsdef]; exact hs0
    · show st.lo ≤ st.heap_listp
      rw [← hsdef]; exact hslo
    · show st.heap_listp + 8 ≤ st.brk
      rw [← hsdef]; exact hsbrk
    · show Chain m3 st.heap_listp 0 b (b :: L)
      rw [← hsdef]
      refine ⟨rfl, hpb, ?_⟩
      rw [hnb]
      exact hchain
    · intro x hx
      rcases List.mem_cons.mp hx with rfl | hxL
      · refine ⟨hb8, ?_, hbb⟩
        show st.heap_listp + 8 ≤ x
        rw [← hsdef]; exact hbs
      · have := hnode x hxL
        refine ⟨this.1, ?_, this.2.2⟩
        show st.heap_listp + 8 ≤ x
        rw [← hsdef]; exact this.2.1
    · exact List.pairwise_cons.mpr ⟨fun x hx => hbfar x hx, hpw⟩
  · intro a ha hfa
    show m3 a = st.mem a
    rw [← hfl] at hfa
    rw [hm3, wrLE_outside _ _ _ _ _ (by omega), hm2, wrLE_outside _ _ _ _ _ (by omega), hm1,
      wrLE_outside _ _ _ _ _ (by omega), hm]

/-! ## Free blocks and the list -/

theorem wordAt_congr {m m' : Mem} {a : Nat} (h : ∀ i, i < 4 → m' (a + i) = m (a + i)) :
    wordAt m' a = wordAt m a := rdLE_congr m m' a 4 h

theorem sizeOf32_PACK {z a : Nat} (hz : z % 8 = 0) (ha : a ≤ 1) (hlt : z + a < U32) :
    sizeOf32 (PACK z a) = z := by
  rw [PACK_le_one z a (by omega) ha, sizeOf32_eq _ hlt]
  omega

theorem allocOf32_PACK {z a : Nat} (hz : z % 8 = 0) (ha : a ≤ 1) :
    allocOf32 (PACK z a) = a := by
  rw [PACK_le_one z a (by omega) ha, allocOf32_eq]
  omega

theorem sizeOf32_mod8 (w : Nat) (hw : w < U32) : sizeOf32 w % 8 = 0 ∧ sizeOf32 w ≤ w := by
  rw [sizeOf32_eq w hw]
  omega

theorem hdrSize_lt (m : Mem) (b : Nat) : hdrSize m b < U32 ∧ hdrSize m b % 8 = 0 := by
  have h1 := wordAt_lt m (b - 4)
  have h2 := sizeOf32_mod8 _ h1
  unfold hdrSize
  omega

theorem allocOf32_le (w : Nat) : allocOf32 w ≤ 1 := by
  rw [allocOf32_eq]; omega

theorem FLWF_apart {st : State} {L : List Nat} (h : FLWF st L) :
    ∀ x ∈ L, ∀ y ∈ L, x ≠ y →
      x + hdrSize st.mem x ≤ y ∨ y + hdrSize st.mem y ≤ x := by
  intro x hx y hy hxy
  exact List.Pairwise.forall (fun a b hab => by omega) h.2.2.2.2 hx hy hxy

/-- A state that keeps the region, whose list is a sublist and whose headers of
listed blocks and of the sentinel are unchanged, keeps the free blocks. -/
theorem FLWF_frame {st st' : State} {L L' : List Nat} (h : FLWF st L)
    (hsub : List.Sublist L' L) (hl : LinkWF st' L') (hr : SameRegion st st')
    (hhdr : ∀ x ∈ L', wordAt st'.mem (x - 4) = wordAt st.mem (x - 4))
    (hs : wordAt st'.mem (st.heap_listp - 4) = wordAt st.mem (st.heap_listp - 4)) :
    FLWF st' L' := by
  obtain ⟨_, hs4, hsa, hblk, hpw⟩ := h
  obtain ⟨hlo, hbrk, _, _, hhl⟩ := hr
  have hsz : ∀ x ∈ L', hdrSize st'.mem x = hdrSize st.mem x := by
    intro x hx; unfold hdrSize; rw [hhdr x hx]
  refine ⟨hl, ?_, ?_, ?_, ?_⟩
  · rw [hlo, hhl]; exact hs4
  · unfold hdrAlloc; rw [hhl, hs]; exact hsa
  · intro x hx
    have := hblk x (hsub.subset hx)
    rw [hsz x hx, hhl, hbrk]
    refine ⟨this.1, this.2.1, this.2.2.1, ?_⟩
    unfold hdrAlloc; rw [hhdr x hx]; exact this.2.2.2
  · have := List.Pairwise.sublist hsub hpw
    apply List.Pairwise.imp_of_mem _ this
    intro a b ha hb hab
    rw [hsz a ha, hsz b hb]
    exact hab

theorem FLWF_removeF {st : State} {L : List Nat} {b : Nat} (h : FLWF st L) (hb : b ∈ L) :
    ∃ st', removeF st b = some st' ∧ FLWF st' (L.erase b) ∧ SameRegion st st' ∧
      st'.free_listp = (if st.free_listp = b then nextOf st.mem b else st.free_listp) ∧
      (∀ a, (∀ x ∈ L, x ≠ b → a < x ∨ x + 16 ≤ a) →
        (a < st.heap_listp ∨ st.heap_listp + 8 ≤ a) → st'.mem a = st.mem a) := by
  obtain ⟨st', h1, h2, h3, h4, h5⟩ := removeF_spec h.1 hb
  refine ⟨st', h1, ?_, h3, h4, h5⟩
  have hap := FLWF_apart h
  have hblk := h.2.2.2.1
  have hwd : ∀ x, (x ∈ L ∨ x = st.heap_listp) → wordAt st'.mem (x - 4) = wordAt st.mem (x - 4) := by
    intro x hx
    apply wordAt_congr
    intro i hi
    apply h5
    · intro y hy _
      have hy' := hblk y hy
      rcases hx with hx | hx
      · have hx' := hblk x hx
        by_cases hxy : x = y
        · omega
        · have := hap x hx y hy hxy; omega
      · omega
    · rcases hx with hx | hx
      · have hx' := hblk x hx; omega
      · have := h.1.2.2.1; have := h.2.1; omega
  exact FLWF_frame h (List.erase_sublist b L) h2 h3
    (fun x hx => hwd x (Or.inl ((List.erase_sublist b L).subset hx))) (hwd _ (Or.inr rfl))

theorem FLWF_insertF {st : State} {L : List Nat} {b : Nat} (h : FLWF st L)
    (hb8 : b % 8 = 0) (hbs : st.heap_listp + 16 ≤ b) (hsz : 24 ≤ hdrSize st.mem b)
    (hbrk : b + hdrSize st.mem b ≤ st.brk) (hfree : hdrAlloc st.mem b = 0)
    (hapart : ∀ x ∈ L, b + hdrSize st.mem b ≤ x ∨ x + hdrSize st.mem x ≤ b) :
    ∃ st', insertF st b = some st' ∧ FLWF st' (b :: L) ∧ SameRegion st st' ∧
      st'.free_listp = b ∧
      (∀ a, (a < b ∨ b + 16 ≤ a) → (a < st.free_listp ∨ st.free_listp + 8 ≤ a) →
        st'.mem a = st.mem a) := by
  have hblk := h.2.2.2.1
  have hhead := LinkWF_head h.1
  obtain ⟨st', h1, h2, h3, h4, h5⟩ := insertF_spec h.1 hb8 (by omega) (by omega)
    (fun x hx => by have := hapart x hx; have := hblk x hx; omega)
  refine ⟨st', h1, ?_, h3, h4, h5⟩
  have hwd : ∀ x, (x ∈ L ∨ x = b ∨ x = st.heap_listp) →
      wordAt st'.mem (x - 4) = wordAt st.mem (x - 4) := by
    intro x hx
    apply wordAt_congr
    intro i hi
    have hs0 := h.1.2.2.1
    have hs4 := h.2.1
    have hxb : x - 4 + i < b ∨ b + 16 ≤ x - 4 + i := by
      rcases hx with hx | hx | hx
      · have := hapart x hx; have := hblk x hx; omega
      · omega
      · omega
    apply h5 _ hxb
    rcases hhead with ⟨_, hfs⟩ | hmem
    · rw [hfs]
      rcases hx with hx | hx | hx
      · have := hblk x hx; omega
      · omega
      · omega
    · have hf := hblk _ hmem
      rcases hx with hx | hx | hx
      · by_cases hxf : x = st.free_listp
        · omega
        · have := FLWF_apart h x hx _ hmem hxf
          have := hblk x hx
          omega
      · have := hapart _ hmem; omega
      · omega
  obtain ⟨hl, hs4, hsa, _, hpw⟩ := h
  obtain ⟨hlo, hbrk', _, _, hhl⟩ := h3
  have hszeq : ∀ x, (x ∈ L ∨ x = b) → hdrSize st'.mem x = hdrSize st.mem x := by
    intro x hx
    unfold hdrSize
    rw [hwd x (by rcases hx with hx | hx; exact Or.inl hx; exact Or.inr (Or.inl hx))]
  have haleq : ∀ x, (x ∈ L ∨ x = b) → hdrAlloc st'.mem x = hdrAlloc st.mem x := by
    intro x hx
    unfold hdrAlloc
    rw [hwd x (by rcases hx with hx | hx; exact Or.inl hx; exact Or.inr (Or.inl hx))]
  refine ⟨h2, ?_, ?_, ?_, ?_⟩
  · rw [hlo, hhl]; exact hs4
  · unfold hdrAlloc; rw [hhl, hwd _ (Or.inr (Or.inr rfl))]; exact hsa
  · intro x hx
    rw [hhl, hbrk']
    rcases List.mem_cons.mp hx with rfl | hxL
    · rw [hszeq x (Or.inr rfl), haleq x (Or.inr rfl)]
      exact ⟨hbs, hsz, hbrk, hfree⟩
    · rw [hszeq x (Or.inl hxL), haleq x (Or.inl hxL)]
      exact hblk x hxL
  · apply List.pairwise_cons.mpr
    constructor
    · intro x hx
      rw [hszeq b (Or.inr rfl), hszeq x (Or.inl hx)]
      exact hapart x hx
    · apply List.Pairwise.imp_of_mem _ hpw
      intro a c ha hc hac
      rw [hszeq a (Or.inl ha), hszeq c (Or.inl hc)]
      exact hac

/-! ## Writing the tags of a merged block -/

theorem LinkWF_frame {st st' : State} {L : List Nat} (h : LinkWF st L)
    (hr : SameRegion st st') (hf : st'.free_listp = st.free_listp)
    (hmem : ∀ x ∈ L, ∀ i, i < 16 → st'.mem (x + i) = st.mem (x + i)) : LinkWF st' L := by
  obtain ⟨hU, hs8, hs0, hslo, hsbrk, hch, hnode, hpw⟩ := h
  obtain ⟨hlo, hbrk, _, _, hhl⟩ := hr
  refine ⟨by rw [hbrk]; exact hU, by rw [hhl]; exact hs8, by rw [hhl]; exact hs0,
    by rw [hhl, hlo]; exact hslo, by rw [hhl, hbrk]; exact hsbrk, ?_, ?_, hpw⟩
  · rw [hhl, hf]
    apply Chain_congr _ _ _ hch
    intro x hx
    constructor
    · exact rdLE_congr _ _ _ _ (fun i hi => hmem x hx i (by omega))
    · apply rdLE_congr
      intro i hi
      have := hmem x hx (8 + i) (by omega)
      rw [show x + 8 + i = x + (8 + i) by omega]
      exact this
  · intro x hx
    rw [hhl, hbrk]
    exact hnode x hx

theorem HDRP_eq {bp : Nat} (h4 : 4 ≤ bp) (hlt : bp < U64) : HDRP bp = bp - 4 := by
  unfold HDRP
  exact sub64_eq (by simp only [WSIZE]; exact h4) hlt

theorem wordAt_wr_same (m : Mem) (p v : Nat) (hv : v < U32) :
    wordAt (wrLE m p 4 v) p = v :=
  rdLE_wrLE_same m p 4 v (by norm_num; exact hv)

theorem wordAt_wr_other (m : Mem) (p n v q : Nat) (h : q + 4 ≤ p ∨ p + n ≤ q) :
    wordAt (wrLE m p n v) q = wordAt m q :=
  rdLE_wrLE_disjoint m p n v q 4 h

theorem putFreeTags_spec {st : State} {r S : Nat} (hU : st.brk < U64) (hr : r % 4 = 0)
    (hlo : st.lo + 4 ≤ r) (hS : S % 8 = 0) (hS8 : 8 ≤ S) (hlt : S < U32)
    (hbrk : r + S ≤ st.brk) :
    putFreeTags st r S =
      some { st with mem := wrLE (wrLE st.mem (r - 4) 4 S) (r + S - 8) 4 S } := by
  have hh : HDRP r = r - 4 := HDRP_eq (by omega) (by omega)
  have hp : PACK S 0 = S := PACK_zero S
  have hmod : S % U32 = S := Nat.mod_eq_of_lt hlt
  have ok1 : okAt st (r - 4) 4 := ⟨by omega, by omega⟩
  obtain ⟨s1, hs1⟩ : ∃ s1 : State, s1 = { st with mem := wrLE st.mem (r - 4) 4 S } := ⟨_, rfl⟩
  have e1 : PUT st (HDRP r) (PACK S 0) = some s1 := by
    rw [hh, hp, PUT_eq _ ok1, hmod, hs1]
  have r1 : s1.lo = st.lo ∧ s1.brk = st.brk ∧ s1.mem = wrLE st.mem (r - 4) 4 S := by
    rw [hs1]; exact ⟨rfl, rfl, rfl⟩
  have ok1' : okAt s1 (r - 4) 4 := ⟨by rw [r1.1]; omega, by rw [r1.2.1]; omega⟩
  have hf : FTRP s1 r = some (r + S - 8) := by
    unfold FTRP GET_SIZE
    rw [hh, GET_eq ok1', r1.2.2, wordAt_wr_same _ _ _ hlt]
    show some (sub64 (add64 r (sizeOf32 S)) DSIZE) = _
    have : sizeOf32 S = S := by
      have := sizeOf32_PACK hS (Nat.zero_le 1) (by omega : S + 0 < U32)
      rwa [hp] at this
    rw [this, add64_eq (by omega), sub64_eq (by simp only [DSIZE]; omega) (by omega)]
    rfl
  have ok2 : okAt s1 (r + S - 8) 4 := ⟨by rw [r1.1]; omega, by rw [r1.2.1]; omega⟩
  have hput : putFreeTags st r S = (PUT st (HDRP r) (PACK S 0)).bind (fun s1 =>
      (FTRP s1 r).bind (fun f => PUT s1 f (PACK S 0))) := rfl
  rw [hput, e1, Option.some_bind, hf, Option.some_bind, hp, PUT_eq _ ok2, hmod, r1.2.2, hs1]

theorem merge_finish {st : State} {L : List Nat} {r S : Nat} (h : FLWF st L)
    (hr8 : r % 8 = 0) (hrs : st.heap_listp + 16 ≤ r) (hS24 : 24 ≤ S) (hS8 : S % 8 = 0)
    (hSlt : S < U32) (hbrk : r + S ≤ st.brk)
    (hap : ∀ x ∈ L, r + S ≤ x ∨ x + hdrSize st.mem x ≤ r) :
    ∃ s2 st', putFreeTags st r S = some s2 ∧ insertF s2 r = some st' ∧
      FLWF st' (r :: L) ∧ SameRegion st st' ∧ st'.free_listp = r ∧
      wordAt st'.mem (r - 4) = S ∧ wordAt st'.mem (r + S - 8) = S ∧
      (∀ a, (a + 4 < r ∨ r + S ≤ a + 4) → (a < st.free_listp ∨ st.free_listp + 8 ≤ a) →
        st'.mem a = st.mem a) := by
  have hblk := h.2.2.2.1
  have hs4 := h.2.1
  have hs0 := h.1.2.2.1
  have hU := h.1.1
  have hhead := LinkWF_head h.1
  have hputs := putFreeTags_spec (r := r) (S := S) hU (by omega) (by omega) hS8
    (by omega) hSlt hbrk
  obtain ⟨s2, hs2⟩ : ∃ s2 : State,
      s2 = { st with mem := wrLE (wrLE st.mem (r - 4) 4 S) (r + S - 8) 4 S } := ⟨_, rfl⟩
  rw [← hs2] at hputs
  have hreg : SameRegion st s2 := by rw [hs2]; exact ⟨rfl, rfl, rfl, rfl, rfl⟩
  have hfl2 : s2.free_listp = st.free_listp := by rw [hs2]
  have hm2 : ∀ a, (a + 4 < r ∨ r ≤ a) → (a + 8 < r + S ∨ r + S ≤ a + 4) →
      s2.mem a = st.mem a := by
    intro a h1 h2
    rw [hs2]
    show wrLE (wrLE st.mem (r - 4) 4 S) (r + S - 8) 4 S a = st.mem a
    rw [wrLE_outside _ _ _ _ _ (by omega), wrLE_outside _ _ _ _ _ (by omega)]
  have hw2 : ∀ q, (q + 8 ≤ r ∨ r ≤ q) → (q + 12 ≤ r + S ∨ r + S ≤ q + 4) →
      wordAt s2.mem q = wordAt st.mem q := by
    intro q h1 h2
    apply wordAt_congr
    intro i hi
    exact hm2 _ (by omega) (by omega)
  have hhdr2 : wordAt s2.mem (r - 4) = S := by
    rw [hs2]
    show wordAt (wrLE (wrLE st.mem (r - 4) 4 S) (r + S - 8) 4 S) (r - 4) = S
    rw [wordAt_wr_other _ _ _ _ _ (by omega), wordAt_wr_same _ _ _ hSlt]
  have hftr2 : wordAt s2.mem (r + S - 8) = S := by
    rw [hs2]
    exact wordAt_wr_same _ _ _ hSlt
  have hl2 : LinkWF s2 L := by
    apply LinkWF_frame h.1 hreg hfl2
    intro x hx i hi
    have := hap x hx
    have := hblk x hx
    exact hm2 _ (by omega) (by omega)
  have hF2 : FLWF s2 L := by
    apply FLWF_frame h (List.Sublist.refl L) hl2 hreg
    · intro x hx
      have := hap x hx
      have := hblk x hx
      exact hw2 _ (by omega) (by omega)
    · exact hw2 _ (by omega) (by omega)
  have hsz2 : hdrSize s2.mem r = S := by
    unfold hdrSize
    rw [hhdr2]
    have := sizeOf32_PACK hS8 (Nat.zero_le 1) (by omega : S + 0 < U32)
    rwa [PACK_zero] at this
  have hal2 : hdrAlloc s2.mem r = 0 := by
    unfold hdrAlloc
    rw [hhdr2, allocOf32_eq]
    omega
  have hszx : ∀ x ∈ L, hdrSize s2.mem x = hdrSize st.mem x := by
    intro x hx
    unfold hdrSize
    have := hap x hx
    have := hblk x hx
    rw [hw2 _ (by omega) (by omega)]
  obtain ⟨st', i1, i2, i3, i4, i5⟩ := FLWF_insertF (L := L) (b := r) hF2 hr8
    (by rw [hreg.2.2.2.2]; exact hrs) (by rw [hsz2]; exact hS24)
    (by rw [hsz2, hreg.2.1]; exact hbrk) hal2
    (fun x hx => by rw [hsz2, hszx x hx]; exact hap x hx)
  have hflcase : st.free_listp + 8 ≤ r - 4 ∨ r + S ≤ st.free_listp := by
    rcases hhead with ⟨_, hfs⟩ | hmem
    · rw [hfs]; omega
    · have := hap _ hmem
      have := hblk _ hmem
      omega
  refine ⟨s2, st', hputs, i1, i2, ?_, i4, ?_, ?_, ?_⟩
  · obtain ⟨a1, a2, a3, a4, a5⟩ := hreg
    obtain ⟨b1, b2, b3, b4, b5⟩ := i3
    exact ⟨by rw [b1, a1], by rw [b2, a2], by rw [b3, a3], by rw [b4, a4], by rw [b5, a5]⟩
  · refine Eq.trans ?_ hhdr2
    apply wordAt_congr
    intro i hi
    apply i5
    · omega
    · rw [hfl2]; omega
  · refine Eq.trans ?_ hftr2
    apply wordAt_congr
    intro i hi
    apply i5
    · omega
    · rw [hfl2]; omega
  · intro a ha hfa
    rw [i5 a (by omega) (by rw [hfl2]; exact hfa)]
    exact hm2 a (by omega) (by omega)

/-! ## `coalesce` -/

theorem frame_word {st st' : State} {L : List Nat}
    (hf : ∀ a, (∀ x ∈ L, a < x ∨ x + 16 ≤ a) →
      (a < st.heap_listp ∨ st.heap_listp + 8 ≤ a) → st'.mem a = st.mem a)
    (q : Nat) (hq : ∀ x ∈ L, q + 4 ≤ x ∨ x + 16 ≤ q)
    (hs : q + 4 ≤ st.heap_listp ∨ st.heap_listp + 8 ≤ q) :
    wordAt st'.mem q = wordAt st.mem q := by
  apply wordAt_congr
  intro i hi
  apply hf
  · intro x hx; have := hq x hx; omega
  · omega

theorem GET_SIZE_eq {st : State} {p : Nat} (h : okAt st p 4) :
    GET_SIZE st p = some (sizeOf32 (wordAt st.mem p)) := by
  unfold GET_SIZE; rw [GET_eq h]; rfl

theorem GET_ALLOC_eq {st : State} {p : Nat} (h : okAt st p 4) :
    GET_ALLOC st p = some (allocOf32 (wordAt st.mem p)) := by
  unfold GET_ALLOC; rw [GET_eq h]; rfl

theorem insertF_keeps {st st' : State} {L : List Nat} {b : Nat} (h : FLWF st L)
    (hb8 : b % 8 = 0) (hbs : st.heap_listp + 16 ≤ b) (hsz : 24 ≤ hdrSize st.mem b)
    (hbrk : b + hdrSize st.mem b ≤ st.brk) (hfree : hdrAlloc st.mem b = 0)
    (hapart : ∀ x ∈ L, b + hdrSize st.mem b ≤ x ∨ x + hdrSize st.mem x ≤ b)
    (hi : insertF st b = some st') :
    FLWF st' (b :: L) ∧ SameRegion st st' ∧ st'.free_listp = b ∧
      (∀ a, (a < b ∨ b + 16 ≤ a) → (∀ x ∈ L, a < x ∨ x + 16 ≤ a) →
        (a < st.heap_listp ∨ st.heap_listp + 8 ≤ a) → st'.mem a = st.mem a) := by
  obtain ⟨s', h1, h2, h3, h4, h5⟩ := FLWF_insertF h hb8 hbs hsz hbrk hfree hapart
  rw [hi] at h1
  injection h1 with h1
  subst h1
  refine ⟨h2, h3, h4, ?_⟩
  intro a ha hL hs
  apply h5 a ha
  rcases LinkWF_head h.1 with ⟨_, hfs⟩ | hmem
  · rw [hfs]; omega
  · have := hL _ hmem; omega

theorem readTag {st : State} {q z a : Nat} (hok : okAt st q 4)
    (hw : wordAt st.mem q = PACK z a) (hz : z % 8 = 0) (ha : a ≤ 1) (hlt : z + a < U32) :
    GET_SIZE st q = some z ∧ GET_ALLOC st q = some a := by
  rw [GET_SIZE_eq hok, GET_ALLOC_eq hok, hw, sizeOf32_PACK hz ha hlt, allocOf32_PACK hz ha]
  exact ⟨rfl, rfl⟩

theorem coalesce_reads {st : State} {L : List Nat} {bp sz psz pa nsz na : Nat}
    (h : CoalesceReady st L bp sz psz pa nsz na) :
    PREV_BLKP st bp = some (bp - psz) ∧
    (∃ pf pav, FTRP st (bp - psz) = some pf ∧ GET_ALLOC st pf = some pav ∧
      ((pav ≠ 0 ∨ bp - psz = bp) ↔ ¬ (psz ≠ 0 ∧ pa = 0))) ∧
    NEXT_BLKP st bp = some (bp + sz) ∧ GET_ALLOC st (HDRP (bp + sz)) = some na ∧
    GET_SIZE st (HDRP bp) = some sz ∧
    (psz ≠ 0 → GET_SIZE st (HDRP (bp - psz)) = some psz) ∧
    GET_SIZE st (HDRP (bp + sz)) = some nsz := by
  obtain ⟨⟨hF, hb8, hbs, hsz24, hsz8, hbrk, hhdr, hftr, hap, hpw, hpsz8, hpa, hph, hpL,
    hnw, hnsz8, hna, hnL⟩, hfit⟩ := h
  have hU := hF.1.1
  have hs4 := hF.2.1
  have hU32 : U32 = 4294967296 := rfl
  have hU64 : U64 = 18446744073709551616 := rfl
  have hH : HDRP bp = bp - 4 := HDRP_eq (by omega) (by omega)
  have hHn : HDRP (bp + sz) = bp + sz - 4 := HDRP_eq (by omega) (by omega)
  have okh : okAt st (bp - 4) 4 := ⟨by omega, by omega⟩
  have okf : okAt st (bp + sz - 8) 4 := ⟨by omega, by omega⟩
  have okp : okAt st (bp - 8) 4 := ⟨by omega, by omega⟩
  have okn : okAt st (bp + sz - 4) 4 := ⟨by omega, by omega⟩
  have rh := readTag okh hhdr hsz8 (Nat.zero_le 1) (by omega)
  have rf := readTag okf hftr hsz8 (Nat.zero_le 1) (by omega)
  have rp := readTag okp hpw hpsz8 hpa (by omega)
  have rn := readTag okn hnw hnsz8 hna (by omega)
  have hple : psz ≤ bp := by
    by_cases h0 : psz = 0
    · omega
    · have := (hph h0).1; omega
  have ePrev : PREV_BLKP st bp = some (bp - psz) := by
    unfold PREV_BLKP
    rw [sub64_eq (by simp only [DSIZE]; omega) (by omega)]
    simp only [DSIZE]
    rw [rp.1]
    show some (sub64 bp psz) = _
    rw [sub64_eq hple (by omega)]
  have eNext : NEXT_BLKP st bp = some (bp + sz) := by
    unfold NEXT_BLKP
    rw [sub64_eq (by simp only [WSIZE]; omega) (by omega)]
    simp only [WSIZE]
    rw [rh.1]
    show some (add64 bp sz) = _
    rw [add64_eq (by omega)]
  refine ⟨ePrev, ?_, eNext, by rw [hHn]; exact rn.2, by rw [hH]; exact rh.1, ?_,
    by rw [hHn]; exact rn.1⟩
  · by_cases h0 : psz = 0
    · refine ⟨bp + sz - 8, 0, ?_, rf.2, ?_⟩
      · unfold FTRP
        rw [h0, Nat.sub_zero, hH, rh.1]
        show some (sub64 (add64 bp sz) DSIZE) = _
        rw [add64_eq (by omega), sub64_eq (by simp only [DSIZE]; omega) (by omega)]
        rfl
      · rw [h0]; simp
    · obtain ⟨hp1, hp2⟩ := hph h0
      have hHp : HDRP (bp - psz) = bp - psz - 4 := HDRP_eq (by omega) (by omega)
      have okph : okAt st (bp - psz - 4) 4 := ⟨by omega, by omega⟩
      have rph := readTag okph hp2 hpsz8 hpa (by omega)
      refine ⟨bp - 8, pa, ?_, rp.2, ?_⟩
      · unfold FTRP
        rw [hHp, rph.1]
        show some (sub64 (add64 (bp - psz) psz) DSIZE) = _
        rw [add64_eq (by omega), sub64_eq (by simp only [DSIZE]; omega) (by omega)]
        have : bp - psz + psz - DSIZE = bp - 8 := by simp only [DSIZE]; omega
        rw [this]
      · constructor
        · intro hx
          rcases hx with hx | hx
          · intro hc; exact hx hc.2
          · omega
        · intro hx
          left
          intro hc
          exact hx ⟨h0, hc⟩
  · intro h0
    obtain ⟨hp1, hp2⟩ := hph h0
    have hHp : HDRP (bp - psz) = bp - psz - 4 := HDRP_eq (by omega) (by omega)
    have okph : okAt st (bp - psz - 4) 4 := ⟨by omega, by omega⟩
    rw [hHp]
    exact (readTag okph hp2 hpsz8 hpa (by omega)).1

theorem coalesce_unfold {st : State} {L : List Nat} {bp sz psz pa nsz na : Nat}
    (h : CoalesceReady st L bp sz psz pa nsz na) :
    coalesce st bp = (coalesceCases st bp (if psz ≠ 0 ∧ pa = 0 then 0 else 1) na sz).bind
      (fun a => (insertF a.2 a.1).bind (fun s2 => some (a.1, s2))) := by
  obtain ⟨e1, ⟨pf, pav, e2, e3, hiff⟩, e4, e5, e6, _, _⟩ := coalesce_reads h
  unfold coalesce
  simp only [bind, Option.bind_eq_bind, e1, e2, e3, e4, e5, e6, Option.some_bind]
  have : (if pav ≠ 0 ∨ bp - psz = bp then 1 else 0) = (if psz ≠ 0 ∧ pa = 0 then 0 else 1) := by
    by_cases hc : psz ≠ 0 ∧ pa = 0
    · rw [if_pos hc, if_neg (fun hx => (hiff.mp hx) hc)]
    · rw [if_neg hc, if_pos (hiff.mpr hc)]
  rw [this]
  rfl

theorem hdr_frame {st s1 : State} {L : List Nat} (h : FLWF st L)
    (hfr : ∀ a, (∀ x ∈ L, a < x ∨ x + 16 ≤ a) →
      (a < st.heap_listp ∨ st.heap_listp + 8 ≤ a) → s1.mem a = st.mem a) :
    ∀ x ∈ L, hdrSize s1.mem x = hdrSize st.mem x := by
  intro x hx
  have hblk := h.2.2.2.1
  unfold hdrSize
  rw [frame_word hfr (x - 4) ?_ ?_]
  · intro y hy
    have := hblk x hx
    have := hblk y hy
    by_cases hxy : x = y
    · omega
    · have := FLWF_apart h x hx y hy hxy; omega
  · have := hblk x hx; omega

theorem merge_after {st s1 : State} {L L' : List Nat} {r S : Nat}
    (hF : FLWF st L) (hF1 : FLWF s1 L') (hsub : List.Sublist L' L) (hreg : SameRegion st s1)
    (hfr : ∀ a, (∀ x ∈ L, a < x ∨ x + 16 ≤ a) →
      (a < st.heap_listp ∨ st.heap_listp + 8 ≤ a) → s1.mem a = st.mem a)
    (hr8 : r % 8 = 0) (hrs : st.heap_listp + 16 ≤ r) (hS24 : 24 ≤ S) (hS8 : S % 8 = 0)
    (hSlt : S < U32) (hbrk : r + S ≤ st.brk)
    (hap : ∀ x ∈ L', r + S ≤ x ∨ x + hdrSize st.mem x ≤ r) :
    ∃ s2 st', putFreeTags s1 r S = some s2 ∧ insertF s2 r = some st' ∧
      FLWF st' (r :: L') ∧ SameRegion st st' ∧ st'.free_listp = r ∧
      wordAt st'.mem (r - 4) = S ∧ wordAt st'.mem (r + S - 8) = S ∧
      (∀ a, (a + 4 < r ∨ r + S ≤ a + 4) → (∀ x ∈ L, a < x ∨ x + 16 ≤ a) →
        (a < st.heap_listp ∨ st.heap_listp + 8 ≤ a) → st'.mem a = st.mem a) := by
  obtain ⟨a1, a2, a3, a4, a5⟩ := hreg
  have hsz := hdr_frame hF hfr
  obtain ⟨s2, st', m1, m2, m3, m4, m5, m6, m7, m8⟩ := merge_finish (L := L')
    (r := r) (S := S) hF1 hr8 (by rw [a5]; exact hrs) hS24 hS8 hSlt (by rw [a2]; exact hbrk)
    (fun x hx => by rw [hsz x (hsub.subset hx)]; exact hap x hx)
  obtain ⟨b1, b2, b3, b4, b5⟩ := m4
  refine ⟨s2, st', m1, m2, m3, ⟨by rw [b1, a1], by rw [b2, a2], by rw [b3, a3], by rw [b4, a4],
    by rw [b5, a5]⟩, m5, m6, m7, ?_⟩
  intro a ha hL hs
  rw [m8 a ha ?_, hfr a hL hs]
  rcases LinkWF_head hF1.1 with ⟨_, hfs⟩ | hmem
  · rw [hfs, a5]; omega
  · have := hL _ (hsub.subset hmem); omega

theorem coalesce_spec {st : State} {L : List Nat} {bp sz psz pa nsz na : Nat}
    (h : CoalesceReady st L bp sz psz pa nsz na) :
    ∃ st', coalesce st bp = some (mergedBase bp psz pa, st') ∧
      FLWF st' (mergedBase bp psz pa :: mergedRest L bp sz psz pa na) ∧
      SameRegion st st' ∧ st'.free_listp = mergedBase bp psz pa ∧
      wordAt st'.mem (mergedBase bp psz pa - 4) = PACK (mergedSize sz psz pa nsz na) 0 ∧
      wordAt st'.mem (mergedBase bp psz pa + mergedSize sz psz pa nsz na - 8)
        = PACK (mergedSize sz psz pa nsz na) 0 ∧
      (∀ a, (a + 4 < mergedBase bp psz pa ∨
          mergedBase bp psz pa + mergedSize sz psz pa nsz na ≤ a + 4) →
        (∀ x ∈ L, a < x ∨ x + 16 ≤ a) →
        (a < st.heap_listp ∨ st.heap_listp + 8 ≤ a) → st'.mem a = st.mem a) := by
  have hun := coalesce_unfold h
  obtain ⟨e1, _, e4, _, _, ePs, eNs⟩ := coalesce_reads h
  obtain ⟨⟨hF, hb8, hbs, hsz24, hsz8, hbrk, hhdr, hftr, hap, hpw, hpsz8, hpa, hph, hpL,
    hnw, hnsz8, hna, hnL⟩, hfit⟩ := h
  have hU := hF.1.1
  have hs4 := hF.2.1
  have hblk := hF.2.2.2.1
  have hU32 : U32 = 4294967296 := rfl
  have hU64 : U64 = 18446744073709551616 := rfl
  have hfr0 : ∀ a, (∀ x ∈ L, a < x ∨ x + 16 ≤ a) →
      (a < st.heap_listp ∨ st.heap_listp + 8 ≤ a) → st.mem a = st.mem a := fun _ _ _ => rfl
  have hszbp : hdrSize st.mem bp = sz := by
    unfold hdrSize; rw [hhdr]; exact sizeOf32_PACK hsz8 (Nat.zero_le 1) (by omega)
  have halbp : hdrAlloc st.mem bp = 0 := by
    unfold hdrAlloc; rw [hhdr]; exact allocOf32_PACK hsz8 (Nat.zero_le 1)
  rw [hun]
  by_cases hp : psz ≠ 0 ∧ pa = 0
  · -- the previous block is free
    have hprevL : bp - psz ∈ L := hpL hp.1 hp.2
    obtain ⟨hp1, hp2⟩ := hph hp.1
    have hpblk := hblk _ hprevL
    have hszp : hdrSize st.mem (bp - psz) = psz := by
      unfold hdrSize; rw [hp2]; exact sizeOf32_PACK hpsz8 hpa (by omega)
    rw [hszp] at hpblk
    obtain ⟨s1, r1, r2, r3, r4, r5⟩ := FLWF_removeF hF hprevL
    have hfr1 : ∀ a, (∀ x ∈ L, a < x ∨ x + 16 ≤ a) →
        (a < st.heap_listp ∨ st.heap_listp + 8 ≤ a) → s1.mem a = st.mem a :=
      fun a hL hs => r5 a (fun x hx _ => hL x hx) hs
    have hapx : ∀ x ∈ L, x ≠ bp - psz → x + hdrSize st.mem x ≤ bp - psz ∨ bp ≤ x := by
      intro x hx hne
      have := FLWF_apart hF x hx _ hprevL hne
      rw [hszp] at this
      omega
    by_cases hn : na = 0
    · -- both neighbours are free
      have hnextL : bp + sz ∈ L := hnL hn
      have hnblk := hblk _ hnextL
      have hszn : hdrSize st.mem (bp + sz) = nsz := by
        unfold hdrSize
        rw [show bp + sz - 4 = bp + sz - 4 from rfl, hnw]
        exact sizeOf32_PACK hnsz8 hna (by omega)
      rw [hszn] at hnblk
      have hnext1 : bp + sz ∈ L.erase (bp - psz) :=
        (List.mem_erase_of_ne (by omega)).mpr hnextL
      obtain ⟨s2, q1, q2, q3, q4, q5⟩ := FLWF_removeF r2 hnext1
      have hfr2 : ∀ a, (∀ x ∈ L, a < x ∨ x + 16 ≤ a) →
          (a < st.heap_listp ∨ st.heap_listp + 8 ≤ a) → s2.mem a = st.mem a := by
        intro a hL hs
        rw [q5 a (fun x hx _ => hL x ((List.erase_sublist _ _).subset hx))
          (by rw [r3.2.2.2.2]; exact hs)]
        exact hfr1 a hL hs
      have hreg2 : SameRegion st s2 := by
        obtain ⟨a1, a2, a3, a4, a5⟩ := r3
        obtain ⟨b1, b2, b3, b4, b5⟩ := q3
        exact ⟨by rw [b1, a1], by rw [b2, a2], by rw [b3, a3], by rw [b4, a4], by rw [b5, a5]⟩
      -- the reads made between the two removals
      have okh1 : okAt s1 (bp - 4) 4 := ⟨by rw [r3.1]; omega, by rw [r3.2.1]; omega⟩
      have hw1 : wordAt s1.mem (bp - 4) = PACK sz 0 := by
        rw [frame_word hfr1 (bp - 4) ?_ ?_, hhdr]
        · intro x hx; have := hap x hx; have := hblk x hx; omega
        · omega
      have eN1 : NEXT_BLKP s1 bp = some (bp + sz) := by
        unfold NEXT_BLKP
        rw [sub64_eq (by simp only [WSIZE]; omega) (by omega)]
        simp only [WSIZE]
        rw [(readTag okh1 hw1 hsz8 (Nat.zero_le 1) (by omega)).1]
        show some (add64 bp sz) = _
        rw [add64_eq (by omega)]
      have okp2 : okAt s2 (bp - 8) 4 :=
        ⟨by rw [hreg2.1]; omega, by rw [hreg2.2.1]; omega⟩
      have hw2 : wordAt s2.mem (bp - 8) = PACK psz pa := by
        rw [frame_word hfr2 (bp - 8) ?_ ?_, hpw]
        · intro x hx
          by_cases hxp : x = bp - psz
          · omega
          · have := hapx x hx hxp; have := hblk x hx; omega
        · omega
      have eP2 : PREV_BLKP s2 bp = some (bp - psz) := by
        unfold PREV_BLKP
        rw [sub64_eq (by simp only [DSIZE]; omega) (by omega)]
        simp only [DSIZE]
        rw [(readTag okp2 hw2 hpsz8 hpa (by omega)).1]
        show some (sub64 bp psz) = _
        rw [sub64_eq (by omega) (by omega)]
      have hsub : List.Sublist ((L.erase (bp - psz)).erase (bp + sz)) L :=
        (List.erase_sublist _ _).trans (List.erase_sublist _ _)
      obtain ⟨s3, st', m1, m2, m3, m4, m5, m6, m7, m8⟩ := merge_after (S := sz + psz + nsz)
        (r := bp - psz) hF q2 hsub hreg2 hfr2 (by omega) (by omega) (by omega) (by omega)
        (by omega) (by omega) (fun x hx => by
          have hxL := hsub.subset hx
          have hx1 : x ≠ bp - psz := by
            intro e
            have := (List.Nodup.mem_erase_iff (LinkWF_nodup hF.1)).mp
              ((List.erase_sublist _ _).subset hx)
            exact this.1 e
          have hx2 : x ≠ bp + sz := by
            intro e
            have := (List.Nodup.mem_erase_iff (LinkWF_nodup r2.1)).mp hx
            exact this.1 e
          have := hapx x hxL hx1
          have := FLWF_apart hF x hxL _ hnextL hx2
          rw [hszn] at this
          have := hblk x hxL
          have := hap x hxL
          omega)
      have hS : add64 sz (add64 psz nsz) = sz + psz + nsz := by
        rw [add64_eq (a := psz) (b := nsz) (by omega), add64_eq (by omega)]; omega
      have hcase : coalesceCases st bp (if psz ≠ 0 ∧ pa = 0 then 0 else 1) na sz
          = some (bp - psz, s3) := by
        unfold coalesceCases
        rw [if_pos hp, if_neg (by simp [hn]), if_neg (by simp), if_pos ⟨rfl, hn⟩]
        simp only [bind, Option.bind_eq_bind, e1, e4, ePs hp.1, eNs, r1, eN1, q1, eP2,
          Option.some_bind, hS, m1]
        rfl
      refine ⟨st', ?_, ?_, m4, ?_, ?_, ?_, ?_⟩
      · rw [hcase, Option.some_bind]
        simp only [m2, Option.some_bind, mergedBase, if_pos hp]
      · simp only [mergedBase, mergedRest, if_pos hp, if_pos hn]
        exact m3
      · simp only [mergedBase, if_pos hp]; exact m5
      · simp only [mergedBase, mergedSize, if_pos hp, if_pos hn, PACK_zero]; exact m6
      · simp only [mergedBase, mergedSize, if_pos hp, if_pos hn, PACK_zero]; exact m7
      · simp only [mergedBase, mergedSize, if_pos hp, if_pos hn]; exact m8
    · -- only the previous block is free
      have hna1 : na ≠ 0 := hn
      obtain ⟨s3, st', m1, m2, m3, m4, m5, m6, m7, m8⟩ := merge_after (S := sz + psz)
        (r := bp - psz) hF r2 (List.erase_sublist _ _) r3 hfr1 (by omega) (by omega)
        (by omega) (by omega) (by omega) (by omega) (fun x hx => by
          have hxL := (List.erase_sublist _ _).subset hx
          have hx1 : x ≠ bp - psz := by
            intro e
            exact ((List.Nodup.mem_erase_iff (LinkWF_nodup hF.1)).mp hx).1 e
          have := hapx x hxL hx1
          have := hap x hxL
          have := hblk x hxL
          omega)
      have hS : add64 sz psz = sz + psz := add64_eq (by omega)
      have hcase : coalesceCases st bp (if psz ≠ 0 ∧ pa = 0 then 0 else 1) na sz
          = some (bp - psz, s3) := by
        unfold coalesceCases
        rw [if_pos hp, if_pos ⟨rfl, hna1⟩]
        simp only [bind, Option.bind_eq_bind, e1, ePs hp.1, r1, Option.some_bind, hS, m1]
        rfl
      refine ⟨st', ?_, ?_, m4, ?_, ?_, ?_, ?_⟩
      · rw [hcase, Option.some_bind]
        simp only [m2, Option.some_bind, mergedBase, if_pos hp]
      · simp only [mergedBase, mergedRest, if_pos hp, if_neg hn]
        exact m3
      · simp only [mergedBase, if_pos hp]; exact m5
      · simp only [mergedBase, mergedSize, if_pos hp, if_neg hn, PACK_zero, Nat.add_zero]
        exact m6
      · simp only [mergedBase, mergedSize, if_pos hp, if_neg hn, PACK_zero, Nat.add_zero]
        exact m7
      · simp only [mergedBase, mergedSize, if_pos hp, if_neg hn, Nat.add_zero]; exact m8
  · -- the previous block is allocated or absent
    by_cases hn : na = 0
    · have hnextL : bp + sz ∈ L := hnL hn
      have hnblk := hblk _ hnextL
      have hszn : hdrSize st.mem (bp + sz) = nsz := by
        unfold hdrSize
        rw [hnw]
        exact sizeOf32_PACK hnsz8 hna (by omega)
      rw [hszn] at hnblk
      obtain ⟨s1, r1, r2, r3, r4, r5⟩ := FLWF_removeF hF hnextL
      have hfr1 : ∀ a, (∀ x ∈ L, a < x ∨ x + 16 ≤ a) →
          (a < st.heap_listp ∨ st.heap_listp + 8 ≤ a) → s1.mem a = st.mem a :=
        fun a hL hs => r5 a (fun x hx _ => hL x hx) hs
      obtain ⟨s3, st', m1, m2, m3, m4, m5, m6, m7, m8⟩ := merge_after (S := sz + nsz)
        (r := bp) hF r2 (List.erase_sublist _ _) r3 hfr1 hb8 hbs (by omega) (by omega)
        (by omega) (by omega) (fun x hx => by
          have hxL := (List.erase_sublist _ _).subset hx
          have hx1 : x ≠ bp + sz := by
            intro e
            exact ((List.Nodup.mem_erase_iff (LinkWF_nodup hF.1)).mp hx).1 e
          have := FLWF_apart hF x hxL _ hnextL hx1
          rw [hszn] at this
          have := hap x hxL
          have := hblk x hxL
          omega)
      have hS : add64 sz nsz = sz + nsz := add64_eq (by omega)
      have hcase : coalesceCases st bp (if psz ≠ 0 ∧ pa = 0 then 0 else 1) na sz
          = some (bp, s3) := by
        unfold coalesceCases
        rw [if_neg hp, if_neg (by simp [hn]), if_pos ⟨by simp, hn⟩]
        simp only [bind, Option.bind_eq_bind, e4, eNs, r1, Option.some_bind, hS, m1]
        rfl
      refine ⟨st', ?_, ?_, m4, ?_, ?_, ?_, ?_⟩
      · rw [hcase, Option.some_bind]
        simp only [m2, Option.some_bind, mergedBase, if_neg hp]
      · simp only [mergedBase, mergedRest, if_neg hp, if_pos hn]
        exact m3
      · simp only [mergedBase, if_neg hp]; exact m5
      · simp only [mergedBase, mergedSize, if_neg hp, if_pos hn, PACK_zero, Nat.add_zero]
        exact m6
      · simp only [mergedBase, mergedSize, if_neg hp, if_pos hn, PACK_zero, Nat.add_zero]
        exact m7
      · simp only [mergedBase, mergedSize, if_neg hp, if_pos hn, Nat.add_zero]; exact m8
    · -- no merge
      have hcase : coalesceCases st bp (if psz ≠ 0 ∧ pa = 0 then 0 else 1) na sz
          = some (bp, st) := by
        unfold coalesceCases
        rw [if_neg hp, if_neg (by simp), if_neg (by simp [hn]), if_neg (by simp)]
        rfl
      obtain ⟨st', i1, i2, i3, i4, i5⟩ := FLWF_insertF (L := L) (b := bp) hF hb8 hbs
        (by rw [hszbp]; exact hsz24) (by rw [hszbp]; exact hbrk) halbp
        (fun x hx => by rw [hszbp]; have := hap x hx; omega)
      have hk := insertF_keeps (L := L) (b := bp) hF hb8 hbs
        (by rw [hszbp]; exact hsz24) (by rw [hszbp]; exact hbrk) halbp
        (fun x hx => by rw [hszbp]; have := hap x hx; omega) i1
      refine ⟨st', ?_, ?_, i3, ?_, ?_, ?_, ?_⟩
      · rw [hcase, Option.some_bind]
        simp only [i1, Option.some_bind, mergedBase, if_neg hp]
      · simp only [mergedBase, mergedRest, if_neg hp, if_neg hn]
        exact i2
      · simp only [mergedBase, if_neg hp]; exact i4
      · simp only [mergedBase, mergedSize, if_neg hp, if_neg hn, Nat.add_zero]
        rw [← hhdr]
        apply wordAt_congr
        intro i hi
        apply hk.2.2.2
        · omega
        · intro x hx; have := hap x hx; have := hblk x hx; omega
        · omega
      · simp only [mergedBase, mergedSize, if_neg hp, if_neg hn, Nat.add_zero]
        rw [← hftr]
        apply wordAt_congr
        intro i hi
        apply hk.2.2.2
        · omega
        · intro x hx; have := hap x hx; have := hblk x hx; omega
        · omega
      · simp only [mergedBase, mergedSize, if_neg hp, if_neg hn, Nat.add_zero]
        intro a ha hL hs
        exact hk.2.2.2 a (by omega) hL hs

/-! ## `find_fit` and `place` on a well-formed list -/

theorem find_fit_loop_sound {st : State} {L : List Nat} (h : FLWF st L) (asize : Nat) :
    ∀ (fuel : Nat) (L' : List Nat) (prev p bp : Nat),
      Chain st.mem st.heap_listp prev p L' → (∀ x ∈ L', x ∈ L) →
      find_fit_loop st asize fuel p = some bp → bp ≠ 0 →
      bp ∈ L' ∧ asize ≤ hdrSize st.mem bp := by
  have hblk := h.2.2.2.1
  have hnode := h.1.2.2.2.2.2.2.1
  have hU := h.1.1
  have hs4 := h.2.1
  have hsa := h.2.2.1
  have hsbrk := h.1.2.2.2.2.1
  have hs8 := h.1.2.1
  intro fuel
  induction fuel with
  | zero => intro L' prev p bp _ _ hf _; cases hf
  | succ k ih =>
    intro L' prev p bp hc hsub hf hne
    cases L' with
    | nil =>
      have hp : p = st.heap_listp := hc
      have hH : HDRP p = p - 4 := HDRP_eq (by omega) (by omega)
      have ok : okAt st (p - 4) 4 := ⟨by omega, by omega⟩
      have ea : GET_ALLOC st (HDRP p) = some 1 := by
        rw [hH, GET_ALLOC_eq ok, hp]
        exact congrArg some hsa
      unfold find_fit_loop at hf
      simp only [bind, Option.bind_eq_bind, ea, Option.some_bind] at hf
      rw [if_neg (by simp)] at hf
      injection hf with hf
      exact absurd hf.symm hne
    | cons b L'' =>
      obtain ⟨hpb, _, hc'⟩ := hc
      have hbL := hsub b (List.mem_cons_self _ _)
      have hb := hblk b hbL
      have hbn := hnode b hbL
      have hH : HDRP p = b - 4 := by rw [hpb]; exact HDRP_eq (by omega) (by omega)
      have ok : okAt st (b - 4) 4 := ⟨by omega, by omega⟩
      have ea : GET_ALLOC st (HDRP p) = some 0 := by
        rw [hH, GET_ALLOC_eq ok]
        exact congrArg some hb.2.2.2
      have es : GET_SIZE st (HDRP p) = some (hdrSize st.mem b) := by
        rw [hH, GET_SIZE_eq ok]
        rfl
      have ok8 : okAt st (b + 8) 8 := ⟨by omega, by omega⟩
      have en : NEXT_FREE st p = some (nextOf st.mem b) := by
        unfold NEXT_FREE
        rw [hpb, add64_eq (by simp only [DSIZE]; omega)]
        simp only [DSIZE]
        rw [GETP_eq ok8]
        rfl
      unfold find_fit_loop at hf
      simp only [bind, Option.bind_eq_bind, ea, es, Option.some_bind] at hf
      by_cases hge : hdrSize st.mem b ≥ asize
      · rw [if_pos hge] at hf
        injection hf with hf
        rw [← hf, hpb]
        exact ⟨List.mem_cons_self _ _, hge⟩
      · rw [if_neg hge] at hf
        simp only [en, Option.some_bind] at hf
        have := ih L'' b (nextOf st.mem b) bp hc'
          (fun x hx => hsub x (List.mem_cons_of_mem _ hx)) hf hne
        exact ⟨List.mem_cons_of_mem _ this.1, this.2⟩

theorem find_fit_sound {st : State} {L : List Nat} (h : FLWF st L) {asize bp : Nat}
    (hf : find_fit st asize = some bp) (hne : bp ≠ 0) :
    bp ∈ L ∧ asize ≤ hdrSize st.mem bp :=
  find_fit_loop_sound h asize _ L 0 st.free_listp bp h.1.2.2.2.2.2.1 (fun _ hx => hx) hf hne

/-- The first three statements of both branches of `place`: the header and the
footer of the listed block `b` are rewritten as allocated with size `s`, then
`b` is unlinked. -/
theorem allocTags_removeF {st : State} {L : List Nat} {b s : Nat} (h : FLWF st L) (hb : b ∈ L)
    (hs8 : s % 8 = 0) (hs24 : 24 ≤ s) (hle : s ≤ hdrSize st.mem b) :
    ∃ s1 s2 s3, PUT st (HDRP b) (PACK s 1) = some s1 ∧ FTRP s1 b = some (b + s - 8) ∧
      PUT s1 (b + s - 8) (PACK s 1) = some s2 ∧ removeF s2 b = some s3 ∧
      SameRegion st s3 ∧
      wordAt s3.mem (b - 4) = PACK s 1 ∧ wordAt s3.mem (b + s - 8) = PACK s 1 := by
  have hblk := h.2.2.2.1
  have hnode := h.1.2.2.2.2.2.2.1
  have hU := h.1.1
  have hs4 := h.2.1
  have hb' := hblk b hb
  have hbn := hnode b hb
  have hcs := hdrSize_lt st.mem b
  have hU32 : U32 = 4294967296 := rfl
  have hU64 : U64 = 18446744073709551616 := rfl
  have hP : PACK s 1 = s + 1 := PACK_one s (by omega)
  have hmod : (s + 1) % U32 = s + 1 := Nat.mod_eq_of_lt (by omega)
  have hH : HDRP b = b - 4 := HDRP_eq (by omega) (by omega)
  have ok1 : okAt st (b - 4) 4 := ⟨by omega, by omega⟩
  obtain ⟨s1, hs1⟩ : ∃ s1 : State, s1 = { st with mem := wrLE st.mem (b - 4) 4 (s + 1) } :=
    ⟨_, rfl⟩
  have e1 : PUT st (HDRP b) (PACK s 1) = some s1 := by
    rw [hH, hP, PUT_eq _ ok1, hmod, hs1]
  have r1 : s1.lo = st.lo ∧ s1.brk = st.brk ∧ s1.mem = wrLE st.mem (b - 4) 4 (s + 1) := by
    rw [hs1]; exact ⟨rfl, rfl, rfl⟩
  have ok1' : okAt s1 (b - 4) 4 := ⟨by rw [r1.1]; omega, by rw [r1.2.1]; omega⟩
  have hw1 : wordAt s1.mem (b - 4) = PACK s 1 := by
    rw [r1.2.2, wordAt_wr_same _ _ _ (by omega), hP]
  have e2 : FTRP s1 b = some (b + s - 8) := by
    unfold FTRP
    rw [hH, (readTag ok1' hw1 hs8 (le_refl 1) (by omega)).1]
    show some (sub64 (add64 b s) DSIZE) = _
    rw [add64_eq (by omega), sub64_eq (by simp only [DSIZE]; omega) (by omega)]
    rfl
  have ok2 : okAt s1 (b + s - 8) 4 := ⟨by rw [r1.1]; omega, by rw [r1.2.1]; omega⟩
  obtain ⟨s2, hs2⟩ : ∃ s2 : State,
      s2 = { st with mem := wrLE (wrLE st.mem (b - 4) 4 (s + 1)) (b + s - 8) 4 (s + 1) } :=
    ⟨_, rfl⟩
  have e3 : PUT s1 (b + s - 8) (PACK s 1) = some s2 := by
    rw [hP, PUT_eq _ ok2, hmod, r1.2.2, hs2, hs1]
  have hreg2 : SameRegion st s2 := by rw [hs2]; exact ⟨rfl, rfl, rfl, rfl, rfl⟩
  have hfl2 : s2.free_listp = st.free_listp := by rw [hs2]
  have hm2 : ∀ a, (a < b - 4 ∨ b ≤ a) → (a < b + s - 8 ∨ b + s - 4 ≤ a) →
      s2.mem a = st.mem a := by
    intro a h1 h2
    rw [hs2]
    show wrLE (wrLE st.mem (b - 4) 4 (s + 1)) (b + s - 8) 4 (s + 1) a = st.mem a
    rw [wrLE_outside _ _ _ _ _ (by omega), wrLE_outside _ _ _ _ _ (by omega)]
  have hl2 : LinkWF s2 L := by
    apply LinkWF_frame h.1 hreg2 hfl2
    intro x hx i hi
    have hx' := hblk x hx
    apply hm2
    · by_cases hxb : x = b
      · omega
      · have := FLWF_apart h x hx b hb hxb; omega
    · by_cases hxb : x = b
      · omega
      · have := FLWF_apart h x hx b hb hxb; omega
  obtain ⟨s3, q1, q2, q3, q4, q5⟩ := removeF_spec hl2 hb
  have hw3 : ∀ q, (q = b - 4 ∨ q = b + s - 8) → wordAt s3.mem q = wordAt s2.mem q := by
    intro q hq
    apply wordAt_congr
    intro i hi
    apply q5
    · intro x hx hxb
      have hx' := hblk x hx
      have := FLWF_apart h x hx b hb hxb
      omega
    · rw [hreg2.2.2.2.2]; omega
  refine ⟨s1, s2, s3, e1, e2, e3, q1, ?_, ?_, ?_⟩
  · obtain ⟨a1, a2, a3, a4, a5⟩ := hreg2
    obtain ⟨b1, b2, b3, b4, b5⟩ := q3
    exact ⟨by rw [b1, a1], by rw [b2, a2], by rw [b3, a3], by rw [b4, a4], by rw [b5, a5]⟩
  · rw [hw3 _ (Or.inl rfl), hs2, hP]
    show wordAt (wrLE (wrLE st.mem (b - 4) 4 (s + 1)) (b + s - 8) 4 (s + 1)) (b - 4) = s + 1
    rw [wordAt_wr_other _ _ _ _ _ (by omega), wordAt_wr_same _ _ _ (by omega)]
  · rw [hw3 _ (Or.inr rfl), hs2, hP]
    exact wordAt_wr_same _ _ _ (by omega)

theorem place_spec {st : State} {L : List Nat} {b asize : Nat} (h : FLWF st L) (hb : b ∈ L)
    (ha8 : asize % 8 = 0) (ha24 : 24 ≤ asize) (hle : asize ≤ hdrSize st.mem b) :
    ∃ st' s, place st b asize = some st' ∧ SameRegion st st' ∧
      wordAt st'.mem (b - 4) = PACK s 1 ∧ wordAt st'.mem (b + s - 8) = PACK s 1 ∧
      asize ≤ s ∧ s % 8 = 0 ∧ s ≤ hdrSize st.mem b := by
  have hblk := h.2.2.2.1
  have hU := h.1.1
  have hs4 := h.2.1
  have hb' := hblk b hb
  have hbn := h.1.2.2.2.2.2.2.1 b hb
  have hcs := hdrSize_lt st.mem b
  have hU32 : U32 = 4294967296 := rfl
  have hU64 : U64 = 18446744073709551616 := rfl
  have hH : HDRP b = b - 4 := HDRP_eq (by omega) (by omega)
  have ok1 : okAt st (b - 4) 4 := ⟨by omega, by omega⟩
  have ecs : GET_SIZE st (HDRP b) = some (hdrSize st.mem b) := by
    rw [hH, GET_SIZE_eq ok1]; rfl
  obtain ⟨c, hc⟩ : ∃ c, c = hdrSize st.mem b := ⟨_, rfl⟩
  rw [← hc] at ecs hle hb' hcs
  have hsub : sub64 c asize = c - asize := sub64_eq hle (by omega)
  by_cases hsplit : c - asize ≥ 16
  · obtain ⟨s1, s2, s3, e1, e2, e3, e4, hreg, hw1, hw2⟩ :=
      allocTags_removeF h hb ha8 ha24 (by rw [← hc]; exact hle)
    obtain ⟨a1, a2, a3, a4, a5⟩ := hreg
    have hP : PACK asize 1 = asize + 1 := PACK_one asize (by omega)
    have okh3 : okAt s3 (b - 4) 4 := ⟨by rw [a1]; omega, by rw [a2]; omega⟩
    have eN : NEXT_BLKP s3 b = some (b + asize) := by
      unfold NEXT_BLKP
      rw [sub64_eq (by simp only [WSIZE]; omega) (by omega)]
      simp only [WSIZE]
      rw [(readTag okh3 hw1 ha8 (le_refl 1) (by omega)).1]
      show some (add64 b asize) = _
      rw [add64_eq (by omega)]
    have hHn : HDRP (b + asize) = b + asize - 4 := HDRP_eq (by omega) (by omega)
    have hP0 : PACK (c - asize) 0 = c - asize := PACK_zero _
    have hmod : (c - asize) % U32 = c - asize := Nat.mod_eq_of_lt (by omega)
    have ok4 : okAt s3 (b + asize - 4) 4 := ⟨by rw [a1]; omega, by rw [a2]; omega⟩
    obtain ⟨s4, hs4⟩ : ∃ s4 : State,
        s4 = { s3 with mem := wrLE s3.mem (b + asize - 4) 4 (c - asize) } := ⟨_, rfl⟩
    have e5 : PUT s3 (HDRP (b + asize)) (PACK (sub64 c asize) 0) = some s4 := by
      rw [hHn, hsub, hP0, PUT_eq _ ok4, hmod, hs4]
    have r4 : s4.lo = st.lo ∧ s4.brk = st.brk ∧ s4.max = st.max ∧ s4.failv = st.failv ∧
        s4.heap_listp = st.heap_listp ∧
        s4.mem = wrLE s3.mem (b + asize - 4) 4 (c - asize) := by
      rw [hs4]; exact ⟨a1, a2, a3, a4, a5, rfl⟩
    have ok4' : okAt s4 (b + asize - 4) 4 :=
      ⟨by rw [r4.1]; omega, by rw [r4.2.1]; omega⟩
    have hw4 : wordAt s4.mem (b + asize - 4) = PACK (c - asize) 0 := by
      rw [r4.2.2.2.2.2, wordAt_wr_same _ _ _ (by omega), hP0]
    have e6 : FTRP s4 (b + asize) = some (b + c - 8) := by
      unfold FTRP
      rw [hHn, (readTag ok4' hw4 (by omega) (Nat.zero_le 1) (by omega)).1]
      show some (sub64 (add64 (b + asize) (c - asize)) DSIZE) = _
      rw [add64_eq (by omega), sub64_eq (by simp only [DSIZE]; omega) (by omega)]
      have : b + asize + (c - asize) - DSIZE = b + c - 8 := by simp only [DSIZE]; omega
      rw [this]
    have ok5 : okAt s4 (b + c - 8) 4 := ⟨by rw [r4.1]; omega, by rw [r4.2.1]; omega⟩
    obtain ⟨s5, hs5⟩ : ∃ s5 : State,
        s5 = { s4 with mem := wrLE s4.mem (b + c - 8) 4 (c - asize) } := ⟨_, rfl⟩
    have e7 : PUT s4 (b + c - 8) (PACK (sub64 c asize) 0) = some s5 := by
      rw [hsub, hP0, PUT_eq _ ok5, hmod, hs5]
    have hm5 : s5.mem = wrLE (wrLE s3.mem (b + asize - 4) 4 (c - asize)) (b + c - 8) 4
        (c - asize) := by
      rw [hs5, hs4]
    refine ⟨s5, asize, ?_, ?_, ?_, ?_, le_refl _, ha8, by rw [← hc]; exact hle⟩
    · unfold place
      simp only [bind, Option.bind_eq_bind, ecs, Option.some_bind]
      rw [if_pos (by rw [hsub]; simp only [DSIZE, OVERHEAD]; exact hsplit)]
      simp only [e1, e2, e3, e4, eN, e5, e6, e7, Option.some_bind]
    · rw [hs5]; exact ⟨r4.1, r4.2.1, r4.2.2.1, r4.2.2.2.1, r4.2.2.2.2.1⟩
    · rw [hm5, wordAt_wr_other _ _ _ _ _ (by omega), wordAt_wr_other _ _ _ _ _ (by omega)]
      exact hw1
    · rw [hm5, wordAt_wr_other _ _ _ _ _ (by omega), wordAt_wr_other _ _ _ _ _ (by omega)]
      exact hw2
  · obtain ⟨s1, s2, s3, e1, e2, e3, e4, hreg, hw1, hw2⟩ :=
      allocTags_removeF h hb (s := c) (by omega) (by omega) (by rw [← hc])
    refine ⟨s3, c, ?_, hreg, hw1, hw2, hle, by omega, by rw [← hc]⟩
    unfold place
    simp only [bind, Option.bind_eq_bind, ecs, Option.some_bind]
    rw [if_neg (by rw [hsub]; simp only [DSIZE, OVERHEAD]; omega)]
    simp only [e1, e2, e3, e4, Option.some_bind]

/-! ## `extend_heap` and `mm_malloc` on a well-formed heap -/

theorem extend_heap_size {words : Nat} (hw : words % 2 = 0) (h32 : 32 ≤ words * 4)
    (hlt : words * 4 < U64) :
    (if (if words % 2 ≠ 0 then mul64 (add64 words 1) WSIZE else mul64 words WSIZE) < DSIZE * 4
      then DSIZE * 4
      else (if words % 2 ≠ 0 then mul64 (add64 words 1) WSIZE else mul64 words WSIZE))
      = words * 4 := by
  have h1 : (if words % 2 ≠ 0 then mul64 (add64 words 1) WSIZE else mul64 words WSIZE)
      = words * 4 := by
    rw [if_neg (by omega)]
    unfold mul64
    simp only [WSIZE]
    exact Nat.mod_eq_of_lt hlt
  rw [h1, if_neg (by simp only [DSIZE]; omega)]

theorem extend_heap_unfold (st : State) (words size : Nat)
    (hsz : (if (if words % 2 ≠ 0 then mul64 (add64 words 1) WSIZE else mul64 words WSIZE)
        < DSIZE * 4 then DSIZE * 4
      else (if words % 2 ≠ 0 then mul64 (add64 words 1) WSIZE else mul64 words WSIZE)) = size) :
    extend_heap st words =
      (if (mem_sbrk st size).1 = U64 - 1 then some (0, (mem_sbrk st size).2)
       else (PUT (mem_sbrk st size).2 (HDRP (mem_sbrk st size).1) (PACK size 0)).bind (fun s1 =>
        (FTRP s1 (mem_sbrk st size).1).bind (fun f =>
          (PUT s1 f (PACK size 0)).bind (fun s2 =>
            (NEXT_BLKP s2 (mem_sbrk st size).1).bind (fun nb =>
              (PUT s2 (HDRP nb) (PACK 0 1)).bind (fun s3 =>
                coalesce s3 (mem_sbrk st size).1)))))) := by
  unfold extend_heap
  simp only [hsz]
  rfl

theorem extend_heap_fail {st : State} {words : Nat} (hfail : st.failv = MINUS1)
    (hw : words % 2 = 0) (h32 : 32 ≤ words * 4) (hlt : words * 4 < U64)
    (hno : ¬ st.brk + words * 4 ≤ st.max) : extend_heap st words = some (0, st) := by
  have : mem_sbrk st (words * 4) = (st.failv, st) := by
    unfold mem_sbrk; rw [if_neg hno]
  rw [extend_heap_unfold st words _ (extend_heap_size hw h32 hlt), this, hfail]
  exact if_pos rfl

theorem extend_heap_writes {st : State} {words : Nat} (hw : words % 2 = 0)
    (h32 : 32 ≤ words * 4) (h4g : words * 4 < U32) (hb8 : st.brk % 8 = 0)
    (hlo : st.lo + 8 ≤ st.brk) (hyes : st.brk + words * 4 ≤ st.max) (hmax : st.max < U64) :
    extend_heap st words = coalesce (extended st (words * 4)) st.brk := by
  have hU32 : U32 = 4294967296 := rfl
  have hU64 : U64 = 18446744073709551616 := rfl
  obtain ⟨size, hsize⟩ : ∃ size, size = words * 4 := ⟨_, rfl⟩
  have hex := extend_heap_unfold st words _ (extend_heap_size hw h32 (by omega))
  rw [← hsize] at h32 h4g hyes hex ⊢
  obtain ⟨bp, hbp⟩ : ∃ bp, bp = st.brk := ⟨_, rfl⟩
  obtain ⟨s0, hs0⟩ : ∃ s0 : State, s0 = { st with brk := st.brk + size } := ⟨_, rfl⟩
  have hsb : mem_sbrk st size = (bp, s0) := by
    unfold mem_sbrk; rw [if_pos hyes, hs0, hbp]
  have r0 : s0.lo = st.lo ∧ s0.brk = bp + size ∧ s0.mem = st.mem := by
    rw [hs0, hbp]; exact ⟨rfl, rfl, rfl⟩
  have hext : extended st size = { s0 with mem := (wrLE (wrLE (wrLE st.mem (bp - 4) 4 size)
      (bp + size - 8) 4 size) (bp + size - 4) 4 1) } := by
    rw [hs0, hbp]; rfl
  rw [← hbp] at hb8 hlo hyes ⊢
  have hH : HDRP bp = bp - 4 := HDRP_eq (by omega) (by omega)
  have hP : PACK size 0 = size := PACK_zero _
  have hmod : size % U32 = size := Nat.mod_eq_of_lt (by omega)
  have ok1 : okAt s0 (bp - 4) 4 := ⟨by rw [r0.1]; omega, by rw [r0.2.1]; omega⟩
  obtain ⟨s1, hs1⟩ : ∃ s1 : State, s1 = { s0 with mem := wrLE st.mem (bp - 4) 4 size } :=
    ⟨_, rfl⟩
  have e1 : PUT s0 (HDRP bp) (PACK size 0) = some s1 := by
    rw [hH, hP, PUT_eq _ ok1, hmod, hs1, r0.2.2]
  have r1 : s1.lo = st.lo ∧ s1.brk = bp + size ∧ s1.mem = wrLE st.mem (bp - 4) 4 size := by
    rw [hs1]; exact ⟨r0.1, r0.2.1, rfl⟩
  have ok1' : okAt s1 (bp - 4) 4 := ⟨by rw [r1.1]; omega, by rw [r1.2.1]; omega⟩
  have hw1 : wordAt s1.mem (bp - 4) = PACK size 0 := by
    rw [r1.2.2, wordAt_wr_same _ _ _ (by omega), hP]
  have e2 : FTRP s1 bp = some (bp + size - 8) := by
    unfold FTRP
    rw [hH, (readTag ok1' hw1 (by omega) (Nat.zero_le 1) (by omega)).1]
    show some (sub64 (add64 bp size) DSIZE) = _
    rw [add64_eq (by omega), sub64_eq (by simp only [DSIZE]; omega) (by omega)]
    rfl
  have ok2 : okAt s1 (bp + size - 8) 4 :=
    ⟨by rw [r1.1]; omega, by rw [r1.2.1]; omega⟩
  obtain ⟨s2, hs2⟩ : ∃ s2 : State,
      s2 = { s0 with mem := wrLE (wrLE st.mem (bp - 4) 4 size) (bp + size - 8) 4 size } :=
    ⟨_, rfl⟩
  have e3 : PUT s1 (bp + size - 8) (PACK size 0) = some s2 := by
    rw [hP, PUT_eq _ ok2, hmod, r1.2.2, hs2, hs1]
  have r2 : s2.lo = st.lo ∧ s2.brk = bp + size ∧
      s2.mem = wrLE (wrLE st.mem (bp - 4) 4 size) (bp + size - 8) 4 size := by
    rw [hs2]; exact ⟨r0.1, r0.2.1, rfl⟩
  have ok2' : okAt s2 (bp - 4) 4 := ⟨by rw [r2.1]; omega, by rw [r2.2.1]; omega⟩
  have hw2 : wordAt s2.mem (bp - 4) = PACK size 0 := by
    rw [r2.2.2, wordAt_wr_other _ _ _ _ _ (by omega), wordAt_wr_same _ _ _ (by omega), hP]
  have e4 : NEXT_BLKP s2 bp = some (bp + size) := by
    unfold NEXT_BLKP
    rw [sub64_eq (by simp only [WSIZE]; omega) (by omega)]
    simp only [WSIZE]
    rw [(readTag ok2' hw2 (by omega) (Nat.zero_le 1) (by omega)).1]
    show some (add64 bp size) = _
    rw [add64_eq (by omega)]
  have hHn : HDRP (bp + size) = bp + size - 4 := HDRP_eq (by omega) (by omega)
  have ok3 : okAt s2 (bp + size - 4) 4 :=
    ⟨by rw [r2.1]; omega, by rw [r2.2.1]; omega⟩
  have hP1 : PACK 0 1 = 1 := rfl
  have e5 : PUT s2 (HDRP (bp + size)) (PACK 0 1) = some (extended st size) := by
    rw [hHn, hP1, PUT_eq _ ok3, r2.2.2, hext, hs2]
    rfl
  rw [hex, hsb]
  show (if bp = U64 - 1 then some (0, s0) else _) = _
  rw [if_neg (by omega)]
  show (PUT s0 (HDRP bp) (PACK size 0)).bind _ = _
  rw [e1, Option.some_bind, e2, Option.some_bind, e3, Option.some_bind, e4,
    Option.some_bind, e5, Option.some_bind]

theorem extended_out (st : State) (size a : Nat) (h8 : 8 ≤ size) (ha : a + 4 < st.brk) :
    (extended st size).mem a = st.mem a := by
  show wrLE (wrLE (wrLE st.mem (st.brk - 4) 4 size) (st.brk + size - 8) 4 size)
    (st.brk + size - 4) 4 1 a = st.mem a
  rw [wrLE_outside _ _ _ _ _ (by omega), wrLE_outside _ _ _ _ _ (by omega),
    wrLE_outside _ _ _ _ _ (by omega)]

theorem extended_word (st : State) (size q : Nat) (h8 : 8 ≤ size) (hq : q + 8 ≤ st.brk) :
    wordAt (extended st size).mem q = wordAt st.mem q := by
  apply wordAt_congr
  intro i hi
  exact extended_out st size _ h8 (by omega)

theorem extended_tags (st : State) (size : Nat) (h8 : 8 ≤ size) (hlt : size < U32)
    (hb : 4 ≤ st.brk) :
    wordAt (extended st size).mem (st.brk - 4) = size ∧
    wordAt (extended st size).mem (st.brk + size - 8) = size ∧
    wordAt (extended st size).mem (st.brk + size - 4) = 1 := by
  have hU32 : U32 = 4294967296 := rfl
  refine ⟨?_, ?_, ?_⟩
  · show wordAt (wrLE (wrLE (wrLE st.mem (st.brk - 4) 4 size) (st.brk + size - 8) 4 size)
      (st.brk + size - 4) 4 1) (st.brk - 4) = size
    rw [wordAt_wr_other _ _ _ _ _ (by omega), wordAt_wr_other _ _ _ _ _ (by omega),
      wordAt_wr_same _ _ _ hlt]
  · show wordAt (wrLE (wrLE (wrLE st.mem (st.brk - 4) 4 size) (st.brk + size - 8) 4 size)
      (st.brk + size - 4) 4 1) (st.brk + size - 8) = size
    rw [wordAt_wr_other _ _ _ _ _ (by omega), wordAt_wr_same _ _ _ hlt]
  · show wordAt (wrLE (wrLE (wrLE st.mem (st.brk - 4) 4 size) (st.brk + size - 8) 4 size)
      (st.brk + size - 4) 4 1) (st.brk + size - 4) = 1
    exact wordAt_wr_same _ _ _ (by omega)

theorem extended_FLWF {st : State} {L : List Nat} (hF : FLWF st L) (size : Nat)
    (h8 : 8 ≤ size) (hlt : st.brk + size < U64) :
    FLWF (extended st size) L ∧ ∀ x ∈ L, hdrSize (extended st size).mem x = hdrSize st.mem x := by
  have hblk := hF.2.2.2.1
  have hs4 := hF.2.1
  have hsz3 : ∀ x ∈ L, hdrSize (extended st size).mem x = hdrSize st.mem x := by
    intro x hx
    have := hblk x hx
    unfold hdrSize
    rw [extended_word _ _ _ h8 (by omega)]
  have hal3 : ∀ x ∈ L, hdrAlloc (extended st size).mem x = hdrAlloc st.mem x := by
    intro x hx
    have := hblk x hx
    unfold hdrAlloc
    rw [extended_word _ _ _ h8 (by omega)]
  refine ⟨?_, hsz3⟩
  obtain ⟨hU', hs8, hs0', hslo, hsbrk, hch, hnode, hpw⟩ := hF.1
  have hL3 : LinkWF (extended st size) L := by
    refine ⟨hlt, hs8, hs0', hslo, ?_, ?_, ?_, hpw⟩
    · show st.heap_listp + 8 ≤ st.brk + size
      omega
    · show Chain (extended st size).mem st.heap_listp 0 st.free_listp L
      apply Chain_congr _ _ _ hch
      intro x hx
      have := hblk x hx
      constructor
      · exact rdLE_congr _ _ _ _ (fun i hi => extended_out _ _ _ h8 (by omega))
      · exact rdLE_congr _ _ _ _ (fun i hi => extended_out _ _ _ h8 (by omega))
    · intro x hx
      have := hnode x hx
      refine ⟨this.1, this.2.1, ?_⟩
      show x + 16 ≤ st.brk + size
      omega
  refine ⟨hL3, hs4, ?_, ?_, ?_⟩
  · show hdrAlloc (extended st size).mem st.heap_listp = 1
    unfold hdrAlloc
    rw [extended_word _ _ _ h8 (by omega)]
    exact hF.2.2.1
  · intro x hx
    have := hblk x hx
    rw [hsz3 x hx, hal3 x hx]
    refine ⟨this.1, this.2.1, ?_, this.2.2.2⟩
    show x + hdrSize st.mem x ≤ st.brk + size
    omega
  · apply List.Pairwise.imp_of_mem _ hF.2.2.2.2
    intro a b ha hb hab
    rw [hsz3 a ha, hsz3 b hb]
    exact hab

theorem extended_ready {st : State} {L : List Nat} (h : HeapWF st L) {size : Nat}
    (h32 : 32 ≤ size) (h8 : size % 8 = 0) (hyes : st.brk + size ≤ st.max) :
    CoalesceReady (extended st size) L st.brk size (sizeOf32 (wordAt st.mem (st.brk - 8)))
      (allocOf32 (wordAt st.mem (st.brk - 8))) 0 1 := by
  obtain ⟨hF, hb8, hbs, hfail, hmax, hmax32, hw0, hwh, hwL⟩ := h
  have hblk := hF.2.2.2.1
  have hs4 := hF.2.1
  have hU32 : U32 = 4294967296 := rfl
  have hU64 : U64 = 18446744073709551616 := rfl
  have hlt : size < U32 := by omega
  have h8' : 8 ≤ size := by omega
  obtain ⟨hF3, hsz3⟩ := extended_FLWF hF size h8' (by omega)
  obtain ⟨t1, t2, t3⟩ := extended_tags st size (by omega) hlt (by omega)
  obtain ⟨w, hwdef⟩ : ∃ w, w = wordAt st.mem (st.brk - 8) := ⟨_, rfl⟩
  rw [← hwdef] at hw0 hwh hwL ⊢
  have hwlt : w < U32 := by rw [hwdef]; exact wordAt_lt _ _
  have hpsz := sizeOf32_mod8 w hwlt
  refine ⟨⟨hF3, hb8, hbs, by omega, h8, le_refl _, ?_, ?_, ?_, ?_, hpsz.1, allocOf32_le w,
    ?_, ?_, ?_, rfl, le_refl 1, by simp⟩, ?_⟩
  · rw [t1, PACK_zero]
  · rw [t2, PACK_zero]
  · intro x hx
    have := hblk x hx
    rw [hsz3 x hx]
    omega
  · rw [extended_word _ _ _ h8' (by omega), ← hwdef]
    exact hw0
  · intro hne
    have := hwh hne
    refine ⟨this.1, ?_⟩
    rw [extended_word _ _ _ h8' (by omega), this.2, ← hw0]
  · exact hwL
  · rw [t3]; rfl
  · by_cases hne : sizeOf32 w = 0
    · omega
    · have := (hwh hne).1; omega

theorem extend_heap_spec {st : State} {L : List Nat} (h : HeapWF st L) (words : Nat)
    (hw : words % 2 = 0) (h32 : 32 ≤ words * 4) (hlt : words * 4 < U64) :
    (¬ st.brk + words * 4 ≤ st.max → extend_heap st words = some (0, st)) ∧
    (st.brk + words * 4 ≤ st.max → ∃ r st' L', extend_heap st words = some (r, st') ∧
      FLWF st' (r :: L') ∧ words * 4 ≤ hdrSize st'.mem r) := by
  have hU32 : U32 = 4294967296 := rfl
  have hU64 : U64 = 18446744073709551616 := rfl
  constructor
  · exact extend_heap_fail h.2.2.2.1 hw h32 hlt
  · intro hyes
    have hs4 := h.1.2.1
    have hbs := h.2.2.1
    have hmax := h.2.2.2.2.1
    have hmax32 := h.2.2.2.2.2.1
    have hlt32 : words * 4 < U32 := by omega
    have hrun := extend_heap_writes hw h32 hlt32 h.2.1 (by omega) hyes hmax
    have hready := extended_ready h h32 (by omega) hyes
    obtain ⟨st', c1, c2, c3, c4, c5, c6, c7⟩ := coalesce_spec hready
    refine ⟨_, st', _, by rw [hrun]; exact c1, c2, ?_⟩
    have hpsz := sizeOf32_mod8 _ (wordAt_lt st.mem (st.brk - 8))
    have hfit := hready.2
    have hSlt : mergedSize (words * 4) (sizeOf32 (wordAt st.mem (st.brk - 8)))
        (allocOf32 (wordAt st.mem (st.brk - 8))) 0 1 < U32 := by
      unfold mergedSize
      split <;> simp <;> omega
    have hS8 : mergedSize (words * 4) (sizeOf32 (wordAt st.mem (st.brk - 8)))
        (allocOf32 (wordAt st.mem (st.brk - 8))) 0 1 % 8 = 0 := by
      unfold mergedSize
      split <;> simp <;> omega
    have hge : words * 4 ≤ mergedSize (words * 4) (sizeOf32 (wordAt st.mem (st.brk - 8)))
        (allocOf32 (wordAt st.mem (st.brk - 8))) 0 1 := by
      unfold mergedSize
      omega
    unfold hdrSize
    rw [c5, PACK_zero]
    have := sizeOf32_PACK hS8 (Nat.zero_le 1) (by omega)
    rw [PACK_zero] at this
    rw [this]
    exact hge

theorem asize_facts {n : Nat} (hn : n + 16 ≤ U64) :
    MAX (add64 (ALIGN n) DSIZE) (DSIZE * 4) = MAX ((n + 7) / 8 * 8 + 8) 32 ∧
    MAX ((n + 7) / 8 * 8 + 8) 32 % 8 = 0 ∧ 32 ≤ MAX ((n + 7) / 8 * 8 + 8) 32 ∧
    n + 8 ≤ MAX ((n + 7) / 8 * 8 + 8) 32 ∧ MAX ((n + 7) / 8 * 8 + 8) 32 < U64 := by
  have hU64 : U64 = 18446744073709551616 := rfl
  have h1 : ALIGN n = (n + 7) / 8 * 8 := by
    rw [ALIGN_eq, Nat.mod_eq_of_lt (by omega)]
  have h2 : add64 (ALIGN n) DSIZE = (n + 7) / 8 * 8 + 8 := by
    rw [h1]
    exact add64_eq (by simp only [DSIZE]; omega)
  rw [h2]
  refine ⟨rfl, ?_, ?_, ?_, ?_⟩ <;> unfold MAX <;> split <;> omega

theorem malloc_tags {st st' : State} {L : List Nat} {n p : Nat} (h : HeapWF st L)
    (hn : 0 < n) (hn2 : n + 16 ≤ U64) (hm : mm_malloc st n = some (p, st')) (hp : p ≠ 0) :
    ∃ s, wordAt st'.mem (p - 4) = PACK s 1 ∧ wordAt st'.mem (p + s - 8) = PACK s 1 ∧
      s % 8 = 0 ∧ MAX ((n + 7) / 8 * 8 + 8) 32 ≤ s ∧ p < U64 ∧ 16 ≤ p := by
  have hU64 : U64 = 18446744073709551616 := rfl
  obtain ⟨ha1, ha8, ha32, _, halt⟩ := asize_facts hn2
  obtain ⟨asize, hasz⟩ : ∃ a, a = MAX ((n + 7) / 8 * 8 + 8) 32 := ⟨_, rfl⟩
  rw [← hasz] at ha1 ha8 ha32 halt ⊢
  unfold mm_malloc at hm
  simp only [ha1] at hm
  rw [if_neg (by omega)] at hm
  simp only [bind, Option.bind_eq_bind, Option.bind_eq_some] at hm
  obtain ⟨bp, hfit, hm⟩ := hm
  by_cases hb0 : bp = 0
  · rw [if_neg (by simp [hb0])] at hm
    simp only [Option.bind_eq_some] at hm
    obtain ⟨⟨r, s1⟩, hext, hm⟩ := hm
    obtain ⟨ext, hextdef⟩ : ∃ e, e = MAX asize CHUNKSIZE := ⟨_, rfl⟩
    rw [← hextdef] at hext
    have hext8 : ext % 8 = 0 ∧ asize ≤ ext ∧ 32 ≤ ext ∧ ext < U64 := by
      rw [hextdef]
      unfold MAX
      simp only [CHUNKSIZE]
      split <;> omega
    have hwords : ext / WSIZE * 4 = ext := by simp only [WSIZE]; omega
    obtain ⟨f1, f2⟩ := extend_heap_spec h (ext / WSIZE)
      (by simp only [WSIZE]; omega) (by rw [hwords]; omega) (by rw [hwords]; omega)
    rw [hwords] at f1 f2
    by_cases hroom : st.brk + ext ≤ st.max
    · obtain ⟨r', st1, L', g1, g2, g3⟩ := f2 hroom
      rw [hext] at g1
      injection g1 with g1
      injection g1 with g1 g1'
      subst g1 g1'
      have hrne : r ≠ 0 := by
        have := (g2.2.2.2.1 r (List.mem_cons_self _ _)).1
        omega
      simp only at hm
      rw [if_neg hrne] at hm
      simp only [Option.bind_eq_some] at hm
      obtain ⟨s2, hpl, hm⟩ := hm
      injection hm with hm
      injection hm with hm1 hm2
      subst hm1 hm2
      obtain ⟨s2', s, k1, _, k3, k4, k5, k6, _⟩ :=
        place_spec g2 (List.mem_cons_self _ _) ha8 (by omega) (by omega)
      rw [hpl] at k1
      injection k1 with k1
      subst k1
      have hr1 := (g2.2.2.2.1 _ (List.mem_cons_self _ _)).2.2.1
      have hr2 := g2.1.1
      have hr3 := (g2.2.2.2.1 _ (List.mem_cons_self _ _)).1
      exact ⟨s, k3, k4, k6, k5, by omega, by omega⟩
    · have := f1 hroom
      rw [hext] at this
      injection this with this
      injection this with t1 t2
      subst t1
      simp at hm
      exact absurd hm.1.symm hp
  · rw [if_pos hb0] at hm
    simp only [Option.bind_eq_some] at hm
    obtain ⟨s1, hpl, hm⟩ := hm
    injection hm with hm
    injection hm with hm1 hm2
    subst hm1 hm2
    obtain ⟨hbL, hge⟩ := find_fit_sound h.1 hfit hb0
    obtain ⟨s2', s, k1, _, k3, k4, k5, k6, _⟩ := place_spec h.1 hbL ha8 (by omega) hge
    rw [hpl] at k1
    injection k1 with k1
    subst k1
    have hr1 := (h.1.2.2.2.1 _ hbL).2.2.1
    have hr2 := h.1.1.1
    have hr3 := (h.1.2.2.2.1 _ hbL).1
    exact ⟨s, k3, k4, k6, k5, by omega, by omega⟩

/-! ## Bounds of returned pointers -/

theorem removeF_region {st st' : State} {ptr : Nat} (h : removeF st ptr = some st') :
    okAt st ptr 8 ∧ st'.lo = st.lo ∧ st'.brk = st.brk := by
  unfold removeF at h
  simp only [bind, Option.bind_eq_bind, Option.bind_eq_some, PREV_FREE, NEXT_FREE,
    setPREV_FREE, setNEXT_FREE, pure] at h
  obtain ⟨p, hp, s1, hs1, n1, hn1, p1, hp1, hfin⟩ := h
  have hk := (GETP_some hp).1
  have hfin' := (PUTP_some hfin).2
  refine ⟨hk, ?_⟩
  split at hs1
  · simp only [Option.bind_eq_some] at hs1
    obtain ⟨n, _, hs1⟩ := hs1
    have := (PUTP_some hs1).2
    subst this; subst hfin'
    exact ⟨rfl, rfl⟩
  · simp only [Option.bind_eq_some] at hs1
    obtain ⟨n, _, hs1⟩ := hs1
    injection hs1 with hs1
    subst hs1; subst hfin'
    exact ⟨rfl, rfl⟩

theorem PUT_region {st st' : State} {p v : Nat} (h : PUT st p v = some st') :
    st'.lo = st.lo ∧ st'.brk = st.brk := by
  have := (PUT_some h).2
  subst this
  exact ⟨rfl, rfl⟩

theorem place_region {st st' : State} {bp asize : Nat} (h : place st bp asize = some st') :
    okAt st (HDRP bp) 4 ∧ okAt st bp 8 ∧ st'.lo = st.lo ∧ st'.brk = st.brk := by
  unfold place at h
  simp only [bind, Option.bind_eq_bind, Option.bind_eq_some] at h
  obtain ⟨csize, hcs, h⟩ := h
  have hok : okAt st (HDRP bp) 4 := by
    unfold GET_SIZE at hcs
    simp only [Option.map_eq_some'] at hcs
    obtain ⟨w, hw, _⟩ := hcs
    exact (GET_some hw).1
  refine ⟨hok, ?_⟩
  split at h
  · simp only [Option.bind_eq_some] at h
    obtain ⟨s1, h1, f, _, s2, h2, s3, h3, bp2, _, s4, h4, f2, _, h5⟩ := h
    have a1 := PUT_region h1
    have a2 := PUT_region h2
    have a3 := removeF_region h3
    have a4 := PUT_region h4
    have a5 := PUT_region h5
    obtain ⟨k1, k2⟩ := a3.1
    refine ⟨⟨?_, ?_⟩, ?_, ?_⟩
    · rw [← a1.1, ← a2.1]; exact k1
    · rw [← a1.2, ← a2.2]; exact k2
    · rw [a5.1, a4.1, a3.2.1, a2.1, a1.1]
    · rw [a5.2, a4.2, a3.2.2, a2.2, a1.2]
  · simp only [Option.bind_eq_some] at h
    obtain ⟨s1, h1, f, _, s2, h2, h3⟩ := h
    have a1 := PUT_region h1
    have a2 := PUT_region h2
    have a3 := removeF_region h3
    obtain ⟨k1, k2⟩ := a3.1
    refine ⟨⟨?_, ?_⟩, ?_, ?_⟩
    · rw [← a1.1, ← a2.1]; exact k1
    · rw [← a1.2, ← a2.2]; exact k2
    · rw [a3.2.1, a2.1, a1.1]
    · rw [a3.2.2, a2.2, a1.2]

theorem malloc_placed {st st' : State} {n p : Nat} (hm : mm_malloc st n = some (p, st'))
    (hp : p ≠ 0) : ∃ s1 asize, place s1 p asize = some st' := by
  unfold mm_malloc at hm
  split at hm
  · injection hm with hm
    injection hm with hm1 hm2
    exact absurd hm1.symm hp
  · simp only [bind, Option.bind_eq_bind, Option.bind_eq_some] at hm
    obtain ⟨bp, _, hm⟩ := hm
    split at hm
    · simp only [Option.bind_eq_some] at hm
      obtain ⟨s1, hpl, hm⟩ := hm
      injection hm with hm
      injection hm with hm1 hm2
      subst hm1 hm2
      exact ⟨_, _, hpl⟩
    · simp only [Option.bind_eq_some] at hm
      obtain ⟨⟨r, s1⟩, _, hm⟩ := hm
      simp only at hm
      split at hm
      · injection hm with hm
        injection hm with hm1 hm2
        exact absurd hm1.symm hp
      · simp only [Option.bind_eq_some] at hm
        obtain ⟨s2, hpl, hm⟩ := hm
        injection hm with hm
        injection hm with hm1 hm2
        subst hm1 hm2
        exact ⟨_, _, hpl⟩

/-! ## `mm_free` -/

theorem freed_out (st : State) (bp sz a : Nat) (hb4 : 4 ≤ bp) (h8 : 8 ≤ sz)
    (h1 : a + 4 < bp ∨ bp ≤ a)
    (h2 : a + 8 < bp + sz ∨ bp + sz ≤ a + 4) : (freed st bp sz).mem a = st.mem a := by
  show wrLE (wrLE st.mem (bp + sz - 8) 4 sz) (bp - 4) 4 sz a = st.mem a
  rw [wrLE_outside _ _ _ _ _ (by omega), wrLE_outside _ _ _ _ _ (by omega)]

theorem freed_word (st : State) (bp sz q : Nat) (hb4 : 4 ≤ bp) (h8 : 8 ≤ sz)
    (h1 : q + 8 ≤ bp ∨ bp ≤ q)
    (h2 : q + 12 ≤ bp + sz ∨ bp + sz ≤ q + 4) :
    wordAt (freed st bp sz).mem q = wordAt st.mem q := by
  apply wordAt_congr
  intro i hi
  exact freed_out st bp sz _ hb4 h8 (by omega) (by omega)

theorem freed_tags (st : State) (bp sz : Nat) (h8 : 8 ≤ sz) (hlt : sz < U32) (hb : 4 ≤ bp) :
    wordAt (freed st bp sz).mem (bp - 4) = sz ∧
    wordAt (freed st bp sz).mem (bp + sz - 8) = sz := by
  constructor
  · show wordAt (wrLE (wrLE st.mem (bp + sz - 8) 4 sz) (bp - 4) 4 sz) (bp - 4) = sz
    exact wordAt_wr_same _ _ _ hlt
  · show wordAt (wrLE (wrLE st.mem (bp + sz - 8) 4 sz) (bp - 4) 4 sz) (bp + sz - 8) = sz
    rw [wordAt_wr_other _ _ _ _ _ (by omega), wordAt_wr_same _ _ _ hlt]

theorem mm_free_run {st : State} {bp sz : Nat} (hb8 : bp % 8 = 0) (hlo : st.lo + 4 ≤ bp)
    (h8 : 8 ≤ sz) (hsz8 : sz % 8 = 0) (hlt : sz + 1 < U32) (hbrk : bp + sz ≤ st.brk)
    (hU : st.brk < U64) (hhdr : wordAt st.mem (bp - 4) = PACK sz 1) :
    mm_free st bp = (coalesce (freed st bp sz) bp).bind (fun r => some r.2) := by
  have hU32 : U32 = 4294967296 := rfl
  have hU64 : U64 = 18446744073709551616 := rfl
  have hH : HDRP bp = bp - 4 := HDRP_eq (by omega) (by omega)
  have okh : okAt st (bp - 4) 4 := ⟨by omega, by omega⟩
  have es : GET_SIZE st (HDRP bp) = some sz := by
    rw [hH]; exact (readTag okh hhdr hsz8 (le_refl 1) hlt).1
  have ef : FTRP st bp = some (bp + sz - 8) := by
    unfold FTRP
    rw [es]
    show some (sub64 (add64 bp sz) DSIZE) = _
    rw [add64_eq (by omega), sub64_eq (by simp only [DSIZE]; omega) (by omega)]
    rfl
  have hP : PACK sz 0 = sz := PACK_zero _
  have hmod : sz % U32 = sz := Nat.mod_eq_of_lt (by omega)
  have okf : okAt st (bp + sz - 8) 4 := ⟨by omega, by omega⟩
  obtain ⟨s1, hs1⟩ : ∃ s1 : State, s1 = { st with mem := wrLE st.mem (bp + sz - 8) 4 sz } :=
    ⟨_, rfl⟩
  have e1 : PUT st (bp + sz - 8) (PACK sz 0) = some s1 := by
    rw [hP, PUT_eq _ okf, hmod, hs1]
  have okh1 : okAt s1 (bp - 4) 4 := by
    rw [hs1]; exact okh
  have e2 : PUT s1 (HDRP bp) (PACK sz 0) = some (freed st bp sz) := by
    rw [hH, hP, PUT_eq _ okh1, hmod, hs1]
    rfl
  unfold mm_free
  rw [if_neg (by omega)]
  simp only [bind, Option.bind_eq_bind, es, ef, e1, e2, Option.some_bind]
  rfl

theorem freed_ready {st : State} {L : List Nat} {bp sz psz pa nsz na : Nat}
    (h : FreeReady st L bp sz psz pa nsz na) :
    CoalesceReady (freed st bp sz) L bp sz psz pa nsz na := by
  obtain ⟨⟨hF, hb8, hbs, hsz24, hsz8, hbrk, hhdr, hftr, hap, hpw, hpsz8, hpa, hph, hpL,
    hnw, hnsz8, hna, hnL⟩, hfit⟩ := h
  have hblk := hF.2.2.2.1
  have hs4 := hF.2.1
  have hU32 : U32 = 4294967296 := rfl
  obtain ⟨t1, t2⟩ := freed_tags st bp sz (by omega) (by omega) (by omega)
  have hreg : SameRegion st (freed st bp sz) := ⟨rfl, rfl, rfl, rfl, rfl⟩
  have hL : LinkWF (freed st bp sz) L := by
    apply LinkWF_frame hF.1 hreg rfl
    intro x hx i hi
    have := hap x hx
    have := hblk x hx
    exact freed_out _ _ _ _ (by omega) (by omega) (by omega) (by omega)
  have hhd : ∀ x ∈ L, wordAt (freed st bp sz).mem (x - 4) = wordAt st.mem (x - 4) := by
    intro x hx
    have := hap x hx
    have := hblk x hx
    exact freed_word _ _ _ _ (by omega) (by omega) (by omega) (by omega)
  have hF' : FLWF (freed st bp sz) L :=
    FLWF_frame hF (List.Sublist.refl L) hL hreg hhd (freed_word _ _ _ _ (by omega) (by omega) (by omega) (by omega))
  have hsz' : ∀ x ∈ L, hdrSize (freed st bp sz).mem x = hdrSize st.mem x := by
    intro x hx; unfold hdrSize; rw [hhd x hx]
  refine ⟨⟨hF', hb8, hbs, hsz24, hsz8, hbrk, ?_, ?_, ?_, ?_, hpsz8, hpa, ?_, hpL, ?_, hnsz8,
    hna, hnL⟩, hfit⟩
  · rw [t1, PACK_zero]
  · rw [t2, PACK_zero]
  · intro x hx; rw [hsz' x hx]; exact hap x hx
  · rw [freed_word _ _ _ _ (by omega) (by omega) (by omega) (by omega)]; exact hpw
  · intro hne
    have := hph hne
    refine ⟨this.1, ?_⟩
    rw [freed_word _ _ _ _ (by omega) (by omega) (by omega) (by omega)]
    exact this.2
  · rw [freed_word _ _ _ _ (by omega) (by omega) (by omega) (by omega)]; exact hnw

theorem mm_free_spec {st : State} {L : List Nat} {bp sz psz pa nsz na : Nat}
    (h : FreeReady st L bp sz psz pa nsz na) :
    ∃ st', mm_free st bp = some st' ∧
      FLWF st' (mergedBase bp psz pa :: mergedRest L bp sz psz pa na) ∧
      SameRegion st st' ∧ st'.free_listp = mergedBase bp psz pa ∧
      wordAt st'.mem (mergedBase bp psz pa - 4) = PACK (mergedSize sz psz pa nsz na) 0 ∧
      wordAt st'.mem (mergedBase bp psz pa + mergedSize sz psz pa nsz na - 8)
        = PACK (mergedSize sz psz pa nsz na) 0 ∧
      (∀ a, (a + 4 < mergedBase bp psz pa ∨
          mergedBase bp psz pa + mergedSize sz psz pa nsz na ≤ a + 4) →
        (∀ x ∈ L, a < x ∨ x + 16 ≤ a) →
        (a < st.heap_listp ∨ st.heap_listp + 8 ≤ a) → st'.mem a = st.mem a) := by
  have hready := freed_ready h
  obtain ⟨⟨hF, hb8, hbs, hsz24, hsz8, hbrk, hhdr, hftr, hap, hpw, hpsz8, hpa, hph, hpL,
    hnw, hnsz8, hna, hnL⟩, hfit⟩ := h
  have hs4 := hF.2.1
  have hU32 : U32 = 4294967296 := rfl
  have hrun := mm_free_run hb8 (by omega) (by omega) hsz8 (by omega) hbrk hF.1.1 hhdr
  obtain ⟨st', c1, c2, c3, c4, c5, c6, c7⟩ := coalesce_spec hready
  refine ⟨st', by rw [hrun, c1]; rfl, c2, c3, c4, c5, c6, ?_⟩
  intro a ha hL hs
  rw [c7 a ha hL hs]
  apply freed_out _ _ _ _ (by omega) (by omega)
  · unfold mergedBase at ha
    unfold mergedSize at ha
    split at ha <;> omega
  · unfold mergedBase at ha
    unfold mergedSize at ha
    split at ha <;> split at ha <;> omega

theorem free_then_ready {st st1 : State} {L : List Nat} {a sa sb psz nsz : Nat}
    (ha : FreeReady st L a sa psz 1 sb 1) (hb : FreeReady st L (a + sa) sb sa 1 nsz 1)
    (hF1 : FLWF st1 (a :: L)) (hreg : SameRegion st st1)
    (hhd : wordAt st1.mem (a - 4) = PACK sa 0) (hft : wordAt st1.mem (a + sa - 8) = PACK sa 0)
    (hfr : ∀ q, (q + 4 < a ∨ a + sa ≤ q + 4) → (∀ x ∈ L, q < x ∨ x + 16 ≤ q) →
      (q < st.heap_listp ∨ st.heap_listp + 8 ≤ q) → st1.mem q = st.mem q) :
    FreeReady st1 (a :: L) (a + sa) sb sa 0 nsz 1 := by
  obtain ⟨⟨hF, ha8, has, hsa24, hsa8, habrk, hahdr, haftr, haap, _, _, _, _, _,
    _, _, _, _⟩, hafit⟩ := ha
  obtain ⟨⟨_, hb8, hbs, hsb24, hsb8, hbbrk, hbhdr, hbftr, hbap, _, _, _, _, _,
    hbn, hnsz8, hna, _⟩, hbfit⟩ := hb
  obtain ⟨r1, r2, r3, r4, r5⟩ := hreg
  have hblk := hF.2.2.2.1
  have hs4 := hF.2.1
  have hU32 : U32 = 4294967296 := rfl
  have hword : ∀ q, (q + 8 ≤ a ∨ a + sa ≤ q + 4) → (∀ x ∈ L, q + 4 ≤ x ∨ x + 16 ≤ q) →
      (q + 4 ≤ st.heap_listp ∨ st.heap_listp + 8 ≤ q) →
      wordAt st1.mem q = wordAt st.mem q := by
    intro q h1 h2 h3
    apply wordAt_congr
    intro i hi
    apply hfr
    · omega
    · intro x hx; have := h2 x hx; omega
    · omega
  have hszx : ∀ x ∈ L, hdrSize st1.mem x = hdrSize st.mem x := by
    intro x hx
    unfold hdrSize
    have hx' := hblk x hx
    have := haap x hx
    rw [hword (x - 4) (by omega) ?_ (by omega)]
    intro y hy
    have hy' := hblk y hy
    by_cases hxy : x = y
    · omega
    · have := FLWF_apart hF x hx y hy hxy; omega
  have hsza : hdrSize st1.mem a = sa := by
    unfold hdrSize
    rw [hhd]
    exact sizeOf32_PACK hsa8 (Nat.zero_le 1) (by omega)
  refine ⟨⟨hF1, hb8, by rw [r5]; exact hbs, hsb24, hsb8, by rw [r2]; exact hbbrk, ?_, ?_, ?_,
    ?_, hsa8, Nat.zero_le 1, ?_, ?_, ?_, hnsz8, hna, by simp⟩, hbfit⟩
  · rw [hword _ (by omega) ?_ (by omega)]
    · rw [show a + sa - 4 = a + sa - 4 from rfl]; exact hbhdr
    · intro x hx; have := hbap x hx; have := hblk x hx; omega
  · rw [hword _ (by omega) ?_ (by omega)]
    · exact hbftr
    · intro x hx; have := hbap x hx; have := hblk x hx; omega
  · intro x hx
    rcases List.mem_cons.mp hx with rfl | hxL
    · rw [hsza]; omega
    · rw [hszx x hxL]; exact hbap x hxL
  · rw [show a + sa - 8 = a + sa - 8 from rfl]; exact hft
  · intro _
    rw [r1]
    refine ⟨by omega, ?_⟩
    rw [show a + sa - sa - 4 = a - 4 by omega]
    exact hhd
  · intro _ _
    rw [show a + sa - sa = a by omega]
    exact List.mem_cons_self _ _
  · rw [hword _ (by omega) ?_ (by omega)]
    · exact hbn
    · intro x hx; have := hbap x hx; have := hblk x hx; omega

theorem free_two_adjacent {st : State} {L : List Nat} {a sa sb psz nsz : Nat}
    (ha : FreeReady st L a sa psz 1 sb 1) (hb : FreeReady st L (a + sa) sb sa 1 nsz 1) :
    ∃ st1 st2, mm_free st a = some st1 ∧ mm_free st1 (a + sa) = some st2 ∧
      FLWF st2 (a :: L) ∧ st2.free_listp = a ∧
      wordAt st2.mem (a - 4) = PACK (sa + sb) 0 ∧
      wordAt st2.mem (a + (sa + sb) - 8) = PACK (sa + sb) 0 := by
  obtain ⟨st1, f1, f2, f3, f4, f5, f6, f7⟩ := mm_free_spec ha
  have hsa24 : 24 ≤ sa := ha.1.2.2.2.1
  have hnd : ¬ (psz ≠ 0 ∧ (1 : Nat) = 0) := by simp
  have hB : mergedBase a psz 1 = a := by unfold mergedBase; rw [if_neg hnd]
  have hS : mergedSize sa psz 1 sb 1 = sa := by unfold mergedSize; simp
  have hR : mergedRest L a sa psz 1 1 = L := by unfold mergedRest; simp
  rw [hB, hR] at f2
  rw [hB, hS] at f5 f6 f7
  have hready := free_then_ready ha hb f2 f3 f5 f6 f7
  obtain ⟨st2, g1, g2, g3, g4, g5, g6, g7⟩ := mm_free_spec hready
  have hyes : sa ≠ 0 ∧ (0 : Nat) = 0 := ⟨by omega, rfl⟩
  have hB2 : mergedBase (a + sa) sa 0 = a := by
    unfold mergedBase; rw [if_pos hyes]; omega
  have hS2 : mergedSize sb sa 0 nsz 1 = sa + sb := by
    unfold mergedSize; rw [if_pos hyes]; simp; omega
  have hR2 : mergedRest (a :: L) (a + sa) sb sa 0 1 = L := by
    unfold mergedRest
    rw [if_pos hyes]
    simp
  rw [hB2, hR2] at g2
  rw [hB2] at g4
  rw [hB2, hS2] at g5 g6
  exact ⟨st1, st2, f1, g1, g2, g4, g5, g6⟩

theorem mergedRest_sub {L : List Nat} {bp sz psz pa na x : Nat}
    (hx : x ∈ mergedRest L bp sz psz pa na) : x ∈ L := by
  unfold mergedRest at hx
  simp only at hx
  split_ifs at hx with h1 h2 h2
  · exact List.mem_of_mem_erase (List.mem_of_mem_erase hx)
  · exact List.mem_of_mem_erase hx
  · exact List.mem_of_mem_erase hx
  · exact hx

theorem mergedRest_next {L : List Nat} {bp sz psz pa na : Nat} (hnd : L.Nodup) (hna : na = 0) :
    bp + sz ∉ mergedRest L bp sz psz pa na := by
  unfold mergedRest
  simp only
  rw [if_pos hna]
  split_ifs with h1
  · exact fun hm => ((hnd.erase _).mem_erase_iff.mp hm).1 rfl
  · exact fun hm => (hnd.mem_erase_iff.mp hm).1 rfl

theorem mergedBase_le (bp psz pa : Nat) : mergedBase bp psz pa ≤ bp := by
  unfold mergedBase
  split_ifs <;> omega

theorem malloc_bounds {st st' : State} {n p : Nat} (hm : mm_malloc st n = some (p, st'))
    (hp : p ≠ 0) : st'.lo ≤ p ∧ p + 8 ≤ st'.brk := by
  obtain ⟨s1, asize, hpl⟩ := malloc_placed hm hp
  obtain ⟨_, h2, h3, h4⟩ := place_region hpl
  unfold okAt at h2
  rw [h3, h4]
  exact h2

/-! ## `find_fit` is first fit -/

theorem apart_length (L : List Nat) (lo hi : Nat) (hin : ∀ b ∈ L, lo ≤ b ∧ b + 16 ≤ hi)
    (hpw : L.Pairwise (fun a b => a + 16 ≤ b ∨ b + 16 ≤ a)) :
    L.length ≤ (hi - lo) / 16 := by
  have hnd : (L.map fun b => (b - lo) / 16).Nodup := by
    have h2 := List.Pairwise.and_mem.mp hpw
    refine List.Pairwise.map _ ?_ h2
    intro a b ⟨ha, hb, hab⟩
    have h1 := hin a ha
    have h3 := hin b hb
    omega
  have hsub : (L.map fun b => (b - lo) / 16).toFinset ⊆ Finset.range ((hi - lo) / 16) := by
    intro x hx
    rw [List.mem_toFinset, List.mem_map] at hx
    obtain ⟨b, hb, rfl⟩ := hx
    have h1 := hin b hb
    rw [Finset.mem_range]
    omega
  have hc := Finset.card_le_card hsub
  rw [List.toFinset_card_of_nodup hnd, List.length_map, Finset.card_range] at hc
  exact hc

theorem find_fit_loop_exact {st : State} {L : List Nat} (h : FLWF st L) (asize : Nat) :
    ∀ (L' : List Nat) (fuel prev p : Nat),
      Chain st.mem st.heap_listp prev p L' → (∀ x ∈ L', x ∈ L) → L'.length < fuel →
      find_fit_loop st asize fuel p = some (firstFit st.mem asize L') := by
  have hblk := h.2.2.2.1
  have hnode := h.1.2.2.2.2.2.2.1
  have hU := h.1.1
  have hs4 := h.2.1
  have hsa := h.2.2.1
  have hsbrk := h.1.2.2.2.2.1
  have hs8 := h.1.2.1
  intro L'
  induction L' with
  | nil =>
    intro fuel prev p hc _ hlen
    obtain ⟨k, rfl⟩ : ∃ k, fuel = k + 1 := ⟨fuel - 1, by simp at hlen; omega⟩
    have hp : p = st.heap_listp := hc
    have hH : HDRP p = p - 4 := HDRP_eq (by omega) (by omega)
    have ok : okAt st (p - 4) 4 := ⟨by omega, by omega⟩
    have ea : GET_ALLOC st (HDRP p) = some 1 := by
      rw [hH, GET_ALLOC_eq ok, hp]
      exact congrArg some hsa
    unfold find_fit_loop
    simp only [bind, Option.bind_eq_bind, ea, Option.some_bind]
    rw [if_neg (by simp)]
    rfl
  | cons b L'' ih =>
    intro fuel prev p hc hsub hlen
    obtain ⟨k, rfl⟩ : ∃ k, fuel = k + 1 := ⟨fuel - 1, by simp at hlen; omega⟩
    obtain ⟨hpb, _, hc'⟩ := hc
    have hbL := hsub b (List.mem_cons_self _ _)
    have hb := hblk b hbL
    have hbn := hnode b hbL
    have hH : HDRP p = b - 4 := by rw [hpb]; exact HDRP_eq (by omega) (by omega)
    have ok : okAt st (b - 4) 4 := ⟨by omega, by omega⟩
    have ea : GET_ALLOC st (HDRP p) = some 0 := by
      rw [hH, GET_ALLOC_eq ok]
      exact congrArg some hb.2.2.2
    have es : GET_SIZE st (HDRP p) = some (hdrSize st.mem b) := by
      rw [hH, GET_SIZE_eq ok]
      rfl
    have ok8 : okAt st (b + 8) 8 := ⟨by omega, by omega⟩
    have en : NEXT_FREE st p = some (nextOf st.mem b) := by
      unfold NEXT_FREE
      rw [hpb, add64_eq (by simp only [DSIZE]; omega)]
      simp only [DSIZE]
      rw [GETP_eq ok8]
      rfl
    unfold find_fit_loop
    simp only [bind, Option.bind_eq_bind, ea, es, Option.some_bind]
    unfold firstFit
    by_cases hge : hdrSize st.mem b ≥ asize
    · rw [if_pos hge, List.find?_cons_of_pos _ (by simpa using hge)]
      simp [hpb]
    · rw [if_neg hge, List.find?_cons_of_neg _ (by simpa using hge)]
      simp only [en, Option.some_bind]
      have := ih k b (nextOf st.mem b) hc'
        (fun x hx => hsub x (List.mem_cons_of_mem _ hx)) (by simp at hlen; omega)
      rw [this]
      rfl

theorem find_fit_exact {st : State} {L : List Nat} (h : FLWF st L) (asize : Nat) :
    find_fit st asize = some (firstFit st.mem asize L) := by
  have hnode := h.1.2.2.2.2.2.2.1
  have hlen := apart_length L st.lo st.brk
    (fun b hb => by have := hnode b hb; have := h.1.2.2.2.1; omega) h.1.2.2.2.2.2.2.2
  exact find_fit_loop_exact h asize L _ 0 st.free_listp h.1.2.2.2.2.2.1 (fun _ hx => hx)
    (by omega)

theorem firstFit_spec (m : Mem) (asize : Nat) (L : List Nat) (h0 : ∀ b ∈ L, b ≠ 0) :
    (firstFit m asize L = 0 ↔ ∀ b ∈ L, hdrSize m b < asize) ∧
    (firstFit m asize L ≠ 0 → ∃ L1 L2, L = L1 ++ firstFit m asize L :: L2 ∧
      (∀ x ∈ L1, hdrSize m x < asize) ∧ asize ≤ hdrSize m (firstFit m asize L)) := by
  induction L with
  | nil => simp [firstFit]
  | cons b L ih =>
    have ih' := ih (fun x hx => h0 x (List.mem_cons_of_mem _ hx))
    have hb0 := h0 b (List.mem_cons_self _ _)
    by_cases hge : asize ≤ hdrSize m b
    · have e : firstFit m asize (b :: L) = b := by
        unfold firstFit
        rw [List.find?_cons_of_pos _ (by simpa using hge)]
        rfl
      rw [e]
      refine ⟨⟨fun hz => absurd hz hb0, fun hall => ?_⟩, fun _ => ⟨[], L, rfl, by simp, hge⟩⟩
      have := hall b (List.mem_cons_self _ _)
      omega
    · have e : firstFit m asize (b :: L) = firstFit m asize L := by
        unfold firstFit
        rw [List.find?_cons_of_neg _ (by simpa using hge)]
      rw [e]
      refine ⟨⟨fun hz x hx => ?_, fun hall => ?_⟩, fun hne => ?_⟩
      · rcases List.mem_cons.mp hx with rfl | hxL
        · omega
        · exact ih'.1.mp hz x hxL
      · exact ih'.1.mpr (fun x hx => hall x (List.mem_cons_of_mem _ hx))
      · obtain ⟨L1, L2, e1, e2, e3⟩ := ih'.2 hne
        refine ⟨b :: L1, L2, by rw [List.cons_append, ← e1], ?_, e3⟩
        intro x hx
        rcases List.mem_cons.mp hx with rfl | hxL
        · omega
        · exact e2 x hxL

/-! ## The links written by `insertF` -/

theorem insertF_mem {st st' : State} {b : Nat} (hb : b + 8 < U64)
    (hi : insertF st b = some st') :
    st'.mem = wrLE (wrLE (wrLE st.mem (b + 8) 8 (st.free_listp % U64)) st.free_listp 8
      (b % U64)) b 8 0 := by
  unfold insertF setNEXT_FREE setPREV_FREE at hi
  simp only [bind, Option.bind_eq_bind, Option.bind_eq_some] at hi
  obtain ⟨s1, h1, s2, h2, s3, h3, h4⟩ := hi
  obtain ⟨_, e1⟩ := PUTP_some h1
  obtain ⟨_, e2⟩ := PUTP_some h2
  obtain ⟨_, e3⟩ := PUTP_some h3
  have e4 : st' = { s3 with free_listp := b } := by
    injection h4 with h4
    exact h4.symm
  rw [e4, e3, e2, e1, add64_eq (by simp only [DSIZE]; omega)]
  rfl

theorem insertF_old_head {st st' : State} {L : List Nat} {b : Nat} (h : LinkWF st L)
    (hbs : st.heap_listp + 8 ≤ b) (hbb : b + 16 ≤ st.brk)
    (hbfar : ∀ x ∈ L, b + 16 ≤ x ∨ x + 16 ≤ b) (hi : insertF st b = some st') :
    prevOf st'.mem st.free_listp = b := by
  have hU := h.1
  have hU64 : U64 = 18446744073709551616 := rfl
  have hm := insertF_mem (by omega) hi
  have hfl : st.free_listp + 8 ≤ b ∨ b + 16 ≤ st.free_listp := by
    rcases LinkWF_head h with ⟨_, hfs⟩ | hmem
    · left; rw [hfs]; exact hbs
    · have := hbfar _ hmem; omega
  unfold prevOf
  rw [hm, rdLE_wrLE_disjoint _ _ _ _ _ _ (by omega)]
  rw [Nat.mod_eq_of_lt (show b < U64 by omega)]
  exact rdLE_wrLE_same _ _ _ _ (by
    have : (256 : Nat) ^ 8 = 18446744073709551616 := by norm_num
    omega)

/-! ## The size and the layout of `extend_heap` -/

theorem extendSize_eq {w : Nat} (hw : 4 * (w + 1) < U64) :
    extendSize w = max (4 * (w + w % 2)) 32 ∧ extendSize w % 8 = 0 ∧ 32 ≤ extendSize w ∧
      4 * w ≤ extendSize w ∧ extendSize w < U64 := by
  have hU64 : U64 = 18446744073709551616 := rfl
  have h1 : (if w % 2 ≠ 0 then mul64 (add64 w 1) WSIZE else mul64 w WSIZE)
      = 4 * (w + w % 2) := by
    unfold mul64 add64
    simp only [WSIZE]
    by_cases hodd : w % 2 ≠ 0
    · rw [if_pos hodd, Nat.mod_eq_of_lt (show w + 1 < U64 by omega),
        Nat.mod_eq_of_lt (show (w + 1) * 4 < U64 by omega)]
      omega
    · rw [if_neg hodd, Nat.mod_eq_of_lt (show w * 4 < U64 by omega)]
      omega
  have h2 : extendSize w = if 4 * (w + w % 2) < 32 then 32 else 4 * (w + w % 2) := by
    unfold extendSize
    simp only [h1, DSIZE]
  rw [h2]
  split <;> omega

theorem extend_heap_round {st : State} {w : Nat} (hw : 4 * (w + 1) < U64) :
    extend_heap st w = extend_heap st (extendSize w / 4) := by
  obtain ⟨_, h8, h32, _, hlt⟩ := extendSize_eq hw
  have e4 : extendSize w / 4 * 4 = extendSize w := by omega
  rw [extend_heap_unfold st w (extendSize w) rfl,
    extend_heap_unfold st (extendSize w / 4) (extendSize w)
      (by rw [extend_heap_size (by omega) (by omega) (by omega), e4])]

theorem extend_heap_exact {st : State} {L : List Nat} (h : HeapWF st L) {w : Nat}
    (hw : 4 * (w + 1) < U64) (hyes : st.brk + extendSize w ≤ st.max) :
    extend_heap st w = coalesce (extended st (extendSize w)) st.brk ∧
    ∃ st', extend_heap st w
        = some (mergedBase st.brk (sizeOf32 (wordAt st.mem (st.brk - 8)))
            (allocOf32 (wordAt st.mem (st.brk - 8))), st') ∧
      st'.brk = st.brk + extendSize w ∧
      wordAt st'.mem (st.brk + extendSize w - 4) = 1 ∧
      FLWF st' (mergedBase st.brk (sizeOf32 (wordAt st.mem (st.brk - 8)))
          (allocOf32 (wordAt st.mem (st.brk - 8))) ::
        mergedRest L st.brk (extendSize w) (sizeOf32 (wordAt st.mem (st.brk - 8)))
          (allocOf32 (wordAt st.mem (st.brk - 8))) 1) ∧
      st'.free_listp = mergedBase st.brk (sizeOf32 (wordAt st.mem (st.brk - 8)))
          (allocOf32 (wordAt st.mem (st.brk - 8))) ∧
      wordAt st'.mem (mergedBase st.brk (sizeOf32 (wordAt st.mem (st.brk - 8)))
          (allocOf32 (wordAt st.mem (st.brk - 8))) - 4)
        = PACK (mergedSize (extendSize w) (sizeOf32 (wordAt st.mem (st.brk - 8)))
          (allocOf32 (wordAt st.mem (st.brk - 8))) 0 1) 0 ∧
      wordAt st'.mem (st.brk + extendSize w - 8)
        = PACK (mergedSize (extendSize w) (sizeOf32 (wordAt st.mem (st.brk - 8)))
          (allocOf32 (wordAt st.mem (st.brk - 8))) 0 1) 0 := by
  have hU32 : U32 = 4294967296 := rfl
  have hU64 : U64 = 18446744073709551616 := rfl
  obtain ⟨_, h8, h32, _, hlt⟩ := extendSize_eq hw
  obtain ⟨sz, hsz⟩ : ∃ sz, sz = extendSize w := ⟨_, rfl⟩
  rw [← hsz] at h8 h32 hlt hyes ⊢
  have e4 : sz / 4 * 4 = sz := by omega
  have hs4 := h.1.2.1
  have hbs := h.2.2.1
  have hmax := h.2.2.2.2.1
  have hmax32 := h.2.2.2.2.2.1
  have hlo := h.1.1.2.2.2.1
  have hrun : extend_heap st w = coalesce (extended st sz) st.brk := by
    rw [extend_heap_round hw, ← hsz]
    have := @extend_heap_writes st (sz / 4) (by omega) (by omega) (by omega)
      h.2.1 (by omega) (by omega) hmax
    rw [e4] at this
    exact this
  have hready := extended_ready h h32 h8 hyes
  obtain ⟨psz, hpsz⟩ : ∃ p, p = sizeOf32 (wordAt st.mem (st.brk - 8)) := ⟨_, rfl⟩
  obtain ⟨pa, hpa⟩ : ∃ p, p = allocOf32 (wordAt st.mem (st.brk - 8)) := ⟨_, rfl⟩
  rw [← hpsz, ← hpa] at hready ⊢
  obtain ⟨st', c1, c2, c3, c4, c5, c6, c7⟩ := coalesce_spec hready
  have hend : mergedBase st.brk psz pa + mergedSize sz psz pa 0 1 = st.brk + sz := by
    have hprev := hready.1.2.2.2.2.2.2.2.2.2.2.2.2.1
    unfold mergedBase mergedSize
    by_cases hc : psz ≠ 0 ∧ pa = 0
    · have := (hprev hc.1).1
      rw [if_pos hc, if_pos hc]
      simp
      omega
    · rw [if_neg hc, if_neg hc]
      simp
  have hbrk : (extended st sz).brk = st.brk + sz := rfl
  have hhl : (extended st sz).heap_listp = st.heap_listp := rfl
  refine ⟨hrun, st', by rw [hrun]; exact c1, by rw [c3.2.1, hbrk], ?_, c2, c4, c5, ?_⟩
  · have t3 := (extended_tags st sz (by omega) (by omega) (by omega)).2.2
    rw [← t3]
    apply wordAt_congr
    intro i hi
    apply c7
    · right; omega
    · intro x hx
      have := (hready.1.1.2.2.2.1 x hx)
      have hx2 := (h.1.2.2.2.1 x hx)
      right
      have hxs : x + 16 ≤ st.brk := (h.1.1.2.2.2.2.2.2.1 x hx).2.2
      omega
    · right; rw [hhl]; omega
  · rw [← hend]
    exact c6

theorem malloc_miss {st : State} {n : Nat} (hn : 0 < n)
    (hmiss : find_fit st (MAX (add64 (ALIGN n) DSIZE) (DSIZE * 4)) = some 0) :
    mm_malloc st n =
      (extend_heap st (MAX (MAX (add64 (ALIGN n) DSIZE) (DSIZE * 4)) CHUNKSIZE / WSIZE)).bind
        fun r => if r.1 = 0 then some (0, r.2)
          else (place r.2 r.1 (MAX (add64 (ALIGN n) DSIZE) (DSIZE * 4))).bind
            fun s2 => some (r.1, s2) := by
  unfold mm_malloc
  simp only [bind, Option.bind_eq_bind, hmiss, Option.some_bind]
  rw [if_neg (by omega)]
  simp only [ne_eq, not_true_eq_false, if_false]
  rfl

theorem malloc_extend_words {n : Nat} (hn2 : n + 16 ≤ U64) :
    MAX (MAX (add64 (ALIGN n) DSIZE) (DSIZE * 4)) CHUNKSIZE / WSIZE * 4
      = MAX (MAX (add64 (ALIGN n) DSIZE) (DSIZE * 4)) CHUNKSIZE ∧
    extendSize (MAX (MAX (add64 (ALIGN n) DSIZE) (DSIZE * 4)) CHUNKSIZE / WSIZE)
      = MAX (MAX (add64 (ALIGN n) DSIZE) (DSIZE * 4)) CHUNKSIZE := by
  have hU64 : U64 = 18446744073709551616 := rfl
  obtain ⟨e1, e8, e32, _, elt⟩ := asize_facts hn2
  rw [e1]
  obtain ⟨a, ha⟩ : ∃ a, a = MAX ((n + 7) / 8 * 8 + 8) 32 := ⟨_, rfl⟩
  rw [← ha] at e8 e32 elt ⊢
  have hx : MAX a CHUNKSIZE % 8 = 0 ∧ 4096 ≤ MAX a CHUNKSIZE ∧ MAX a CHUNKSIZE < U64 := by
    unfold MAX
    simp only [CHUNKSIZE]
    split <;> omega
  obtain ⟨x, hxdef⟩ : ∃ x, x = MAX a CHUNKSIZE := ⟨_, rfl⟩
  rw [← hxdef] at hx ⊢
  simp only [WSIZE]
  have hmul : x / 4 * 4 = x := by omega
  refine ⟨hmul, ?_⟩
  have hall := extendSize_eq (w := x / 4) (by omega)
  rw [hall.1]
  omega

/-! ## `mm_init` on zero-filled memory -/

theorem mm_init_unfold (m : Mem) (S limit failv : Nat) (hS8 : S % 8 = 0) (hS0 : 0 < S)
    (hroom : S + 32 ≤ limit) (hlt : S + 32 < U64) :
    mm_init (fresh m S limit failv) =
      (extend_heap (initialised m S limit failv) (CHUNKSIZE / WSIZE)).bind
        fun r => if r.1 = 0 then some (-1, r.2) else some (0, r.2) := by
  have hU64 : U64 = 18446744073709551616 := rfl
  have hsb : mem_sbrk (fresh m S limit failv) (4 * DSIZE)
      = (S, { fresh m S limit failv with brk := S + 32 }) := by
    unfold mem_sbrk
    rw [if_pos (show (fresh m S limit failv).brk + 4 * DSIZE ≤ (fresh m S limit failv).max
      from hroom)]
    rfl
  have a1 : add64 S WSIZE = S + 4 := add64_eq (by simp only [WSIZE]; omega)
  have a2 : add64 S DSIZE = S + 8 := add64_eq (by simp only [DSIZE]; omega)
  have a3 : add64 (S + 4) DSIZE = S + 12 := add64_eq (by simp only [DSIZE]; omega)
  have c0 : S ≤ S ∧ S + 4 ≤ S + 32 := ⟨le_refl _, by omega⟩
  have c1 : S ≤ S + 4 ∧ S + 4 + 4 ≤ S + 32 := ⟨by omega, by omega⟩
  have c2 : S ≤ S + 8 ∧ S + 8 + 4 ≤ S + 32 := ⟨by omega, by omega⟩
  have c3 : S ≤ S + 12 ∧ S + 12 + 4 ≤ S + 32 := ⟨by omega, by omega⟩
  have v0 : 0 % U32 = 0 := rfl
  have v1 : PACK OVERHEAD 1 % U32 = PACK OVERHEAD 1 := rfl
  have v2 : PACK 0 1 % U32 = PACK 0 1 := rfl
  unfold mm_init
  rw [hsb]
  simp only []
  rw [if_neg (by omega)]
  simp only [bind, Option.bind_eq_bind, PUT, okAt, fresh, a1, a2, a3, if_pos c0, if_pos c1,
    if_pos c2, if_pos c3, Option.some_bind, v0, v1, v2]
  rfl

theorem CoalesceReady_congr {s t : State} {L : List Nat} {bp sz psz pa nsz na : Nat}
    (hm : t.mem = s.mem) (hlo : t.lo = s.lo) (hbrk : t.brk = s.brk)
    (hh : t.heap_listp = s.heap_listp) (hf : t.free_listp = s.free_listp)
    (h : CoalesceReady s L bp sz psz pa nsz na) : CoalesceReady t L bp sz psz pa nsz na := by
  unfold CoalesceReady Neighbourhood FLWF LinkWF at h ⊢
  rw [hm, hlo, hbrk, hh, hf]
  exact h

theorem initialised_words (m : Mem) (S limit failv : Nat) :
    wordAt (initialised m S limit failv).mem (S + 4) = 9 ∧
    wordAt (initialised m S limit failv).mem (S + 24) = wordAt m (S + 24) := by
  have e : (initialised m S limit failv).mem
      = wrLE (wrLE (wrLE (wrLE m S 4 0) (S + 4) 4 9) (S + 8) 4 9) (S + 12) 4 1 := rfl
  rw [e]
  constructor
  · rw [wordAt_wr_other _ _ _ _ _ (by omega), wordAt_wr_other _ _ _ _ _ (by omega),
      wordAt_wr_same _ _ _ (by decide)]
  · rw [wordAt_wr_other _ _ _ _ _ (by omega), wordAt_wr_other _ _ _ _ _ (by omega),
      wordAt_wr_other _ _ _ _ _ (by omega), wordAt_wr_other _ _ _ _ _ (by omega)]

theorem initialised_HeapWF (m : Mem) (S : Nat) (hS8 : S % 8 = 0) (hS0 : 0 < S)
    (hlt : S + 4128 < U64) (hz : wordAt m (S + 24) = 0) :
    HeapWF (initialised m S (S + 4128) MINUS1) [] := by
  have hU64 : U64 = 18446744073709551616 := rfl
  have hU32 : U32 = 4294967296 := rfl
  obtain ⟨w1, w2⟩ := initialised_words m S (S + 4128) MINUS1
  rw [hz] at w2
  obtain ⟨t, ht⟩ : ∃ t : State, t = initialised m S (S + 4128) MINUS1 := ⟨_, rfl⟩
  have r : t.lo = S ∧ t.brk = S + 32 ∧ t.max = S + 4128 ∧ t.failv = MINUS1 ∧
      t.heap_listp = S + 8 ∧ t.free_listp = S + 8 := by
    rw [ht]; exact ⟨rfl, rfl, rfl, rfl, rfl, rfl⟩
  rw [← ht] at w1 w2 ⊢
  obtain ⟨r1, r2, r3, r4, r5, r6⟩ := r
  have hw : wordAt t.mem (t.brk - 8) = 0 := by
    rw [r2, show S + 32 - 8 = S + 24 by omega]; exact w2
  have ha : hdrAlloc t.mem t.heap_listp = 1 := by
    unfold hdrAlloc
    rw [r5, show S + 8 - 4 = S + 4 by omega, w1]
    rfl
  have hF : FLWF t [] := by
    refine ⟨⟨by omega, by omega, by omega, by omega, by omega, ?_, by simp, List.Pairwise.nil⟩,
      by omega, ha, by simp, List.Pairwise.nil⟩
    show t.free_listp = t.heap_listp
    rw [r5, r6]
  refine ⟨hF, by omega, by omega, r4, by omega, by omega, ?_, ?_, ?_⟩
  · rw [hw]; rfl
  · rw [hw]; intro hne; exact absurd rfl hne
  · rw [hw]; intro hne; exact absurd rfl hne

theorem init_ready (m : Mem) (S limit failv : Nat) (hS8 : S % 8 = 0) (hS0 : 0 < S)
    (hlt : S + 4128 < U64) (hz : wordAt m (S + 24) = 0) :
    CoalesceReady (extended (initialised m S limit failv) 4096) [] (S + 32) 4096 0 0 0 1 := by
  have hH := initialised_HeapWF m S hS8 hS0 hlt hz
  have hr := @extended_ready _ _ hH 4096 (by omega) (by omega)
    (show S + 32 + 4096 ≤ S + 4128 by omega)
  have hw : wordAt (initialised m S (S + 4128) MINUS1).mem
      ((initialised m S (S + 4128) MINUS1).brk - 8) = 0 := by
    have := (initialised_words m S (S + 4128) MINUS1).2
    rw [hz] at this
    exact this
  rw [hw] at hr
  exact CoalesceReady_congr rfl rfl rfl rfl rfl hr

theorem wordAt_zero {m : Mem} {p : Nat} (hz : ∀ i, i < 4 → m (p + i) = 0) : wordAt m p = 0 := by
  have h := rdLE_congr zeroMem m p 4 (fun i hi => by rw [hz i hi]; rfl)
  unfold wordAt
  rw [h]
  rfl

theorem mm_init_exact (m : Mem) (S limit failv : Nat) (hS8 : S % 8 = 0) (hS0 : 0 < S)
    (hroom : S + 4128 ≤ limit) (hlim : limit < U64) (hz : wordAt m (S + 24) = 0) :
    ∃ st', mm_init (fresh m S limit failv) = some (0, st') ∧
      st'.lo = S ∧ st'.brk = S + 4128 ∧ st'.heap_listp = S + 8 ∧ st'.free_listp = S + 32 ∧
      wordAt st'.mem (S + 4) = 9 ∧ wordAt st'.mem (S + 28) = 4096 ∧
      wordAt st'.mem (S + 4120) = 4096 ∧ wordAt st'.mem (S + 4124) = 1 ∧
      FLWF st' [S + 32] := by
  have hU64 : U64 = 18446744073709551616 := rfl
  have hU32 : U32 = 4294967296 := rfl
  have hun := mm_init_unfold m S limit failv hS8 hS0 (by omega) (by omega)
  obtain ⟨s6, hs6⟩ : ∃ s6 : State, s6 = initialised m S limit failv := ⟨_, rfl⟩
  have r : s6.lo = S ∧ s6.brk = S + 32 ∧ s6.max = limit ∧ s6.heap_listp = S + 8 := by
    rw [hs6]; exact ⟨rfl, rfl, rfl, rfl⟩
  have hwords := initialised_words m S limit failv
  have hready := init_ready m S limit failv hS8 hS0 (by omega) hz
  rw [← hs6] at hun hwords hready
  obtain ⟨r1, r2, r3, r4⟩ := r
  have hrun : extend_heap s6 (CHUNKSIZE / WSIZE) = coalesce (extended s6 4096) (S + 32) := by
    have := @extend_heap_writes s6 1024 (by omega) (by omega) (by omega)
      (by rw [r2]; omega) (by rw [r1, r2]; omega) (by rw [r2, r3]; omega) (by rw [r3]; exact hlim)
    rw [r2] at this
    exact this
  obtain ⟨st', c1, c2, c3, c4, c5, c6, c7⟩ := coalesce_spec hready
  have hB : mergedBase (S + 32) 0 0 = S + 32 := rfl
  have hS : mergedSize 4096 0 0 0 1 = 4096 := rfl
  have hR : mergedRest [] (S + 32) 4096 0 0 1 = [] := rfl
  rw [hB, hR] at c2
  rw [hB] at c1 c4
  rw [hB, hS] at c5 c6 c7
  have hxl : (extended s6 4096).lo = S := r1
  have hxb : (extended s6 4096).brk = S + 32 + 4096 := by
    show s6.brk + 4096 = _
    rw [r2]
  have hxh : (extended s6 4096).heap_listp = S + 8 := r4
  have hframe : ∀ q, (q + 8 ≤ S + 32 ∨ S + 4128 ≤ q + 4) → (q + 4 ≤ S + 8 ∨ S + 16 ≤ q) →
      wordAt st'.mem q = wordAt (extended s6 4096).mem q := by
    intro q h1 h2
    apply wordAt_congr
    intro i hi
    apply c7
    · omega
    · intro x hx; cases hx
    · rw [hxh]; omega
  have t := extended_tags s6 4096 (by omega) (by omega) (by rw [r2]; omega)
  rw [r2] at t
  refine ⟨st', ?_, by rw [c3.1, hxl], by rw [c3.2.1, hxb], by rw [c3.2.2.2.2, hxh], c4,
    ?_, ?_, ?_, ?_, c2⟩
  · rw [hun, hrun, c1]
    show (if S + 32 = 0 then some ((-1 : Int), st') else some (0, st')) = some (0, st')
    rw [if_neg (by omega)]
  · rw [hframe (S + 4) (by omega) (by omega),
      extended_word s6 4096 (S + 4) (by omega) (by rw [r2]; omega)]
    exact hwords.1
  · rw [show S + 28 = S + 32 - 4 by omega, c5]; rfl
  · rw [show S + 4120 = S + 32 + 4096 - 8 by omega, c6]; rfl
  · rw [hframe (S + 4124) (by omega) (by omega)]
    rw [show S + 4124 = S + 32 + 4096 - 4 by omega]
    exact t.2.2

theorem blocksFrom_succ (st : State) (k bp : Nat) :
    blocksFrom st (k + 1) bp = (GET st (HDRP bp)).bind fun w =>
      if sizeOf32 w = 0 then some []
      else (blocksFrom st k (add64 bp (sizeOf32 w))).bind fun rest =>
        some ((bp, sizeOf32 w, allocOf32 w) :: rest) := rfl

theorem freeFrom_succ (st : State) (k bp : Nat) :
    freeFrom st (k + 1) bp = (GET_ALLOC st (HDRP bp)).bind fun a =>
      if a = 0 then (NEXT_FREE st bp).bind fun n =>
        (freeFrom st k n).bind fun rest => some (bp :: rest)
      else some [] := rfl

theorem one_block_heap {st : State} {S : Nat} (hS8 : S % 8 = 0) (hS0 : 0 < S)
    (hlt : S + 4128 < U64) (hlo : st.lo = S) (hbrk : st.brk = S + 4128)
    (hh : st.heap_listp = S + 8) (hf : st.free_listp = S + 32)
    (w1 : wordAt st.mem (S + 4) = 9) (w2 : wordAt st.mem (S + 28) = 4096)
    (w4 : wordAt st.mem (S + 4124) = 1) (hnx : nextOf st.mem (S + 32) = S + 8) :
    heapBlocks st = some [(S + 32, 4096, 0)] ∧ freeList st = some [S + 32] := by
  have hU64 : U64 = 18446744073709551616 := rfl
  have ok1 : okAt st (S + 28) 4 := ⟨by omega, by omega⟩
  have ok2 : okAt st (S + 4124) 4 := ⟨by omega, by omega⟩
  have ok3 : okAt st (S + 4) 4 := ⟨by omega, by omega⟩
  have ok4 : okAt st (S + 40) 8 := ⟨by omega, by omega⟩
  have h1 : HDRP (S + 32) = S + 28 := HDRP_eq (by omega) (by omega)
  have h2 : HDRP (S + 4128) = S + 4124 := HDRP_eq (by omega) (by omega)
  have h3 : HDRP (S + 8) = S + 4 := HDRP_eq (by omega) (by omega)
  have g1 : GET st (HDRP (S + 32)) = some 4096 := by rw [h1, GET_eq ok1, w2]
  have g2 : GET st (HDRP (S + 4128)) = some 1 := by rw [h2, GET_eq ok2, w4]
  have a1 : GET_ALLOC st (HDRP (S + 32)) = some 0 := by
    rw [h1, GET_ALLOC_eq ok1, w2]; rfl
  have a3 : GET_ALLOC st (HDRP (S + 8)) = some 1 := by
    rw [h3, GET_ALLOC_eq ok3, w1]; rfl
  have n1 : NEXT_FREE st (S + 32) = some (S + 8) := by
    unfold NEXT_FREE
    rw [add64_eq (by simp only [DSIZE]; omega)]
    simp only [DSIZE]
    rw [GETP_eq ok4]
    exact congrArg some hnx
  have s1 : sizeOf32 4096 = 4096 := rfl
  have s2 : sizeOf32 1 = 0 := rfl
  have s3 : allocOf32 4096 = 0 := rfl
  constructor
  · unfold heapBlocks
    rw [hlo, hbrk, hh, add64_eq (by simp only [DSIZE]; omega),
      show (S + 4128 - S) / 8 + 1 = 515 + 1 + 1 by omega,
      show S + 8 + 3 * DSIZE = S + 32 by simp only [DSIZE]]
    rw [blocksFrom_succ, g1, Option.some_bind, s1, s3, if_neg (by omega),
      add64_eq (by omega), blocksFrom_succ, g2, Option.some_bind, s2, if_pos rfl]
    rfl
  · unfold freeList
    rw [hlo, hbrk, hf, show (S + 4128 - S) / 4 + 2 = 1032 + 1 + 1 by omega]
    rw [freeFrom_succ, a1, Option.some_bind, if_pos rfl, n1, Option.some_bind,
      freeFrom_succ, a3, Option.some_bind, if_neg (by omega)]
    rfl

/-! ## The claims -/

/-- C1, failing run: after `mm_init` and `mm_malloc(16)` on a zero-filled heap
the blocks of the heap are the allocated block at 4128 and the split remainder
at 4160, whose header has allocated bit 0, while no block is reachable from
`free_listp`. -/
theorem C1_split_remainder_outside_free_list :
    ((mm_init heap0).bind fun r => (mm_malloc r.2 16).bind fun r2 =>
      (heapBlocks r2.2).bind fun bl => (freeList r2.2).map fun fl => (r2.1, bl, fl))
      = some (4128, [(4128, 32, 1), (4160, 4064, 0)], []) := by
  decide

/-- C2, failing runs: after `mm_init` and `mm_malloc(16)` the search for a block
of 32 bytes finds nothing although the remainder of 4064 bytes is free, so the
next `mm_malloc(16)` turns to `extend_heap`, and on this heap it faults there;
and where the calls do return (a block of 4096 bytes is split while another
allocated block follows it), `mm_malloc(16)` after the split moves the break
from 12320 to 16416 and returns the new region, not the free remainder. -/
theorem C2_allocate_after_split_grows_heap :
    ((mm_init heap0).bind fun r => (mm_malloc r.2 16).bind fun r2 =>
      (find_fit r2.2 32).map fun b => (r2.1, b, (mm_malloc r2.2 16).isNone))
      = some (4128, 0, true) ∧
    ((mm_init heap0).bind fun r =>
      (runCalls r.2 [Call.malloc 4088, Call.malloc 4088, Call.free 4128, Call.malloc 16]).bind
        fun r2 => (heapBlocks r2.2).bind fun bl => (mm_malloc r2.2 16).map fun r3 =>
          (r2.1, bl, [r2.2.brk, r3.1, r3.2.brk]))
      = some ([4128, 8224, 4128], [(4128, 32, 1), (4160, 4064, 0), (8224, 4096, 1)],
          [12320, 12320, 16416]) := by
  decide

/-- C3, failing run: `mm_malloc(4064)` right after `mm_init` places an adjusted
size of 4072 in the free block of 4096 bytes; the difference is 24, `place`
splits, and the heap holds a free block of 24 bytes. -/
theorem C3_place_splits_off_24_bytes :
    ((mm_init heap0).bind fun r => (mm_malloc r.2 4064).bind fun r2 =>
      (heapBlocks r2.2).map fun bl => (r2.1, bl))
      = some (4128, [(4128, 4072, 1), (8200, 24, 0)]) := by
  decide

/-- C4, failing runs: right after `mm_init`, `mm_malloc(2^64 - 1)` returns 4128
with header and footer `PACK(32, 1)`, since `ALIGN` wraps to 0 and the adjusted
size is 32, far less than the request plus 8; and with a provider that has room
for 8 GiB, `mm_malloc(2^32 - 8)` returns 8224 with the header word and the
footer word both 0, since the adjusted size 2^32 does not fit a header word. -/
theorem C4_capacity_fails_for_huge_requests :
    ((mm_init heap0).bind fun r => (mm_malloc r.2 (U64 - 1)).bind fun r2 =>
        (tags r2.2 r2.1).map fun t => (r2.1, t)) = some (4128, PACK 32 1, PACK 32 1)
      ∧ sizeOf32 (PACK 32 1) < (U64 - 1) + 8
      ∧ ((mm_init bigHeap0).bind fun r => (mm_malloc r.2 (U32 - 8)).bind fun r2 =>
        (tags r2.2 r2.1).map fun t => (r2.1, t)) = some (8224, 0, 0) := by
  decide

/-- C4, amended: on a well-formed heap (`HeapWF`, whose provider keeps the heap
below 4 GiB), for a request of `n` bytes with `0 < n` and `n + 16 ≤ 2^64`, a
non-null pointer `p` returned by `mm_malloc` is the block pointer of a block
whose header word at `HDRP(p)` and footer word at `p + s - DSIZE` both read
`PACK(s, 1)`, where `s` is a multiple of 8, at least the adjusted size
`MAX(ALIGN(n) + DSIZE, 4 * DSIZE)`, which is `max(align8(n) + 8, 32)`, and at
least `n + 8`, so that the `n` bytes from `p` end at or before the footer. -/
theorem C4_capacity_of_allocation (st st' : State) (L : List Nat) (n p : Nat)
    (h : HeapWF st L) (hn : 0 < n) (hn2 : n + 16 ≤ U64)
    (hm : mm_malloc st n = some (p, st')) (hp : p ≠ 0) :
    ∃ s, wordAt st'.mem (HDRP p) = PACK s 1 ∧ wordAt st'.mem (p + s - DSIZE) = PACK s 1 ∧
      s % 8 = 0 ∧ MAX (add64 (ALIGN n) DSIZE) (DSIZE * 4) ≤ s ∧
      MAX (add64 (ALIGN n) DSIZE) (DSIZE * 4) = MAX ((n + 7) / 8 * 8 + 8) 32 ∧
      n + 8 ≤ s ∧ p + n ≤ p + s - DSIZE := by
  obtain ⟨s, h1, h2, h3, h4, h5, h6⟩ := malloc_tags h hn hn2 hm hp
  obtain ⟨e1, _, _, e4, _⟩ := asize_facts hn2
  refine ⟨s, ?_, h2, h3, ?_, e1, by omega, ?_⟩
  · rw [HDRP_eq (by omega) h5]; exact h1
  · rw [e1]; exact h4
  · simp only [DSIZE]; omega

/-- C4, witness: the amended statement at `mm_malloc(16)` right after `mm_init`,
which returns 4128. -/
theorem C4_capacity_of_allocation_witness :
    HeapWF heap1 [4128] ∧ mm_malloc heap1 16 = some (4128, heap2) ∧
      ∃ s, wordAt heap2.mem (HDRP 4128) = PACK s 1 ∧
        wordAt heap2.mem (4128 + s - DSIZE) = PACK s 1 ∧
        s % 8 = 0 ∧ MAX (add64 (ALIGN 16) DSIZE) (DSIZE * 4) ≤ s ∧
        MAX (add64 (ALIGN 16) DSIZE) (DSIZE * 4) = MAX ((16 + 7) / 8 * 8 + 8) 32 ∧
        16 + 8 ≤ s ∧ 4128 + 16 ≤ 4128 + s - DSIZE :=
  ⟨by decide, by rfl,
    C4_capacity_of_allocation heap1 heap2 [4128] 16 4128 (by decide) (by decide) (by decide)
      (by rfl) (by decide)⟩

/-- C5, failing runs: the heap base 4096 is a multiple of 8, every call returns,
and the third `mm_malloc` returns 4196, which is not a multiple of 8 and lies
inside the live block at 4128. In the first run the provider's memory holds
stale values (`plantedMem`) and the calls are `mm_malloc(16)`, `mm_free(4128)`,
`mm_malloc(4088)`, `mm_malloc(16)`: the first call splits and leaves the
remainder at 4160 free but unlisted, `mm_free` merges it and `removeF` takes the
stale value 4196 at 4168 as its next-free link, so that 4196 enters the free
list. In the second run memory is zero-filled and the same three values are left
by the caller, who stored them in the block at 4128 while it was live. -/
theorem C5_misaligned_pointer_returned :
    4096 % ALIGNMENT = 0 ∧ 4196 % ALIGNMENT = 4 ∧
    ((mm_init (fresh plantedMem 4096 1000000 MINUS1)).bind fun r0 =>
      (runCalls r0.2 [Call.malloc 16, Call.free 4128, Call.malloc 4088, Call.malloc 16]).bind
        fun r => (tags r.2 4128).map fun t =>
          r.1 ++ [mem_heap_lo r.2, mem_heap_hi r.2, t.1, t.2])
      = some [4128, 4128, 4196, 4096, 8223, PACK 4096 1, PACK 4096 1] ∧
    ((mm_init heap0).bind fun r0 => (mm_malloc r0.2 4088).bind fun ra =>
      (store ra.2 (ra.1 + 40) 4196).bind fun s1 =>
      (store s1 (ra.1 + 64) 32).bind fun s2 =>
      (store s2 (ra.1 + 72) 17626545782784).bind fun s3 =>
      (runCalls s3 [Call.free 4128, Call.malloc 16, Call.free 4128, Call.malloc 4088,
        Call.malloc 16]).map fun r => ra.1 :: r.1)
      = some [4128, 4128, 4128, 4196] := by
  decide

/-- C6, failing run: after `mm_init` the prologue at `heap_listp` has the header
word `PACK(8, 1)`, and its footer word is 4128, the low half of the pointer that
`insertF` stored as the previous-free link of the old list head. -/
theorem C6_prologue_footer_overwritten :
    ((mm_init heap0).map fun r => (r.1, r.2.heap_listp, tags r.2 r.2.heap_listp,
      sizeOf32 4128, allocOf32 4128))
      = some (0, 4104, some (PACK 8 1, 4128), 4128, 0) := by
  decide

/-- C7, failing run: twelve calls after `mm_init` on a zero-filled heap all
return, each `mm_free` is applied to a pointer that the run returned and has not
freed since, and the heap ends with the free block of 4096 bytes at 12320
directly followed by the free block of 8192 bytes at 16416. -/
theorem C7_adjacent_free_blocks_reached :
    ((mm_init heap0).bind fun r =>
      (runCalls r.2 [Call.malloc 4088, Call.malloc 4088, Call.malloc 4088, Call.free 8224,
        Call.malloc 8184, Call.free 12320, Call.free 16416, Call.malloc 8184,
        Call.free 4128, Call.free 8224, Call.malloc 8184, Call.malloc 4088]).bind
        fun r2 => (heapBlocks r2.2).map fun bl => (r2.1, bl))
      = some ([4128, 8224, 12320, 16416, 8224, 4128, 8224],
          [(4128, 8192, 1), (12320, 4096, 0), (16416, 8192, 0)]) := by
  decide

/-- C8, failing run: in `bigHeap` the live block of 2 GiB at 2147491872 follows
the free, listed block of 2 GiB at 8224 and precedes the epilogue. Once its tags
are marked free, its neighbourhood is as the claim asks, and `coalesce` returns
8224 as the head of the free list, but the header word there is 0 and not
`PACK(2^32, 0)`: the merged size does not fit the 32-bit word. The same is seen
through the interface: after two calls `mm_malloc(2147483640)` that return the
physically adjacent blocks 8224 and 2147491872, with the live block 4128 before
and the epilogue after them, freeing both leaves header and footer 0 at 8224. -/
theorem C8_merged_size_exceeds_header_word :
    Neighbourhood (freed bigHeap 2147491872 2147483648) [8224]
        2147491872 2147483648 0 2147483648 0 0 1
      ∧ (coalesce (freed bigHeap 2147491872 2147483648) 2147491872).map
          (fun r => (r.1, r.2.free_listp, wordAt r.2.mem (HDRP r.1))) = some (8224, 8224, 0)
      ∧ PACK (mergedSize 2147483648 2147483648 0 0 1) 0 = 4294967296
      ∧ ((mm_init bigHeap0).bind fun r =>
          (runCalls r.2 [Call.malloc 4088, Call.malloc 2147483640, Call.malloc 2147483640,
            Call.free 8224, Call.free 2147491872]).bind fun r2 =>
          (tags r2.2 8224).map fun t => (r2.1, r2.2.free_listp, t))
        = some ([4128, 8224, 2147491872], 8224, 0, 0) := by
  decide

/-- C8, amended: when the block at `bp` has free tags in a well-formed
neighbourhood whose free members are listed, and the sizes of the block and of
its two neighbours together stay below 2^32 (`CoalesceReady`), `coalesce(bp)`
returns `mergedBase`, the previous block if that one is free and `bp` otherwise;
the free list is then the returned block followed by the old list without the
merged neighbours, the returned block is `free_listp`, its header and footer
read `PACK(S, 0)` with `S` the size of `bp` plus the sizes of the free
neighbours, and neither the returned block nor a merged next block occurs in
the rest of the list. And when two physically adjacent live blocks `a` and
`a + sa` with allocated outer neighbours are freed in this order (`FreeReady`
for both), both calls return and leave the single free block `a` of size
`sa + sb` at the head of the free list. -/
theorem C8_coalesce_merges_free_neighbours
    (st : State) (L : List Nat) (bp sz psz pa nsz na : Nat)
    (st0 : State) (L0 : List Nat) (a sa sb p0 n0 : Nat)
    (h : CoalesceReady st L bp sz psz pa nsz na)
    (ha : FreeReady st0 L0 a sa p0 1 sb 1) (hb : FreeReady st0 L0 (a + sa) sb sa 1 n0 1) :
    (∃ st', coalesce st bp = some (mergedBase bp psz pa, st') ∧
        FLWF st' (mergedBase bp psz pa :: mergedRest L bp sz psz pa na) ∧
        st'.free_listp = mergedBase bp psz pa ∧
        wordAt st'.mem (mergedBase bp psz pa - WSIZE) = PACK (mergedSize sz psz pa nsz na) 0 ∧
        wordAt st'.mem (mergedBase bp psz pa + mergedSize sz psz pa nsz na - DSIZE)
          = PACK (mergedSize sz psz pa nsz na) 0 ∧
        mergedBase bp psz pa ∉ mergedRest L bp sz psz pa na ∧
        (na = 0 → bp + sz ∉ mergedBase bp psz pa :: mergedRest L bp sz psz pa na)) ∧
      (∃ st1 st2, mm_free st0 a = some st1 ∧ mm_free st1 (a + sa) = some st2 ∧
        FLWF st2 (a :: L0) ∧ st2.free_listp = a ∧
        wordAt st2.mem (a - WSIZE) = PACK (sa + sb) 0 ∧
        wordAt st2.mem (a + (sa + sb) - DSIZE) = PACK (sa + sb) 0) := by
  refine ⟨?_, free_two_adjacent ha hb⟩
  obtain ⟨st', c1, c2, _, c4, c5, c6, _⟩ := coalesce_spec h
  have hnd := LinkWF_nodup c2.1
  have hndL := LinkWF_nodup h.1.1.1
  refine ⟨st', c1, c2, c4, c5, c6, (List.nodup_cons.mp hnd).1, ?_⟩
  intro hna hmem
  rcases List.mem_cons.mp hmem with e | hm
  · have := mergedBase_le bp psz pa
    have := h.1.2.2.2.1
    omega
  · exact mergedRest_next hndL hna hm

/-- C8, witness: `coalesce` on the block at 8224 of `heap4` once its tags are
marked free, with the free blocks 4128 and 12320 on either side, and the two
calls `mm_free(8224)`, `mm_free(12320)` on `heap3`. -/
theorem C8_coalesce_merges_free_neighbours_witness :
    CoalesceReady (freed heap4 8224 4096) [12320, 4128] 8224 4096 4096 0 4096 0 ∧
      FreeReady heap3 [] 8224 4096 4096 1 4096 1 ∧
      FreeReady heap3 [] (8224 + 4096) 4096 4096 1 0 1 ∧
      ((∃ st', coalesce (freed heap4 8224 4096) 8224 = some (mergedBase 8224 4096 0, st') ∧
        FLWF st' (mergedBase 8224 4096 0 :: mergedRest [12320, 4128] 8224 4096 4096 0 0) ∧
        st'.free_listp = mergedBase 8224 4096 0 ∧
        wordAt st'.mem (mergedBase 8224 4096 0 - WSIZE)
          = PACK (mergedSize 4096 4096 0 4096 0) 0 ∧
        wordAt st'.mem (mergedBase 8224 4096 0 + mergedSize 4096 4096 0 4096 0 - DSIZE)
          = PACK (mergedSize 4096 4096 0 4096 0) 0 ∧
        mergedBase 8224 4096 0 ∉ mergedRest [12320, 4128] 8224 4096 4096 0 0 ∧
        ((0 : Nat) = 0 → 8224 + 4096 ∉
          mergedBase 8224 4096 0 :: mergedRest [12320, 4128] 8224 4096 4096 0 0)) ∧
      (∃ st1 st2, mm_free heap3 8224 = some st1 ∧ mm_free st1 (8224 + 4096) = some st2 ∧
        FLWF st2 (8224 :: []) ∧ st2.free_listp = 8224 ∧
        wordAt st2.mem (8224 - WSIZE) = PACK (4096 + 4096) 0 ∧
        wordAt st2.mem (8224 + (4096 + 4096) - DSIZE) = PACK (4096 + 4096) 0)) :=
  ⟨by decide, by decide, by decide,
    C8_coalesce_merges_free_neighbours (freed heap4 8224 4096) [12320, 4128]
      8224 4096 4096 0 4096 0 heap3 [] 8224 4096 4096 4096 0
      (by decide) (by decide) (by decide)⟩

/-- C9, failing run: in `mm_init; a = mm_malloc(100); b = mm_malloc(100)` on a
zero-filled heap the first allocation returns 4128 and the second one faults:
it produces no result. -/
theorem C9_second_allocation_faults :
    ((mm_init heap0).bind fun r => (mm_malloc r.2 100).map fun r2 =>
      (r.1, r2.1, (mm_malloc r2.2 100).isNone))
      = some (0, 4128, true) := by
  decide

/-- C10, failing runs: whatever value the provider returns on failure, one of
the two growth requests of `mm_init` can fail without `mm_init` returning -1:
a provider without room for the first 32 bytes, or one with room for exactly
those 32 bytes. -/
theorem C10_failed_request_not_reported (failv : Nat) :
    (mm_init (fresh zeroMem 4096 4100 failv)).map Prod.fst ≠ some (-1) ∨
    (mm_init (fresh zeroMem 4096 4128 failv)).map Prod.fst ≠ some (-1) := by
  by_cases h : failv = 0
  · right
    subst h
    decide
  · left
    have h1 : mem_sbrk (fresh zeroMem 4096 4100 failv) (4 * DSIZE)
        = (failv, fresh zeroMem 4096 4100 failv) := by
      simp [mem_sbrk, fresh, DSIZE]
    have h2 : ¬ okAt { fresh zeroMem 4096 4100 failv with heap_listp := failv } failv 4 := by
      simp only [okAt, fresh]
      omega
    simp [mm_init, h1, h, PUT, h2]

/-- C11: in every state `mm_malloc(0)` returns `NULL` and the state it
returns is the state it was called in: memory, break and both globals are
unchanged (a request to the provider would move the break or be refused). -/
theorem C11_allocate_zero_is_null (st : State) : mm_malloc st 0 = some (0, st) := by
  unfold mm_malloc
  simp

/-- C12, failing run: the caller stores two values in the live block at 4128
and frees it; `mm_malloc(16)` reuses 4128 and splits, so the remainder at 4160,
free but unlisted, has the stored values where its links would be. The caller
fills `p = 4128` with 1234567 and calls `mm_realloc(p, 16)`, which returns
`q = 12320`, but the first eight bytes at `q` read 4200: after the copy,
`mm_free(p)` merged the remainder and `removeF` followed its links into `q`. -/
theorem C12_resized_content_overwritten :
    ((mm_init heap0).bind fun r0 => (mm_malloc r0.2 4088).bind fun ra =>
      (mm_malloc ra.2 4088).bind fun rb =>
      (store rb.2 (ra.1 + 32) 12312).bind fun s3 =>
      (store s3 (ra.1 + 40) 4200).bind fun s4 =>
      (mm_free s4 ra.1).bind fun s5 =>
      (mm_malloc s5 16).bind fun rp =>
      (store rp.2 rp.1 1234567).bind fun s7 =>
      (tags s7 rp.1).bind fun t =>
      (mm_realloc s7 rp.1 16).map fun rq =>
        [ra.1, rb.1, rp.1, t.1, rdLE s7.mem rp.1 8, rq.1, rdLE rq.2.mem rq.1 8])
      = some [4128, 8224, 4128, PACK 32 1, 1234567, 12320, 4200] := by
  decide

/-- C13, failing run: with a provider that is out of room, `mm_malloc(5000)`
returns `NULL` and leaves the break where it was, and `mm_calloc(1, 5000)`,
which passes that `NULL` to `memset` with 5000 bytes to set, does not return
`NULL`: it faults. -/
theorem C13_calloc_sets_bytes_at_null :
    ((mm_init smallHeap0).bind fun r0 => (mm_malloc r0.2 4088).bind fun ra =>
      (mm_malloc ra.2 5000).map fun rb =>
        (ra.1, rb.1, ra.2.brk, rb.2.brk, (memset rb.2 rb.1 0 (mul64 1 5000)).isNone,
          (mm_calloc ra.2 1 5000).isNone))
      = some (4128, 0, 8224, 8224, true, true) := by
  decide

/-- C14, failing run: after `mm_init` on a zero-filled heap the first
`mm_malloc(1000)` returns 4128, and the second one does not return; no longer
sequence starting with these two calls returns either. -/
theorem C14_allocation_sequence_faults :
    ((mm_init heap0).bind fun r => (runCalls r.2 [Call.malloc 1000]).map Prod.fst)
      = some [4128] ∧
    ((mm_init heap0).bind fun r =>
      (runCalls r.2 [Call.malloc 1000, Call.malloc 1000]).map Prod.fst) = none ∧
    ((mm_init heap0).bind fun r =>
      (runCalls r.2 [Call.malloc 1000, Call.malloc 1000, Call.malloc 1000, Call.malloc 1000,
        Call.malloc 1000]).map Prod.fst) = none := by
  decide

/-- C15, failing run: with live blocks of 4096 bytes at `p = 4128` and at 8224,
`*SIZE_PTR(p)` reads the eight bytes at `p - 8`, the never-written word at 4120
and the header 4097 of `p` above it, that is `4097 * 2^32`; `mm_realloc(p, 4100)`
therefore copies 4100 bytes, more than the block of `p` has, and the byte at
offset 4092 of the result is the low byte 1 of the header of the block at 8224. -/
theorem C15_copy_size_not_from_header :
    ((mm_init heap0).bind fun r0 => (mm_malloc r0.2 4088).bind fun rp =>
      (mm_malloc rp.2 4088).bind fun rb =>
      (GET_SIZE rb.2 (HDRP rp.1)).bind fun hs =>
      (GETP rb.2 (sub64 rp.1 SIZE_T_SIZE)).bind fun raw =>
      (mm_malloc rb.2 4100).bind fun rq =>
      (reallocCopySize rq.2 rp.1 4100).bind fun n =>
      (mm_realloc rb.2 rp.1 4100).map fun rr =>
        [rp.1, rb.1, hs, raw, n, rr.1, rr.2.mem (rr.1 + 4092), rb.2.mem (rb.1 - 4)])
      = some [4128, 8224, 4096, 4097 * 4294967296, 4100, 12320, 1, 1] := by
  decide

/-- C16: on a region at the non-null address `S`, a multiple of 8, that is
zero-filled and where the provider grants both requests (`S + 32 + 4096` is
within its limit), `mm_init` returns 0 and leaves a heap of `32 + 4096` bytes
with `heap_listp = S + 8`, the prologue header `PACK(8, 1)` at `S + 4`, exactly
one block between prologue and epilogue, the free block of 4096 bytes at
`S + 32` with header and footer `PACK(4096, 0)`, the epilogue header
`PACK(0, 1)` in the last word, and a free list that consists of that block
alone: `free_listp = S + 32`, prev-free null, next-free the sentinel `S + 8`. -/
theorem C16_init_postcondition (m : Mem) (S limit failv : Nat)
    (hS8 : S % 8 = 0) (hS0 : 0 < S) (hroom : S + 32 + 4096 ≤ limit) (hlim : limit < U64)
    (hz : ∀ a, S ≤ a → a < S + 32 + 4096 → m a = 0) :
    ∃ st', mm_init (fresh m S limit failv) = some (0, st') ∧
      mem_heap_lo st' = S ∧ st'.brk = S + 32 + 4096 ∧ st'.heap_listp = S + 8 ∧
      wordAt st'.mem (S + 4) = PACK 8 1 ∧
      heapBlocks st' = some [(S + 32, 4096, 0)] ∧
      wordAt st'.mem (S + 32 - WSIZE) = PACK 4096 0 ∧
      wordAt st'.mem (S + 32 + 4096 - DSIZE) = PACK 4096 0 ∧
      wordAt st'.mem (st'.brk - WSIZE) = PACK 0 1 ∧
      freeList st' = some [S + 32] ∧ st'.free_listp = S + 32 ∧
      prevOf st'.mem (S + 32) = 0 ∧ nextOf st'.mem (S + 32) = S + 8 ∧
      FLWF st' [S + 32] := by
  have hU64 : U64 = 18446744073709551616 := rfl
  have hw : wordAt m (S + 24) = 0 := wordAt_zero (fun i hi => hz _ (by omega) (by omega))
  obtain ⟨st', i1, i2, i3, i4, i5, w1, w2, w3, w4, hF⟩ :=
    mm_init_exact m S limit failv hS8 hS0 (by omega) hlim hw
  have hch := hF.1.2.2.2.2.2.1
  rw [i5] at hch
  have hprev : prevOf st'.mem (S + 32) = 0 := hch.2.1
  have hnext : nextOf st'.mem (S + 32) = S + 8 := by
    have e : nextOf st'.mem (S + 32) = st'.heap_listp := hch.2.2
    rw [e, i4]
  obtain ⟨hb, hl⟩ := one_block_heap hS8 hS0 (by omega) i2 i3 i4 i5 w1 w2 w4 hnext
  refine ⟨st', i1, i2, i3, i4, w1, hb, ?_, ?_, ?_, hl, i5, hprev, hnext, hF⟩
  · rw [show S + 32 - WSIZE = S + 28 by simp only [WSIZE]; omega]; exact w2
  · rw [show S + 32 + 4096 - DSIZE = S + 4120 by simp only [DSIZE]; omega]; exact w3
  · rw [i3, show S + 32 + 4096 - WSIZE = S + 4124 by simp only [WSIZE]; omega]; exact w4

/-- C16, witness: the zero-filled heap at 4096 with room for a megabyte. -/
theorem C16_init_postcondition_witness :
    (∀ a, 4096 ≤ a → a < 4096 + 32 + 4096 → zeroMem a = 0) ∧
    ∃ st', mm_init (fresh zeroMem 4096 1000000 MINUS1) = some (0, st') ∧
      mem_heap_lo st' = 4096 ∧ st'.brk = 4096 + 32 + 4096 ∧ st'.heap_listp = 4096 + 8 ∧
      wordAt st'.mem (4096 + 4) = PACK 8 1 ∧
      heapBlocks st' = some [(4096 + 32, 4096, 0)] ∧
      wordAt st'.mem (4096 + 32 - WSIZE) = PACK 4096 0 ∧
      wordAt st'.mem (4096 + 32 + 4096 - DSIZE) = PACK 4096 0 ∧
      wordAt st'.mem (st'.brk - WSIZE) = PACK 0 1 ∧
      freeList st' = some [4096 + 32] ∧ st'.free_listp = 4096 + 32 ∧
      prevOf st'.mem (4096 + 32) = 0 ∧ nextOf st'.mem (4096 + 32) = 4096 + 8 ∧
      FLWF st' [4096 + 32] :=
  ⟨fun _ _ _ => rfl,
    C16_init_postcondition zeroMem 4096 1000000 MINUS1 (by decide) (by decide) (by decide)
      (by decide) (fun _ _ _ => rfl)⟩

/-- C17: on a well-formed free list `L` (`FLWF`: the chain of next-free links
from `free_listp` visits the free blocks of `L` and ends at the allocated
sentinel) `find_fit(asize)` returns, and its result is `firstFit`, the first
block of `L` in list order whose size is at least `asize`, with every block
before it too small, or `NULL` when no block of `L` is large enough; on the
empty list it returns `NULL`. (`find_fit` has no store: the embedding gives it
no state to return.) -/
theorem C17_find_fit_is_first_fit (st : State) (L : List Nat) (asize : Nat)
    (h : FLWF st L) :
    find_fit st asize = some (firstFit st.mem asize L) ∧
      (firstFit st.mem asize L = 0 ↔ ∀ b ∈ L, hdrSize st.mem b < asize) ∧
      (firstFit st.mem asize L ≠ 0 → ∃ L1 L2, L = L1 ++ firstFit st.mem asize L :: L2 ∧
        (∀ x ∈ L1, hdrSize st.mem x < asize) ∧
        asize ≤ hdrSize st.mem (firstFit st.mem asize L)) ∧
      (L = [] → find_fit st asize = some 0) := by
  have h0 : ∀ b ∈ L, b ≠ 0 := by
    intro b hb
    have := (h.2.2.2.1 b hb).1
    omega
  have hs := firstFit_spec st.mem asize L h0
  refine ⟨find_fit_exact h asize, hs.1, hs.2, ?_⟩
  intro hL
  rw [find_fit_exact h asize, hL]
  rfl

/-- C17, witness: the free list 12320, 4128 of `heap4` and the size 4096. -/
theorem C17_find_fit_is_first_fit_witness :
    FLWF heap4 [12320, 4128] ∧
      (find_fit heap4 4096 = some (firstFit heap4.mem 4096 [12320, 4128]) ∧
      (firstFit heap4.mem 4096 [12320, 4128] = 0 ↔
        ∀ b ∈ [12320, 4128], hdrSize heap4.mem b < 4096) ∧
      (firstFit heap4.mem 4096 [12320, 4128] ≠ 0 →
        ∃ L1 L2, [12320, 4128] = L1 ++ firstFit heap4.mem 4096 [12320, 4128] :: L2 ∧
        (∀ x ∈ L1, hdrSize heap4.mem x < 4096) ∧
        4096 ≤ hdrSize heap4.mem (firstFit heap4.mem 4096 [12320, 4128])) ∧
      (([12320, 4128] : List Nat) = [] → find_fit heap4 4096 = some 0)) :=
  ⟨by decide, C17_find_fit_is_first_fit heap4 [12320, 4128] 4096 (by decide)⟩

/-- C18, failing runs: right after `mm_init` on a heap whose provider has room
for 8 GiB, the last block is the free block of 4096 bytes at 4128.
`extend_heap(2^30 - 2)` requests `2^32 - 8` bytes, which the provider grants;
the merged size `2^32 + 4088` does not fit the header word, and the returned
block 4128 has header 4088, with the footer written 4088 bytes above it, not
`PACK(2^32 - 8 + 4096, 0)`. `extend_heap(2^30)` requests `2^32` bytes and
returns the block 8224 with the header word 1 (size 0, allocated), the last
word of the grown heap is 0 and not the epilogue header, and the free block
before the old epilogue is not merged. -/
theorem C18_extension_size_exceeds_header_word :
    ((mm_init bigHeap0).bind fun r => (tags r.2 4128).bind fun t0 =>
      (extend_heap r.2 1073741822).bind fun r2 => (tags r2.2 r2.1).map fun t =>
        [r.2.brk, t0.1, t0.2, 4 * (1073741822 + 1), extendSize 1073741822, r2.1, r2.2.brk,
          t.1, t.2])
      = some [8224, PACK 4096 0, PACK 4096 0, 4294967292, 4294967288, 4128,
          8224 + 4294967288, PACK 4088 0, PACK 4088 0] ∧
    PACK (mergedSize 4294967288 4096 0 0 1) 0 = 4294971384 ∧
    ((mm_init bigHeap0).bind fun r =>
      (extend_heap r.2 1073741824).bind fun r2 => (tags r2.2 r2.1).bind fun t =>
      (GET r2.2 (r2.2.brk - 4)).map fun e =>
        [extendSize 1073741824, r2.1, r2.2.brk, t.1, t.2, e])
      = some [4294967296, 8224, 8224 + 4294967296, PACK 0 1, 0, 0] := by
  decide

/-- C18, amended: for every word count `w` with `4 * (w + 1) < 2^64`,
`extend_heap(w)` in any state passes `extendSize w` to the provider, which is
`4 * w` with `w` rounded up to an even number, or 32 if that is less, a multiple
of 8, at least 32 and at least `4 * w`. On a well-formed heap whose provider
keeps the heap below 4 GiB (`HeapWF`) and whose last word is the epilogue header
`PACK(0, 1)`, when the provider grants the request, `extend_heap` runs
`coalesce` in the state `extended`, in which the header of the new free block
stands at the address of the old epilogue word, and returns in a state whose
break has moved up by that size, whose last word is again the epilogue header
`PACK(0, 1)`, and in which the returned block is the head of a well-formed free
list, with header and footer `PACK(S, 0)` where `S` is the requested size plus
the size of the last block of the old heap if that block was free. And
`mm_malloc(n)` on a miss calls `extend_heap(w)` with
`4 * w = MAX(asize, CHUNKSIZE)`. -/
theorem C18_extend_heap_layout (w : Nat) (hw : 4 * (w + 1) < U64) :
    (extendSize w = max (4 * (w + w % 2)) 32 ∧ extendSize w % 8 = 0 ∧
      32 ≤ extendSize w ∧ 4 * w ≤ extendSize w) ∧
    (∀ st : State, extend_heap st w =
      (if (mem_sbrk st (extendSize w)).1 = U64 - 1
        then some (0, (mem_sbrk st (extendSize w)).2)
        else (PUT (mem_sbrk st (extendSize w)).2 (HDRP (mem_sbrk st (extendSize w)).1)
            (PACK (extendSize w) 0)).bind fun s1 =>
          (FTRP s1 (mem_sbrk st (extendSize w)).1).bind fun f =>
            (PUT s1 f (PACK (extendSize w) 0)).bind fun s2 =>
              (NEXT_BLKP s2 (mem_sbrk st (extendSize w)).1).bind fun nb =>
                (PUT s2 (HDRP nb) (PACK 0 1)).bind fun s3 =>
                  coalesce s3 (mem_sbrk st (extendSize w)).1)) ∧
    (∀ (st : State) (L : List Nat), HeapWF st L →
      wordAt st.mem (st.brk - WSIZE) = PACK 0 1 → st.brk + extendSize w ≤ st.max →
      (mem_sbrk st (extendSize w)).1 = st.brk ∧
      extend_heap st w = coalesce (extended st (extendSize w)) st.brk ∧
      HDRP st.brk = st.brk - WSIZE ∧
      wordAt (extended st (extendSize w)).mem (st.brk - WSIZE) = PACK (extendSize w) 0 ∧
      (∃ st', extend_heap st w
          = some (mergedBase st.brk (lastSize st) (lastAlloc st), st') ∧
        st'.brk = st.brk + extendSize w ∧
        wordAt st'.mem (st'.brk - WSIZE) = PACK 0 1 ∧
        FLWF st' (mergedBase st.brk (lastSize st) (lastAlloc st) ::
          mergedRest L st.brk (extendSize w) (lastSize st) (lastAlloc st) 1) ∧
        st'.free_listp = mergedBase st.brk (lastSize st) (lastAlloc st) ∧
        wordAt st'.mem (mergedBase st.brk (lastSize st) (lastAlloc st) - WSIZE)
          = PACK (mergedSize (extendSize w) (lastSize st) (lastAlloc st) 0 1) 0 ∧
        wordAt st'.mem (st'.brk - DSIZE)
          = PACK (mergedSize (extendSize w) (lastSize st) (lastAlloc st) 0 1) 0)) ∧
    (∀ (st : State) (n : Nat), 0 < n → n + 16 ≤ U64 →
      find_fit st (MAX (add64 (ALIGN n) DSIZE) (DSIZE * 4)) = some 0 →
      mm_malloc st n =
        ((extend_heap st
            (MAX (MAX (add64 (ALIGN n) DSIZE) (DSIZE * 4)) CHUNKSIZE / WSIZE)).bind
          fun r => if r.1 = 0 then some (0, r.2)
            else (place r.2 r.1 (MAX (add64 (ALIGN n) DSIZE) (DSIZE * 4))).bind
              fun s2 => some (r.1, s2)) ∧
      MAX (MAX (add64 (ALIGN n) DSIZE) (DSIZE * 4)) CHUNKSIZE / WSIZE * 4
        = MAX (MAX (add64 (ALIGN n) DSIZE) (DSIZE * 4)) CHUNKSIZE) := by
  have hU32 : U32 = 4294967296 := rfl
  have hU64 : U64 = 18446744073709551616 := rfl
  obtain ⟨e1, e2, e3, e4, _⟩ := extendSize_eq hw
  refine ⟨⟨e1, e2, e3, e4⟩, fun st => extend_heap_unfold st w (extendSize w) rfl, ?_, ?_⟩
  · intro st L h _ hyes
    obtain ⟨hrun, st', x1, x2, x3, x4, x5, x6, x7⟩ := extend_heap_exact h hw hyes
    have hmax32 := h.2.2.2.2.2.1
    have hmax := h.2.2.2.2.1
    have hs4 := h.1.2.1
    have hlo := h.1.1.2.2.2.1
    have hbs := h.2.2.1
    have t1 := (extended_tags st (extendSize w) (by omega) (by omega) (by omega)).1
    refine ⟨?_, hrun, HDRP_eq (by omega) (by omega), ?_, st', x1, x2, ?_, x4, x5, x6, ?_⟩
    · unfold mem_sbrk
      rw [if_pos hyes]
    · rw [PACK_zero]; exact t1
    · rw [x2]; exact x3
    · rw [x2]; exact x7
  · intro st n hn hn2 hmiss
    exact ⟨malloc_miss hn hmiss, (malloc_extend_words hn2).1⟩

/-- C18, witness: the odd word count 1251, the heap `heap1`, whose last block is
the free block of 4096 bytes at 4128 and whose last word is the epilogue header,
and the request `mm_malloc(5000)`, which misses. -/
theorem C18_extend_heap_layout_witness :
    4 * (1251 + 1) < U64 ∧ HeapWF heap1 [4128] ∧
    wordAt heap1.mem (heap1.brk - WSIZE) = PACK 0 1 ∧
    heap1.brk + extendSize 1251 ≤ heap1.max ∧
    find_fit heap1 (MAX (add64 (ALIGN 5000) DSIZE) (DSIZE * 4)) = some 0 ∧
    (extendSize 1251 = max (4 * (1251 + 1251 % 2)) 32 ∧ extendSize 1251 % 8 = 0 ∧
      32 ≤ extendSize 1251 ∧ 4 * 1251 ≤ extendSize 1251) ∧
    ((mem_sbrk heap1 (extendSize 1251)).1 = heap1.brk ∧
      extend_heap heap1 1251 = coalesce (extended heap1 (extendSize 1251)) heap1.brk ∧
      HDRP heap1.brk = heap1.brk - WSIZE ∧
      wordAt (extended heap1 (extendSize 1251)).mem (heap1.brk - WSIZE)
        = PACK (extendSize 1251) 0 ∧
      (∃ st', extend_heap heap1 1251
          = some (mergedBase heap1.brk (lastSize heap1) (lastAlloc heap1), st') ∧
        st'.brk = heap1.brk + extendSize 1251 ∧
        wordAt st'.mem (st'.brk - WSIZE) = PACK 0 1 ∧
        FLWF st' (mergedBase heap1.brk (lastSize heap1) (lastAlloc heap1) ::
          mergedRest [4128] heap1.brk (extendSize 1251) (lastSize heap1)
            (lastAlloc heap1) 1) ∧
        st'.free_listp = mergedBase heap1.brk (lastSize heap1) (lastAlloc heap1) ∧
        wordAt st'.mem (mergedBase heap1.brk (lastSize heap1) (lastAlloc heap1) - WSIZE)
          = PACK (mergedSize (extendSize 1251) (lastSize heap1) (lastAlloc heap1) 0 1) 0 ∧
        wordAt st'.mem (st'.brk - DSIZE)
          = PACK (mergedSize (extendSize 1251) (lastSize heap1) (lastAlloc heap1) 0 1) 0)) ∧
    (mm_malloc heap1 5000 =
        ((extend_heap heap1
            (MAX (MAX (add64 (ALIGN 5000) DSIZE) (DSIZE * 4)) CHUNKSIZE / WSIZE)).bind
          fun r => if r.1 = 0 then some (0, r.2)
            else (place r.2 r.1 (MAX (add64 (ALIGN 5000) DSIZE) (DSIZE * 4))).bind
              fun s2 => some (r.1, s2)) ∧
      MAX (MAX (add64 (ALIGN 5000) DSIZE) (DSIZE * 4)) CHUNKSIZE / WSIZE * 4
        = MAX (MAX (add64 (ALIGN 5000) DSIZE) (DSIZE * 4)) CHUNKSIZE) :=
  ⟨by decide, by decide, by decide, by decide, by decide,
    (C18_extend_heap_layout 1251 (by decide)).1,
    (C18_extend_heap_layout 1251 (by decide)).2.2.1 heap1 [4128] (by decide) (by decide)
      (by decide),
    (C18_extend_heap_layout 1251 (by decide)).2.2.2 heap1 5000 (by decide) (by decide)
      (by decide)⟩

/-- C19: when the free list of `st` reads as the sequence `L` (`LinkWF`), empty
or not, then for every aligned block `b` above the sentinel whose links lie
inside the heap and overlap the links of no block of `L` (so `b` is not in `L`),
`insertF(b)` returns in a state whose free list reads `b :: L`, with
`free_listp = b`, the prev-free of `b` null, its next-free the old head and the
prev-free of the old head equal to `b`, and `removeF(b)` right after it returns
in a state whose free list reads `L` again; and for every `c` in `L`,
`removeF(c)` returns in a state whose free list reads `L` with `c` erased, the
links of the remaining blocks consistent in both directions (`Chain`), which for
`L = [c]` is the empty list with `free_listp` at the sentinel. -/
theorem C19_list_operations_refine (st : State) (L : List Nat) (h : LinkWF st L) :
    (∀ b, b % 8 = 0 → st.heap_listp + 8 ≤ b → b + 16 ≤ st.brk →
      (∀ x ∈ L, b + 16 ≤ x ∨ x + 16 ≤ b) →
      b ∉ L ∧
      ∃ s1, insertF st b = some s1 ∧ LinkWF s1 (b :: L) ∧ s1.free_listp = b ∧
        prevOf s1.mem b = 0 ∧ nextOf s1.mem b = st.free_listp ∧
        prevOf s1.mem st.free_listp = b ∧
        ∃ s2, removeF s1 b = some s2 ∧ LinkWF s2 L ∧ s2.free_listp = st.free_listp) ∧
    (∀ c, c ∈ L → ∃ s3, removeF st c = some s3 ∧ LinkWF s3 (L.erase c) ∧
      (L = [c] → s3.free_listp = s3.heap_listp)) := by
  constructor
  · intro b hb8 hbs hbb hbfar
    refine ⟨fun hbL => by have := hbfar b hbL; omega, ?_⟩
    obtain ⟨s1, i1, i2, i3, i4, _⟩ := insertF_spec h hb8 hbs hbb hbfar
    have hch := i2.2.2.2.2.2.1
    have hnext : nextOf s1.mem b = st.free_listp := by
      have holdch := h.2.2.2.2.2.1
      rw [i4] at hch
      cases L with
      | nil =>
        have e1 : nextOf s1.mem b = s1.heap_listp := hch.2.2
        have e2 : st.free_listp = st.heap_listp := holdch
        rw [e1, e2, i3.2.2.2.2]
      | cons x L' =>
        have e1 : nextOf s1.mem b = x := hch.2.2.1
        have e2 : st.free_listp = x := holdch.1
        rw [e1, e2]
    have hprev : prevOf s1.mem b = 0 := by
      rw [i4] at hch
      exact hch.2.1
    obtain ⟨s2, r1, r2, _, r4, _⟩ := removeF_spec i2 (List.mem_cons_self b L)
    rw [List.erase_cons_head] at r2
    rw [i4, if_pos rfl, hnext] at r4
    exact ⟨s1, i1, i2, i4, hprev, hnext, insertF_old_head h hbs hbb hbfar i1, s2, r1, r2, r4⟩
  · intro c hc
    obtain ⟨s3, r1, r2, _, _, _⟩ := removeF_spec h hc
    refine ⟨s3, r1, r2, ?_⟩
    intro hL
    rw [hL, List.erase_cons_head] at r2
    exact r2.2.2.2.2.2.1

/-- C19, witness: insertion of the block 8224 into the empty free list of
`heap3` and into the free list 12320, 4128 of `heap4`, removal of 4128 from the
latter, and removal of the only element 4128 of the free list of `heap1`. -/
theorem C19_list_operations_refine_witness :
    LinkWF heap3 [] ∧ heap3.free_listp = heap3.heap_listp ∧
    LinkWF heap4 [12320, 4128] ∧ LinkWF heap1 [4128] ∧
    (8224 ∉ ([] : List Nat) ∧
      ∃ s1, insertF heap3 8224 = some s1 ∧ LinkWF s1 (8224 :: []) ∧ s1.free_listp = 8224 ∧
        prevOf s1.mem 8224 = 0 ∧ nextOf s1.mem 8224 = heap3.free_listp ∧
        prevOf s1.mem heap3.free_listp = 8224 ∧
        ∃ s2, removeF s1 8224 = some s2 ∧ LinkWF s2 [] ∧
          s2.free_listp = heap3.free_listp) ∧
    (8224 ∉ [12320, 4128] ∧
      ∃ s1, insertF heap4 8224 = some s1 ∧ LinkWF s1 (8224 :: [12320, 4128]) ∧
        s1.free_listp = 8224 ∧ prevOf s1.mem 8224 = 0 ∧
        nextOf s1.mem 8224 = heap4.free_listp ∧ prevOf s1.mem heap4.free_listp = 8224 ∧
        ∃ s2, removeF s1 8224 = some s2 ∧ LinkWF s2 [12320, 4128] ∧
          s2.free_listp = heap4.free_listp) ∧
    (∃ s3, removeF heap4 4128 = some s3 ∧ LinkWF s3 ([12320, 4128].erase 4128) ∧
      (([12320, 4128] : List Nat) = [4128] → s3.free_listp = s3.heap_listp)) ∧
    (∃ s3, removeF heap1 4128 = some s3 ∧ LinkWF s3 ([4128].erase 4128) ∧
      (([4128] : List Nat) = [4128] → s3.free_listp = s3.heap_listp)) :=
  ⟨by decide, by decide, by decide, by decide,
    (C19_list_operations_refine heap3 [] (by decide)).1 8224 (by decide) (by decide)
      (by decide) (by decide),
    (C19_list_operations_refine heap4 [12320, 4128] (by decide)).1 8224 (by decide)
      (by decide) (by decide) (by decide),
    (C19_list_operations_refine heap4 [12320, 4128] (by decide)).2 4128 (by decide),
    (C19_list_operations_refine heap1 [4128] (by decide)).2 4128 (by decide)⟩

/-- C20, failing runs: on a heap at 4096 `mm_init` returns 0 when memory is
zero-filled and faults when the single byte at 4120, which `mm_init` never
writes, holds 8; and on a heap at `hiBase` it returns 0 for both contents, with
the free block of 4096 bytes at `hiBase + 32` as the free list for zero-filled
memory, and with no block at all and `free_listp = hiBase + 24` for the stale
contents `staleHiMem`. -/
theorem C20_init_depends_on_stale_word :
    (mm_init (fresh zeroMem 4096 1000000 MINUS1)).map Prod.fst = some 0 ∧
    (mm_init (fresh staleMem 4096 1000000 MINUS1)).map Prod.fst = none ∧
    (mm_init (fresh zeroMem hiBase (hiBase + 1000000) MINUS1)).map Prod.fst = some 0 ∧
    (mm_init (fresh staleHiMem hiBase (hiBase + 1000000) MINUS1)).map Prod.fst = some 0 ∧
    ((mm_init (fresh zeroMem hiBase (hiBase + 1000000) MINUS1)).bind fun r =>
      (heapBlocks r.2).map fun bl => (r.2.free_listp, bl))
      = some (hiBase + 32, [(hiBase + 32, 4096, 0)]) ∧
    ((mm_init (fresh staleHiMem hiBase (hiBase + 1000000) MINUS1)).bind fun r =>
      (heapBlocks r.2).map fun bl => (r.2.free_listp, bl))
      = some (hiBase + 24, []) := by
  decide

end Malloc
